import Mathlib

/-! bilgepump: the filter engine and the lease-based candidate lifecycle

A shallow embedding of `pkg/mark/mark.go`, `pkg/cache/redis.go`,
`pkg/mark/aws/filter.go`, `pkg/mark/aws/aws.go` and `pkg/mark/k8s`.

Conventions of the embedding

* Go `string` is `String`; a `*string` that the AWS SDK always fills (ids, tag keys and
  values) is a plain `String`.
* `time.Time` and `time.Duration` are `Int` (nanoseconds); the clock that `time.Now()` and
  the Redis server read is the explicit argument `now`.
* A function whose Go body can stop with a runtime panic (nil dereference, index out of
  range) returns `Option`: `none` is the panic.
* Functions of other libraries that the repository calls (`model.ParseDuration`,
  `json.Marshal`, `json.Unmarshal`, `regexp`) are the fields of `Lib`; the business logic
  is proved for every `Lib`, and `goLib` below gives the concrete instance, written after
  the behaviour of those libraries.
* Logging is dropped: it does not influence any result.
* Redis commands are assumed to be answered (no transport error), so the `err != nil`
  branches after a cache call are not taken.
-/

set_option linter.unusedVariables false

namespace Bilgepump

/-! ## Data model (`pkg/mark/mark.go`) -/

/-- Go `map[string]string`: an association list kept strictly sorted by key, so that two
maps with the same entries are the same value.  `encoding/json` writes map entries in
sorted key order, which is the order of this list. -/
abbrev GoMap := List (String × String)

/-- The assignment `m[k] = v` on a Go map. -/
def GoMap.set (k v : String) : GoMap → GoMap
  | [] => [(k, v)]
  | (k', v') :: rest =>
    if k.data < k'.data then (k, v) :: (k', v') :: rest
    else if k = k' then (k, v) :: rest
    else (k', v') :: GoMap.set k v rest

/-- The order of map entries: by key. -/
def keyLt (a b : String × String) : Prop := a.1 < b.1

/-- The read `m[k]` with its presence flag. -/
def GoMap.get? (k : String) (m : GoMap) : Option String :=
  (m.find? (fun kv => kv.1 == k)).map Prod.snd

/-- The type `MarkerType int` with its three constants. -/
abbrev MarkerType := Int

/-- The constant `AWS`. -/
def AWS : MarkerType := 0

/-- The constant `GCP`. -/
def GCP : MarkerType := 1

/-- The constant `K8S`. -/
def K8S : MarkerType := 2

/-- The constant `REQUIRED_TAG`. -/
def REQUIRED_TAG : String := "ttl"

/-- The struct `MarkedCandidate`; `Tags = none` is the nil map. -/
structure MarkedCandidate where
  MarkerType : MarkerType
  CandidateType : String
  Id : String
  Owner : String
  Ttl : String
  Purpose : String
  Account : String
  Tags : Option GoMap
deriving DecidableEq, Repr

/-- The error type `NoCandidatesError`. -/
structure NoCandidatesError where
  err : String
deriving DecidableEq, Repr

/-- Functions of other libraries used by the repository.
`ParseDuration` is `model.ParseDuration` (`none` for an error),
`jsonMarshal` is `json.Marshal` applied to a `*MarkedCandidate`,
`jsonUnmarshal` is `json.Unmarshal(data, &m)` for `var m *MarkedCandidate`: it gives the
error, or the pointer left in `m` (`none` for nil),
`regexMatch re s` is `regexp.MustCompile(re).MatchString(s)`. -/
structure Lib where
  ParseDuration : String → Option Int
  jsonMarshal : MarkedCandidate → String
  jsonUnmarshal : String → Except String (Option MarkedCandidate)
  regexMatch : String → String → Bool

/-- The function `WithinTTLTime`; `time.Since(start)` is `now - start` (its saturation at
the ends of the range of `time.Duration` does not change a comparison with a
`time.Duration`). -/
def WithinTTLTime (L : Lib) (now : Int) (ttl : String) (start : Int) : Bool :=
  match L.ParseDuration ttl with
  | none => false
  | some parsedTtl => decide (now - start < parsedTtl)

/-! ## The cache (`pkg/cache/redis.go`) -/

/-- The method `Unix` of `time.Time`, for a time in nanoseconds: its whole seconds, rounded
down. -/
def Unix (tm : Int) : Int := Int.fdiv tm 1000000000

/-- The calls of the Redis client that change the store, each with its arguments. -/
inductive RedisCmd where
  | SAdd (key value : String)
  | SRem (key value : String)
  | Set (key value : String)
  | ExpireAt (key : String) (tm : Int)
deriving DecidableEq, Repr

/-- The Redis store as the program uses it.  `sets key` lists the members of the set at
`key` in the order `SSCAN` reports them (a missing key is the empty set); `strings key` is
the string value at `key` with its expiry time, if one was set.  Set keys
(`bilge:owners`, `bilge:candidates:<owner>`) and string keys (`bilge:timers:<id>`) never
coincide, so the two are kept apart.  `log` records the write calls made, oldest
first. -/
structure RedisCache where
  sets : String → List String
  strings : String → Option (String × Option Int)
  log : List RedisCmd

namespace RedisCache

/-- The command `SADD key value`. -/
def SAdd (rc : RedisCache) (key value : String) : RedisCache :=
  { rc with
    sets := Function.update rc.sets key
      (if value ∈ rc.sets key then rc.sets key else rc.sets key ++ [value])
    log := rc.log ++ [RedisCmd.SAdd key value] }

/-- The command `SREM key value`. -/
def SRem (rc : RedisCache) (key value : String) : RedisCache :=
  { rc with
    sets := Function.update rc.sets key ((rc.sets key).filter (fun m => m ≠ value))
    log := rc.log ++ [RedisCmd.SRem key value] }

/-- The command `SET key value` without expiry: any former expiry is dropped. -/
def Set (rc : RedisCache) (key value : String) : RedisCache :=
  { rc with
    strings := Function.update rc.strings key (some (value, none))
    log := rc.log ++ [RedisCmd.Set key value] }

/-- The client call `ExpireAt(key, tm)`.  It sends the command `EXPIREAT key tm.Unix()`, so
the store keeps the expiry in whole seconds: the key is gone from the start of the second
that holds `tm`. -/
def ExpireAt (rc : RedisCache) (key : String) (tm : Int) : RedisCache :=
  { rc with
    strings := Function.update rc.strings key
      (match rc.strings key with
       | some (v, _) => some (v, some (Unix tm * 1000000000))
       | none => none)
    log := rc.log ++ [RedisCmd.ExpireAt key tm] }

/-- The command `EXISTS key`, asked at time `now`, for a string key. -/
def Exists (rc : RedisCache) (now : Int) (key : String) : Bool :=
  match rc.strings key with
  | some (_, some tm) => decide (now < tm)
  | some (_, none) => true
  | none => false

/-- The method `Write`. -/
def Write (rc : RedisCache) (key value : String) : RedisCache :=
  rc.SAdd key value

/-- The method `TimerExists`. -/
def TimerExists (rc : RedisCache) (now : Int) (key : String) : Bool :=
  rc.Exists now key

/-- The method `WriteTimer`, run at time `now`; the store keeps the expiry `ttl` in whole
seconds, as `ExpireAt` sends it. -/
def WriteTimer (rc : RedisCache) (now : Int) (key value : String) (ttl : Int) : RedisCache :=
  if !rc.TimerExists now key then
    (rc.Set key value).ExpireAt key ttl
  else rc

/-- The method `ReadOwners`. -/
def ReadOwners (rc : RedisCache) : List String :=
  rc.sets "bilge:owners"

/-- The method `ReadCandidates`. -/
def ReadCandidates (rc : RedisCache) (owner : String) : List String :=
  rc.sets ("bilge:candidates:" ++ owner)

/-- The method `CandidateExists`. -/
def CandidateExists (rc : RedisCache) (owner candidate : String) : Bool :=
  decide (candidate ∈ rc.sets ("bilge:candidates:" ++ owner))

/-- The method `Delete`. -/
def Delete (rc : RedisCache) (key value : String) : RedisCache :=
  rc.SRem key value

end RedisCache

/-! ## Candidate store (`pkg/mark/mark.go`) -/

/-- One pass of the loop body of `BuildCandidates`: the pointer left in `mcs[i]` for the
entry `mc`.  On an error of `json.Unmarshal` the body continues and the slot keeps the nil
pointer it was allocated with (`none`). -/
def slotOf (L : Lib) (mc : String) : Option MarkedCandidate :=
  match L.jsonUnmarshal mc with
  | Except.error _ => none
  | Except.ok m => m

/-- The function `BuildCandidates`.  The result slice is allocated with one slot per entry
read (`make([]*MarkedCandidate, len(cans))`) and slot `i` is filled from entry `i`. -/
def BuildCandidates (L : Lib) (owner : String) (c : RedisCache) :
    Except NoCandidatesError (List (Option MarkedCandidate)) :=
  let cans := c.ReadCandidates owner
  if cans.length = 0 then
    Except.error ⟨"no candidates to mark"⟩
  else
    Except.ok (cans.map (slotOf L))

/-- The inner loop of `RemoveCandidates` over `ids` for the slot `ix`.  Reading `can.Id`
through a nil pointer and indexing `strCans` out of range are panics. -/
def removeForIds (key : String) (strCans : List String) (ix : Nat)
    (can : Option MarkedCandidate) : List String → RedisCache → Option RedisCache
  | [], c => some c
  | value :: rest, c =>
    match can with
    | none => none
    | some m =>
      if value = m.Id then
        match strCans[ix]? with
        | none => none
        | some s => removeForIds key strCans ix can rest (c.Delete key s)
      else removeForIds key strCans ix can rest c

/-- The outer loop of `RemoveCandidates` over the slots of `cans`, from index `ix` on. -/
def removeForCans (key : String) (strCans : List String) (ids : List String) :
    Nat → List (Option MarkedCandidate) → RedisCache → Option RedisCache
  | _, [], c => some c
  | ix, can :: rest, c =>
    match removeForIds key strCans ix can ids c with
    | none => none
    | some c' => removeForCans key strCans ids (ix + 1) rest c'

/-- The function `RemoveCandidates`: the returned error (`none` for nil) and the cache
afterwards; the outer `none` is a panic. -/
def RemoveCandidates (L : Lib) (owner : String) (c : RedisCache) (ids : List String) :
    Option (Option NoCandidatesError × RedisCache) :=
  let strCans := c.ReadCandidates owner
  if strCans.length = 0 then
    some (some ⟨"no candidates to remove"⟩, c)
  else
    match BuildCandidates L owner c with
    | Except.error err => some (some err, c)
    | Except.ok cans =>
      match removeForCans ("bilge:candidates:" ++ owner) strCans ids 0 cans c with
      | none => none
      | some c' => some (none, c')

/-! ## Configuration (`pkg/config/config.go`) -/

/-- The struct `AwsTagKV`. -/
structure AwsTagKV where
  Key : String
  Value : String
  KeyRegex : String
  ValueRegex : String
deriving DecidableEq, Repr

/-- The struct `Aws`; a field that the YAML leaves out holds the zero value of its type. -/
structure Aws where
  Name : String
  Candidates : List String
  Region : String
  Not : List AwsTagKV
  GracePeriod : String
  DeleteEnabled : Bool
  MaxClientRetry : Int := 0
  MarkSchedule : String := ""
  SweepSchedule : String := ""
  NotifySchedule : String := ""
  IamRole : String := ""
deriving DecidableEq, Repr

/-- The struct `Kubernetes`; a field that the YAML leaves out holds the zero value of its
type. -/
structure Kubernetes where
  Name : String
  DeleteEnabled : Bool
  GracePeriod : String
  Not : List String
  NotRegex : List String
  KubeConfig : String := ""
  KubeContext : String := ""
  MarkSchedule : String := ""
  SweepSchedule : String := ""
  NotifySchedule : String := ""
deriving DecidableEq, Repr

/-- The struct `Slack`. -/
structure Slack where
  Token : String
  DefaultOwner : String
  Channel : String
deriving DecidableEq, Repr

/-- The struct `Config`; `RedisPort` is a `uint32`. -/
structure Config where
  RedisHost : String
  RedisPort : Nat
  Aws : List Aws
  Kubernetes : List Kubernetes
  Slack : Slack
deriving DecidableEq, Repr

def DEFAULT_REDIS_HOST : String := "127.0.0.1"
def DEFAULT_REDIS_PORT : Nat := 6379
def DEFAULT_SWEEP_SCHEDULE : String := "@daily"
def DEFAULT_MARK_SCHEDULE : String := "@hourly"
def DEFAULT_NOTIFY_SCHEDULE : String := "@every 12h"
def DEFAULT_GRACEPERIOD : String := "24h"
def DEFAULT_MAX_RETRY : Int := 10

/-- The body of the loop over `c.Aws` in `setDefaults`: the entry at index `i` afterwards. -/
def setAwsDefaults (aws : Aws) : Aws :=
  let a := if aws.MaxClientRetry ≤ 0 then { aws with MaxClientRetry := DEFAULT_MAX_RETRY } else aws
  let a := if aws.MarkSchedule = "" then { a with MarkSchedule := DEFAULT_MARK_SCHEDULE } else a
  let a := if aws.SweepSchedule = "" then { a with SweepSchedule := DEFAULT_SWEEP_SCHEDULE } else a
  let a := if aws.NotifySchedule = "" then { a with NotifySchedule := DEFAULT_NOTIFY_SCHEDULE } else a
  if aws.GracePeriod = "" then { a with GracePeriod := DEFAULT_GRACEPERIOD } else a

/-- The body of the loop over `c.Kubernetes` in `setDefaults`; `home` is the result of
`os.LookupEnv("HOME")`, and `none` is the exit of `log.Fatal`. -/
def setKubernetesDefaults (home : Option String) (k8s : Kubernetes) : Option Kubernetes :=
  let k := if k8s.MarkSchedule = "" then { k8s with MarkSchedule := DEFAULT_MARK_SCHEDULE } else k8s
  let k := if k8s.SweepSchedule = "" then { k with SweepSchedule := DEFAULT_SWEEP_SCHEDULE } else k
  let k := if k8s.NotifySchedule = "" then { k with NotifySchedule := DEFAULT_NOTIFY_SCHEDULE } else k
  let k := if k8s.GracePeriod = "" then { k with GracePeriod := DEFAULT_GRACEPERIOD } else k
  if k8s.KubeConfig = "" then
    match home with
    | none => none
    | some h => some { k with KubeConfig := h ++ "/.kube/config" }
  else some k

/-- The method `setDefaults`, with the environment variable `HOME` as `home`; `none` is
the exit of `log.Fatal`. -/
def Config.setDefaults (home : Option String) (c : Config) : Option Config :=
  let c := if c.RedisHost = "" then { c with RedisHost := DEFAULT_REDIS_HOST } else c
  let c := if c.RedisPort = 0 then { c with RedisPort := DEFAULT_REDIS_PORT } else c
  let c := { c with Aws := c.Aws.map setAwsDefaults }
  match c.Kubernetes.mapM (setKubernetesDefaults home) with
  | none => none
  | some ks => some { c with Kubernetes := ks }

/-! ## AWS objects and tag extraction (`pkg/mark/aws/filter.go`) -/

/-- The SDK type `ec2.Tag`. -/
structure Tag where
  Key : String
  Value : String
deriving DecidableEq, Repr

/-- The SDK type `ec2.Instance`; `StateName` is `State.Name`. -/
structure Instance where
  InstanceId : String
  Tags : List Tag
  LaunchTime : Option Int
  StateName : String
deriving DecidableEq, Repr

/-- The SDK type `ec2.Volume`; `Attachments` is the length of that slice. -/
structure Volume where
  VolumeId : String
  Tags : List Tag
  CreateTime : Option Int
  Attachments : Nat
  State : String
deriving DecidableEq, Repr

/-- The SDK type `ec2.IpPermission`; `UserIdGroupPairs` is the length of that slice. -/
structure IpPermission where
  UserIdGroupPairs : Nat
deriving DecidableEq, Repr

/-- The SDK type `ec2.SecurityGroup`. -/
structure SecurityGroup where
  GroupId : String
  Tags : List Tag
  IpPermissions : List IpPermission
  IpPermissionsEgress : List IpPermission
deriving DecidableEq, Repr

/-- The SDK type `elb.LoadBalancerDescription`; `DescribedTags` is what `extractElbTags`
obtains for it from the provider. -/
structure LoadBalancerDescription where
  LoadBalancerName : String
  CreatedTime : Option Int
  DescribedTags : List Tag
deriving DecidableEq, Repr

/-- The SDK type `elbv2.LoadBalancer`; `DescribedTags` is what `extractAlbTags` obtains. -/
structure LoadBalancer where
  LoadBalancerArn : String
  CreatedTime : Option Int
  DescribedTags : List Tag
deriving DecidableEq, Repr

/-- The SDK type `elasticache.CacheCluster`; `DescribedTags` is what `extractECTags`
obtains. -/
structure CacheCluster where
  CacheClusterId : String
  CacheClusterCreateTime : Option Int
  DescribedTags : List Tag
deriving DecidableEq, Repr

/-- The SDK type `autoscaling.Group`. -/
structure Group where
  AutoScalingGroupName : String
  CreatedTime : Option Int
  Tags : List Tag
  DesiredCapacity : Int
deriving DecidableEq, Repr

/-- The SDK type `autoscaling.LaunchConfiguration`. -/
structure LaunchConfiguration where
  LaunchConfigurationName : String
  CreatedTime : Option Int
deriving DecidableEq, Repr

/-- The dynamic types an `interface{}` handed to the marker can have. -/
inductive AwsObject where
  | volume (obj : Volume)
  | instance (obj : Instance)
  | securityGroup (obj : SecurityGroup)
  | loadBalancerDescription (obj : LoadBalancerDescription)
  | loadBalancer (obj : LoadBalancer)
  | cacheCluster (obj : CacheCluster)
  | group (obj : Group)
  | launchConfiguration (obj : LaunchConfiguration)
deriving DecidableEq, Repr

/-- The library call `strings.SplitN(s, sep, n)` for a one-character separator, on the
characters of `s`. -/
def SplitN (sep : Char) : Nat → List Char → List (List Char)
  | 0, _ => []
  | 1, s => [s]
  | n + 2, s =>
    match s.span (fun ch => ch != sep) with
    | (a, []) => [a]
    | (a, _ :: rest) => a :: SplitN sep (n + 1) rest

/-- The table `tagMap` of `extractLcTags`; a missing index reads as the empty string. -/
def tagMap (i : Nat) : String :=
  match i with
  | 0 => "owner"
  | 1 => "version"
  | 2 => "date"
  | 3 => "ttl"
  | _ => ""

/-- The method `extractLcTags`. -/
def extractLcTags (lc : LaunchConfiguration) : List Tag :=
  (SplitN '-' 4 lc.LaunchConfigurationName.data).enum.map
    fun it => { Key := tagMap it.1, Value := String.mk it.2 }

/-- The method `extractAsgTags`. -/
def extractAsgTags (asg : Group) : List Tag :=
  asg.Tags.map fun t => { Key := t.Key, Value := t.Value }

/-- The method `ExtractTags`: id, tags, creation time and type name. -/
def ExtractTags (awsObject : AwsObject) : String × List Tag × Option Int × String :=
  match awsObject with
  | .volume obj => (obj.VolumeId, obj.Tags, obj.CreateTime, "ebs")
  | .instance obj => (obj.InstanceId, obj.Tags, obj.LaunchTime, "ec2")
  | .securityGroup obj => (obj.GroupId, obj.Tags, none, "sg")
  | .loadBalancerDescription obj => (obj.LoadBalancerName, obj.DescribedTags, obj.CreatedTime, "elb")
  | .loadBalancer obj => (obj.LoadBalancerArn, obj.DescribedTags, obj.CreatedTime, "alb")
  | .cacheCluster obj => (obj.CacheClusterId, obj.DescribedTags, obj.CacheClusterCreateTime, "ec")
  | .group obj => (obj.AutoScalingGroupName, extractAsgTags obj, obj.CreatedTime, "asg")
  | .launchConfiguration obj =>
    (obj.LaunchConfigurationName, extractLcTags obj, obj.CreatedTime, "lc")

/-- The loop of `checkRequiredTags` over the tags from index `ti` on. -/
def checkRequiredTagsFrom (required : String) : Nat → List Tag → Nat × Bool
  | _, [] => (0, false)
  | ti, k :: rest =>
    if k.Key = required then (ti, true)
    else checkRequiredTagsFrom required (ti + 1) rest

/-- The function `checkRequiredTags`. -/
def checkRequiredTags (required : String) (tags : List Tag) : Nat × Bool :=
  checkRequiredTagsFrom required 0 tags

/-- The function `tagOrNil`. -/
def tagOrNil (tag : String) (tags : List Tag) : String :=
  let (tagIndex, tagExists) := checkRequiredTags tag tags
  if tagExists then
    match tags[tagIndex]? with
    | some t => t.Value
    | none => ""
  else ""

/-! ## Filters (`pkg/mark/aws/filter.go`) -/

/-- The type `Filter`: id, tags, creation time (a pointer, `none` for nil). -/
abbrev Filter := String → List Tag → Option Int → Option Bool

/-- The type `TypedFilter`. -/
abbrev TypedFilter := AwsObject → Option Bool

/-- The marker `AwsMarker`, with its configuration and the in-use id sets `sgs` of the
current security-group pass. -/
structure AwsMarker where
  Config : Aws
  sgs : List (String → Bool)

/-- The filter `Ec2IgnoreAutoScaleInstanceFilter`. -/
def Ec2IgnoreAutoScaleInstanceFilter : Filter := fun _ tags _ =>
  some (tags.any fun t => t.Key == "aws:autoscaling:groupName")

/-- The filter `IgnoreConfigFilter`. -/
def IgnoreConfigFilter (L : Lib) (am : AwsMarker) : Filter := fun _ tags _ =>
  some (tags.any fun t => am.Config.Not.any fun ignore =>
    (ignore.Key == t.Key && ignore.Value == t.Value)
    || (ignore.KeyRegex != "" && L.regexMatch ignore.KeyRegex t.Key)
    || (ignore.ValueRegex != "" && L.regexMatch ignore.ValueRegex t.Value))

/-- The filter `NoTagFilter`. -/
def NoTagFilter : Filter := fun _ tags _ =>
  if tags.length = 0 then some true else some false

/-- The filter `NoTTLTagFilter`. -/
def NoTTLTagFilter : Filter := fun _ tags _ =>
  let (_, tagExists) := checkRequiredTags REQUIRED_TAG tags
  if !tagExists then some true else some false

/-- The filter `TTLTagExpiredFilter`.  `tags[tagIndex]` panics on an empty list and
`*created` panics on a nil pointer. -/
def TTLTagExpiredFilter (L : Lib) (now : Int) : Filter := fun _ tags created =>
  let (tagIndex, _) := checkRequiredTags REQUIRED_TAG tags
  match tags[tagIndex]? with
  | none => none
  | some t =>
    let timeToLive := t.Value
    if timeToLive = "0" then some false
    else
      match created with
      | none => none
      | some start =>
        if !WithinTTLTime L now timeToLive start then some true else some false

/-- The filter `IgnoreK8sTagFilter`; `strings.Split(key, "/")[0]` is the part of the key
before its first slash. -/
def IgnoreK8sTagFilter : Filter := fun _ tags _ =>
  some (tags.any fun t => String.mk (t.Key.data.takeWhile fun ch => ch != '/') == "kubernetes.io")

/-- The filter `Ec2IgnoreTerminatedFilter`. -/
def Ec2IgnoreTerminatedFilter : TypedFilter := fun i =>
  match i with
  | .instance inst => some (inst.StateName == "terminated")
  | _ => some false

/-- The filter `EbsIgnoreAttachedFilter`. -/
def EbsIgnoreAttachedFilter : TypedFilter := fun v =>
  match v with
  | .volume vol => some (vol.Attachments != 0 && vol.State == "in-use")
  | _ => some false

/-- The filter `SGIgnoreChild`. -/
def SGIgnoreChild : TypedFilter := fun secGroup =>
  match secGroup with
  | .securityGroup sg =>
    some ((sg.IpPermissions.any fun r => r.UserIdGroupPairs != 0)
      || (sg.IpPermissionsEgress.any fun r => r.UserIdGroupPairs != 0))
  | _ => some false

/-- The filter `SGIgnoreInUse`. -/
def SGIgnoreInUse (am : AwsMarker) : TypedFilter := fun secGroup =>
  match secGroup with
  | .securityGroup sg => some (am.sgs.any fun m => m sg.GroupId)
  | _ => some false

/-- The filter `AsgZeroCapacity`. -/
def AsgZeroCapacity : TypedFilter := fun a =>
  match a with
  | .group asg => if asg.DesiredCapacity = 0 then some false else some true
  | _ => some true

/-- The struct `awsFilterable`. -/
structure awsFilterable where
  ignoreFilters : List Filter
  complianceFilters : List Filter
  typedIgnoreFilters : List TypedFilter
  typedComplianceFilters : List TypedFilter
  id : String
  tags : List Tag
  created : Option Int
  awsObjectType : String
  object : AwsObject

/-- The constructor `newAwsFilterable`. -/
def newAwsFilterable (i : AwsObject) : awsFilterable :=
  let (id, tags, created, t) := ExtractTags i
  { ignoreFilters := [], complianceFilters := [], typedIgnoreFilters := [],
    typedComplianceFilters := [], id := id, tags := tags, created := created,
    awsObjectType := t, object := i }

namespace awsFilterable

/-- A Go loop `for _, f := range fs { if f(..) { return true } }`: `some true` at the
first filter that answers true, `none` if a filter panics before that, `some false` when
all answer false. -/
def anyFilter {α : Type} (run : α → Option Bool) : List α → Option Bool
  | [] => some false
  | f :: fs =>
    match run f with
    | none => none
    | some true => some true
    | some false => anyFilter run fs

/-- The method `Ignore`. -/
def Ignore (e : awsFilterable) : Option Bool :=
  match anyFilter (fun f : Filter => f e.id e.tags e.created) e.ignoreFilters with
  | none => none
  | some true => some true
  | some false =>
    match anyFilter (fun f : TypedFilter => f e.object) e.typedIgnoreFilters with
    | none => none
    | some true => some true
    | some false => some false

/-- The method `Compliant`. -/
def Compliant (e : awsFilterable) : Option Bool :=
  match anyFilter (fun f : Filter => f e.id e.tags e.created) e.complianceFilters with
  | none => none
  | some true => some false
  | some false =>
    match anyFilter (fun f : TypedFilter => f e.object) e.typedComplianceFilters with
    | none => none
    | some true => some false
    | some false => some true

/-- The method `GetTypeString`. -/
def GetTypeString (e : awsFilterable) : String := e.awsObjectType

/-- The method `GetTypeInterface`. -/
def GetTypeInterface (e : awsFilterable) : AwsObject := e.object

/-- The method `WithIgnoreFilter`. -/
def WithIgnoreFilter (e : awsFilterable) (f : Filter) : awsFilterable :=
  { e with ignoreFilters := e.ignoreFilters ++ [f] }

/-- The method `WithComplianceFilter`. -/
def WithComplianceFilter (e : awsFilterable) (f : Filter) : awsFilterable :=
  { e with complianceFilters := e.complianceFilters ++ [f] }

/-- The method `WithTypedIgnoreFilter`. -/
def WithTypedIgnoreFilter (e : awsFilterable) (f : TypedFilter) : awsFilterable :=
  { e with typedIgnoreFilters := e.typedIgnoreFilters ++ [f] }

/-- The method `WithTypedComplianceFilter`. -/
def WithTypedComplianceFilter (e : awsFilterable) (f : TypedFilter) : awsFilterable :=
  { e with typedComplianceFilters := e.typedComplianceFilters ++ [f] }

end awsFilterable

/-! ## Mark and Sweep on the cache (`pkg/mark/aws/aws.go`) -/

/-- The method `filterableUpdate`: the returned error, which is nil (`none`) on every
path, and the cache afterwards; the outer `none` is a panic inside `RemoveCandidates`. -/
def filterableUpdate (L : Lib) (am : AwsMarker) (c : RedisCache) (awsObject : AwsObject)
    (canType : String) : Option (Option NoCandidatesError × RedisCache) :=
  let (id, tags, _, _) := ExtractTags awsObject
  let owner := tagOrNil "owner" tags
  match RemoveCandidates L owner c [id] with
  | none => none
  | some (_, c') => some (none, c')

/-- The candidate record that `ttlRejected` builds for an object. -/
def markedOf (am : AwsMarker) (awsObject : AwsObject) (canType : String) : MarkedCandidate :=
  let (id, tags, _, _) := ExtractTags awsObject
  let owner := tagOrNil "owner" tags
  let extraTags : GoMap := tags.foldl (fun m t => GoMap.set t.Key t.Value m) []
  let extraTags := GoMap.set "region" am.Config.Region extraTags
  { MarkerType := AWS
    CandidateType := canType
    Id := id
    Owner := owner
    Purpose := tagOrNil "purpose" tags
    Ttl := tagOrNil "ttl" tags
    Account := am.Config.Name
    Tags := some extraTags }

/-- The method `ttlRejected`, run at time `now`: the cache afterwards.  The returned error
is nil on every path. -/
def ttlRejected (L : Lib) (am : AwsMarker) (now : Int) (c : RedisCache)
    (awsObject : AwsObject) (canType : String) : RedisCache :=
  let (id, tags, _, _) := ExtractTags awsObject
  let gp := (L.ParseDuration am.Config.GracePeriod).getD 0
  let owner := tagOrNil "owner" tags
  let marked := markedOf am awsObject canType
  let mjson := L.jsonMarshal marked
  if c.CandidateExists owner mjson then c
  else
    let c := c.Write "bilge:owners" owner
    let c := c.Write ("bilge:candidates:" ++ owner) mjson
    c.WriteTimer now ("bilge:timers:" ++ id) am.Config.GracePeriod (now + gp)

/-- The method `toDelete`; reading `m.Id` through a nil slot is a panic, and the error of
`BuildCandidates` gives the nil slice. -/
def toDelete (L : Lib) (am : AwsMarker) (now : Int) (c : RedisCache) (owner thing : String) :
    Option (List String) :=
  match BuildCandidates L owner c with
  | Except.error _ => some []
  | Except.ok mcs =>
    mcs.foldlM (fun (acc : List String) (slot : Option MarkedCandidate) =>
      match slot with
      | none => none
      | some m =>
        if !c.TimerExists now ("bilge:timers:" ++ m.Id) then
          if m.CandidateType = thing ∧ m.Account = am.Config.Name then some (acc ++ [m.Id])
          else some acc
        else some acc) []

/-- The method `FilterAwsObject`, run at time `now`: the cache afterwards. -/
def FilterAwsObject (L : Lib) (am : AwsMarker) (now : Int) (c : RedisCache)
    (filterable : awsFilterable) : Option RedisCache :=
  match filterable.Ignore with
  | none => none
  | some true =>
    match filterableUpdate L am c filterable.GetTypeInterface filterable.GetTypeString with
    | none => none
    | some (_, c') => some c'
  | some false =>
    match filterable.Compliant with
    | none => none
    | some false =>
      some (ttlRejected L am now c filterable.GetTypeInterface filterable.GetTypeString)
    | some true => some c

/-- The three outcomes of classification. -/
inductive Disposition where
  | Ignore
  | NonCompliant
  | Compliant
deriving DecidableEq, Repr

/-- The branch that `FilterAwsObject` takes: `Ignore()` first, `Compliant()` only when
`Ignore()` answered false. -/
def classify (e : awsFilterable) : Option Disposition :=
  match e.Ignore with
  | none => none
  | some true => some Disposition.Ignore
  | some false =>
    match e.Compliant with
    | none => none
    | some false => some Disposition.NonCompliant
    | some true => some Disposition.Compliant

/-! ## Kubernetes namespaces (`pkg/mark/k8s`) -/

namespace K8s

/-- The API type `corev1.Namespace`, with the fields the marker reads. -/
structure Namespace where
  Name : String
  CreationTimestamp : Int
  Annotations : GoMap
deriving DecidableEq, Repr

/-- The type `Filter` of the k8s package. -/
abbrev Filter := String → GoMap → Int → Bool

/-- The marker `K8SMarker`. -/
structure K8SMarker where
  Config : Kubernetes

/-- The table `protectedNamespace`. -/
def protectedNamespace (id : String) : Bool :=
  id == "default" || id == "kube-system" || id == "kube-public"

/-- The filter `ignoreProtectedNamespaceFilter`. -/
def ignoreProtectedNamespaceFilter : Filter := fun id _ _ =>
  if protectedNamespace id then true else false

/-- The filter `NoTTLAnnotationFilter`. -/
def NoTTLAnnotationFilter : Filter := fun _ annotations _ =>
  match GoMap.get? "armory.io/bilge.ttl" annotations with
  | none => true
  | some _ => false

/-- The filter `TTLExpiredFilter`. -/
def TTLExpiredFilter (L : Lib) (now : Int) : Filter := fun _ annotations created =>
  let ttl := (GoMap.get? "armory.io/bilge.ttl" annotations).getD ""
  if ttl = "0" then false
  else if !WithinTTLTime L now ttl created then true
  else false

/-- The filter `ignoreNamespaceFilter`. -/
def ignoreNamespaceFilter (L : Lib) (k : K8SMarker) : Filter := fun id _ _ =>
  if k.Config.Not.any (fun n => id == n) then true
  else if k.Config.NotRegex.any (fun regex => regex != "" && L.regexMatch regex id) then true
  else false

/-- The struct `k8sFilterable`. -/
structure k8sFilterable where
  ignoreFilters : List Filter
  complianceFilters : List Filter
  id : String
  created : Int
  annotations : GoMap
  object : Namespace
  k8sObjectType : String

/-- The constructor `newk8sFilterable`. -/
def newk8sFilterable (i : Namespace) : k8sFilterable :=
  { ignoreFilters := [], complianceFilters := [], id := i.Name,
    created := i.CreationTimestamp, annotations := i.Annotations, object := i,
    k8sObjectType := "namespace" }

namespace k8sFilterable

/-- The method `WithIgnoreFilter`. -/
def WithIgnoreFilter (e : k8sFilterable) (f : Filter) : k8sFilterable :=
  { e with ignoreFilters := e.ignoreFilters ++ [f] }

/-- The method `WithComplianceFilter`. -/
def WithComplianceFilter (e : k8sFilterable) (f : Filter) : k8sFilterable :=
  { e with complianceFilters := e.complianceFilters ++ [f] }

/-- The method `Ignore`. -/
def Ignore (e : k8sFilterable) : Bool :=
  e.ignoreFilters.any fun f => f e.id e.annotations e.created

/-- The method `Compliant`. -/
def Compliant (e : k8sFilterable) : Bool :=
  !(e.complianceFilters.any fun f => f e.id e.annotations e.created)

end k8sFilterable

/-- The method `filterableUpdate` of the k8s marker. -/
def filterableUpdate (L : Lib) (k : K8SMarker) (c : RedisCache) (n : Namespace)
    (canType : String) : Option (Option NoCandidatesError × RedisCache) :=
  let id := n.Name
  let owner := (GoMap.get? "armory.io/bilge.owner" n.Annotations).getD ""
  match RemoveCandidates L owner c [id] with
  | none => none
  | some (_, c') => some (none, c')

/-- The candidate record that the k8s `ttlRejected` builds; `Tags` stays nil. -/
def markedOf (k : K8SMarker) (n : Namespace) (canType : String) : MarkedCandidate :=
  { MarkerType := K8S
    CandidateType := canType
    Id := n.Name
    Owner := (GoMap.get? "armory.io/bilge.owner" n.Annotations).getD ""
    Purpose := (GoMap.get? "armory.io/bilge.purpose" n.Annotations).getD ""
    Ttl := (GoMap.get? "armory.io/bilge.ttl" n.Annotations).getD ""
    Account := k.Config.Name
    Tags := none }

/-- The method `ttlRejected` of the k8s marker, run at time `now`. -/
def ttlRejected (L : Lib) (k : K8SMarker) (now : Int) (c : RedisCache) (n : Namespace)
    (canType : String) : RedisCache :=
  let gp := (L.ParseDuration k.Config.GracePeriod).getD 0
  let id := n.Name
  let owner := (GoMap.get? "armory.io/bilge.owner" n.Annotations).getD ""
  let mjson := L.jsonMarshal (markedOf k n canType)
  if c.CandidateExists owner mjson then c
  else
    let c := c.Write "bilge:owners" owner
    let c := c.Write ("bilge:candidates:" ++ owner) mjson
    c.WriteTimer now ("bilge:timers:" ++ id) k.Config.GracePeriod (now + gp)

/-- The method `toDelete` of the k8s marker. -/
def toDelete (L : Lib) (k : K8SMarker) (now : Int) (c : RedisCache) (owner thing : String) :
    Option (List String) :=
  match BuildCandidates L owner c with
  | Except.error _ => some []
  | Except.ok mcs =>
    mcs.foldlM (fun (acc : List String) (slot : Option MarkedCandidate) =>
      match slot with
      | none => none
      | some m =>
        if !c.TimerExists now ("bilge:timers:" ++ m.Id) then
          if m.CandidateType = thing ∧ m.Account = k.Config.Name then some (acc ++ [m.Id])
          else some acc
        else some acc) []

/-- The method `FilterK8SObject`, run at time `now`: the cache afterwards. -/
def FilterK8SObject (L : Lib) (k : K8SMarker) (now : Int) (c : RedisCache)
    (f : k8sFilterable) : Option RedisCache :=
  if f.Ignore then
    match filterableUpdate L k c f.object f.k8sObjectType with
    | none => none
    | some (_, c') => some c'
  else if !f.Compliant then
    some (ttlRejected L k now c f.object f.k8sObjectType)
  else some c

end K8s

/-! ## `encoding/json` for `MarkedCandidate` -/

/-- The table `hex` of the encoder. -/
def hexDigit (n : Nat) : Char :=
  if n < 10 then Char.ofNat (48 + n) else Char.ofNat (87 + n)

/-- The encoder's rendering of one character inside a string, with HTML escaping on (the
default of `json.Marshal`): quote and backslash get a backslash, newline, carriage return
and tab their short form, the other control characters and `<`, `>`, `&` the form
`\u00XX`, U+2028 and U+2029 the form `\u202X`, and every other character is copied. -/
def escapeChar (c : Char) : List Char :=
  if c = '\x22' then ['\x5c', '\x22']
  else if c = '\x5c' then ['\x5c', '\x5c']
  else if c = '\n' then ['\x5c', 'n']
  else if c = '\r' then ['\x5c', 'r']
  else if c = '\t' then ['\x5c', 't']
  else if c.toNat < 0x20 ∨ c = '<' ∨ c = '>' ∨ c = '&' then
    ['\x5c', 'u', '0', '0', hexDigit (c.toNat / 16), hexDigit (c.toNat % 16)]
  else if c.toNat = 0x2028 then ['\x5c', 'u', '2', '0', '2', '8']
  else if c.toNat = 0x2029 then ['\x5c', 'u', '2', '0', '2', '9']
  else [c]

/-- The encoder's rendering of a string value. -/
def quote (s : String) : List Char :=
  '\x22' :: (s.data.flatMap escapeChar ++ ['\x22'])

/-- The encoder's rendering of an `int`. -/
def printInt (i : Int) : List Char :=
  if i < 0 then '-' :: Nat.toDigits 10 i.natAbs else Nat.toDigits 10 i.toNat

/-- The encoder's rendering of the entries of a map, in sorted key order. -/
def printEntries : GoMap → List Char
  | [] => []
  | [(k, v)] => quote k ++ ':' :: quote v
  | (k, v) :: rest => quote k ++ ':' :: quote v ++ ',' :: printEntries rest

/-- The encoder's rendering of a `map[string]string`: `null` for the nil map. -/
def printTags : Option GoMap → List Char
  | none => ['n', 'u', 'l', 'l']
  | some m => '\x7b' :: (printEntries m ++ ['\x7d'])

/-- The output of `json.Marshal` for a `*MarkedCandidate`: the fields in declaration
order under their `json` names. -/
def goJsonMarshal (m : MarkedCandidate) : String :=
  String.mk ('\x7b' ::
    (quote "marker_type" ++ ':' :: printInt m.MarkerType ++ ',' ::
     quote "candidate_type" ++ ':' :: quote m.CandidateType ++ ',' ::
     quote "id" ++ ':' :: quote m.Id ++ ',' ::
     quote "owner" ++ ':' :: quote m.Owner ++ ',' ::
     quote "ttl" ++ ':' :: quote m.Ttl ++ ',' ::
     quote "purpose" ++ ':' :: quote m.Purpose ++ ',' ::
     quote "account" ++ ':' :: quote m.Account ++ ',' ::
     quote "tags" ++ ':' :: printTags m.Tags ++ ['\x7d']))

/-- JSON values as the decoder reads them; a number keeps its literal. -/
inductive JsonValue where
  | null
  | bool (b : Bool)
  | number (lit : List Char)
  | str (s : String)
  | arr (elems : List JsonValue)
  | obj (members : List (String × JsonValue))

/-- JSON white space. -/
def isWs (c : Char) : Bool :=
  c = ' ' || c = '\t' || c = '\r' || c = '\n'

/-- Drop leading white space. -/
def skipWs : List Char → List Char
  | [] => []
  | c :: cs => if isWs c then skipWs cs else c :: cs

/-- A decimal digit. -/
def isDigit (c : Char) : Bool :=
  decide (48 ≤ c.toNat ∧ c.toNat ≤ 57)

/-- The value of a hexadecimal digit. -/
def hexVal (c : Char) : Option Nat :=
  if 48 ≤ c.toNat ∧ c.toNat ≤ 57 then some (c.toNat - 48)
  else if 97 ≤ c.toNat ∧ c.toNat ≤ 102 then some (c.toNat - 87)
  else if 65 ≤ c.toNat ∧ c.toNat ≤ 70 then some (c.toNat - 55)
  else none

/-- The decoder's `getu4` on the four characters after `\u`. -/
def getu4 (a b c d : Char) : Option Nat :=
  match hexVal a, hexVal b, hexVal c, hexVal d with
  | some x, some y, some z, some w => some (((x * 16 + y) * 16 + z) * 16 + w)
  | _, _, _, _ => none

/-- One escape sequence, read after its backslash: the character it stands for and the
input after it.  A surrogate half that is not followed by its partner reads as U+FFFD. -/
def readEscape : List Char → Option (Char × List Char)
  | [] => none
  | e :: rest =>
    if e = 'u' then
      match rest with
      | a :: b :: c :: d :: rest1 =>
        match getu4 a b c d with
        | none => none
        | some rr =>
          if 0xD800 ≤ rr ∧ rr < 0xE000 then
            match rest1 with
            | bs :: u :: a2 :: b2 :: c2 :: d2 :: rest2 =>
              if bs = '\x5c' ∧ u = 'u' then
                match getu4 a2 b2 c2 d2 with
                | some rr1 =>
                  if rr < 0xDC00 ∧ 0xDC00 ≤ rr1 ∧ rr1 < 0xE000 then
                    some (Char.ofNat ((rr - 0xD800) * 1024 + (rr1 - 0xDC00) + 0x10000), rest2)
                  else some (Char.ofNat 0xFFFD, rest1)
                | none => some (Char.ofNat 0xFFFD, rest1)
              else some (Char.ofNat 0xFFFD, rest1)
            | _ => some (Char.ofNat 0xFFFD, rest1)
          else some (Char.ofNat rr, rest1)
      | _ => none
    else if e = '\x22' then some ('\x22', rest)
    else if e = '\x5c' then some ('\x5c', rest)
    else if e = '/' then some ('/', rest)
    else if e = 'b' then some (Char.ofNat 8, rest)
    else if e = 'f' then some (Char.ofNat 12, rest)
    else if e = 'n' then some ('\n', rest)
    else if e = 'r' then some ('\r', rest)
    else if e = 't' then some ('\t', rest)
    else none

/-- A string literal, read after its opening quote: its characters and the input after the
closing quote.  A raw control character is a syntax error. -/
def parseStr : Nat → List Char → Option (List Char × List Char)
  | 0, _ => none
  | _ + 1, [] => none
  | fuel + 1, c :: rest =>
    if c = '\x22' then some ([], rest)
    else if c = '\x5c' then
      match readEscape rest with
      | none => none
      | some (ch, rest1) =>
        match parseStr fuel rest1 with
        | none => none
        | some (s, r) => some (ch :: s, r)
    else if c.toNat < 0x20 then none
    else
      match parseStr fuel rest with
      | none => none
      | some (s, r) => some (c :: s, r)

/-- The exponent part of a number literal, after the fraction. -/
def parseExp (lit : List Char) (cs : List Char) : Option (List Char × List Char) :=
  match cs with
  | e :: r =>
    if e = 'e' ∨ e = 'E' then
      match r with
      | s :: r1 =>
        if s = '+' ∨ s = '-' then
          if (r1.takeWhile isDigit) = [] then none
          else some (lit ++ e :: s :: r1.takeWhile isDigit, r1.dropWhile isDigit)
        else if (r.takeWhile isDigit) = [] then none
        else some (lit ++ e :: r.takeWhile isDigit, r.dropWhile isDigit)
      | [] => none
    else some (lit, cs)
  | [] => some (lit, cs)

/-- The fraction part of a number literal, after the integer part. -/
def parseFrac (lit : List Char) (cs : List Char) : Option (List Char × List Char) :=
  match cs with
  | p :: r =>
    if p = '.' then
      if (r.takeWhile isDigit) = [] then none
      else parseExp (lit ++ p :: r.takeWhile isDigit) (r.dropWhile isDigit)
    else parseExp lit cs
  | [] => some (lit, cs)

/-- The integer part of a number literal, after the optional sign `lit`. -/
def parseIntPart (lit : List Char) (cs : List Char) : Option (List Char × List Char) :=
  match cs with
  | c :: r =>
    if c = '0' then parseFrac (lit ++ [c]) r
    else if isDigit c then
      parseFrac (lit ++ c :: r.takeWhile isDigit) (r.dropWhile isDigit)
    else none
  | [] => none

/-- A number literal: the literal and the input after it. -/
def parseNumber (cs : List Char) : Option (List Char × List Char) :=
  match cs with
  | c :: r => if c = '-' then parseIntPart [c] r else parseIntPart [] cs
  | [] => none

mutual

/-- A JSON value, with leading white space: the value and the input after it. -/
def parseValue : Nat → List Char → Option (JsonValue × List Char)
  | 0, _ => none
  | fuel + 1, cs =>
    match skipWs cs with
    | [] => none
    | c :: rest =>
      if c = '\x7b' then
        match skipWs rest with
        | [] => none
        | d :: rest1 =>
          if d = '\x7d' then some (JsonValue.obj [], rest1)
          else parseMembers fuel (d :: rest1) []
      else if c = '[' then
        match skipWs rest with
        | [] => none
        | d :: rest1 =>
          if d = ']' then some (JsonValue.arr [], rest1)
          else parseElements fuel (d :: rest1) []
      else if c = '\x22' then
        match parseStr rest.length rest with
        | none => none
        | some (s, r) => some (JsonValue.str (String.mk s), r)
      else if c = '-' ∨ isDigit c then
        match parseNumber (c :: rest) with
        | none => none
        | some (lit, r) => some (JsonValue.number lit, r)
      else
        match c :: rest with
        | 't' :: 'r' :: 'u' :: 'e' :: r => some (JsonValue.bool true, r)
        | 'f' :: 'a' :: 'l' :: 's' :: 'e' :: r => some (JsonValue.bool false, r)
        | 'n' :: 'u' :: 'l' :: 'l' :: r => some (JsonValue.null, r)
        | _ => none

/-- The members of an object from a key on, up to the closing brace. -/
def parseMembers : Nat → List Char → List (String × JsonValue) →
    Option (JsonValue × List Char)
  | 0, _, _ => none
  | fuel + 1, cs, acc =>
    match cs with
    | [] => none
    | q :: rest =>
      if q = '\x22' then
        match parseStr rest.length rest with
        | none => none
        | some (k, r) =>
          match skipWs r with
          | [] => none
          | colon :: r1 =>
            if colon = ':' then
              match parseValue fuel r1 with
              | none => none
              | some (v, r2) =>
                match skipWs r2 with
                | [] => none
                | sep :: r3 =>
                  if sep = ',' then
                    parseMembers fuel (skipWs r3) (acc ++ [(String.mk k, v)])
                  else if sep = '\x7d' then
                    some (JsonValue.obj (acc ++ [(String.mk k, v)]), r3)
                  else none
            else none
      else none

/-- The elements of an array from a value on, up to the closing bracket. -/
def parseElements : Nat → List Char → List JsonValue → Option (JsonValue × List Char)
  | 0, _, _ => none
  | fuel + 1, cs, acc =>
    match parseValue fuel cs with
    | none => none
    | some (v, r) =>
      match skipWs r with
      | [] => none
      | sep :: r1 =>
        if sep = ',' then parseElements fuel r1 (acc ++ [v])
        else if sep = ']' then some (JsonValue.arr (acc ++ [v]), r1)
        else none

end

/-- A whole JSON text: one value with white space around it. -/
def parseJson (cs : List Char) : Option JsonValue :=
  match parseValue (cs.length + 1) cs with
  | none => none
  | some (v, rest) => if skipWs rest = [] then some v else none

/-- The value of a run of decimal digits. -/
def natOfDigits (ds : List Char) : Nat :=
  ds.foldl (fun acc c => acc * 10 + (c.toNat - 48)) 0

/-- The call `strconv.ParseInt(lit, 10, 64)` on a JSON number literal: an integer literal
within the range of `int64`. -/
def parseIntLit (lit : List Char) : Option Int :=
  match lit with
  | [] => none
  | c :: ds =>
    if c = '-' then
      if ds ≠ [] ∧ ds.all isDigit ∧ natOfDigits ds ≤ 2 ^ 63 then some (-(natOfDigits ds : Int))
      else none
    else if lit.all isDigit ∧ natOfDigits lit < 2 ^ 63 then some (natOfDigits lit : Int)
    else none

/-- The decoder's match of one character of an object key against one character of a
(lower-case) field name: equal, or the upper-case form, or the long s for `s`, or the
Kelvin sign for `k`. -/
def foldEqChar (f k : Char) : Bool :=
  k = f || (97 ≤ f.toNat && f.toNat ≤ 122 && k.toNat + 32 = f.toNat)
    || (f = 's' && k.toNat = 0x17F) || (f = 'k' && k.toNat = 0x212A)

/-- The decoder's case-insensitive match of an object key against a field name. -/
def foldEq : List Char → List Char → Bool
  | [], [] => true
  | f :: fs, k :: ks => foldEqChar f k && foldEq fs ks
  | _, _ => false

/-- The struct being filled by the decoder, with the flag of a saved type error. -/
structure DecodeState where
  m : MarkedCandidate
  err : Bool

/-- Decoding a JSON value into a string field: `null` leaves the field, a string sets it,
any other value is a type error. -/
def decodeString (v : JsonValue) (old : String) : String × Bool :=
  match v with
  | JsonValue.null => (old, false)
  | JsonValue.str s => (s, false)
  | _ => (old, true)

/-- Decoding the members of a JSON object into a `map[string]string`. -/
def decodeMapEntries : List (String × JsonValue) → GoMap → GoMap × Bool
  | [], m => (m, false)
  | (k, v) :: rest, m =>
    let (s, e) := decodeString v ""
    let (m', e') := decodeMapEntries rest (GoMap.set k s m)
    (m', e || e')

/-- Decoding one object member into the struct. -/
def decodeMember (st : DecodeState) (kv : String × JsonValue) : DecodeState :=
  let key := kv.1.data
  let v := kv.2
  if foldEq "marker_type".data key then
    match v with
    | JsonValue.null => st
    | JsonValue.number lit =>
      match parseIntLit lit with
      | some i => { st with m := { st.m with MarkerType := i } }
      | none => { st with err := true }
    | _ => { st with err := true }
  else if foldEq "candidate_type".data key then
    let (s, e) := decodeString v st.m.CandidateType
    { m := { st.m with CandidateType := s }, err := st.err || e }
  else if foldEq "id".data key then
    let (s, e) := decodeString v st.m.Id
    { m := { st.m with Id := s }, err := st.err || e }
  else if foldEq "owner".data key then
    let (s, e) := decodeString v st.m.Owner
    { m := { st.m with Owner := s }, err := st.err || e }
  else if foldEq "ttl".data key then
    let (s, e) := decodeString v st.m.Ttl
    { m := { st.m with Ttl := s }, err := st.err || e }
  else if foldEq "purpose".data key then
    let (s, e) := decodeString v st.m.Purpose
    { m := { st.m with Purpose := s }, err := st.err || e }
  else if foldEq "account".data key then
    let (s, e) := decodeString v st.m.Account
    { m := { st.m with Account := s }, err := st.err || e }
  else if foldEq "tags".data key then
    match v with
    | JsonValue.null => st
    | JsonValue.obj ms =>
      let (tags, e) := decodeMapEntries ms (st.m.Tags.getD [])
      { m := { st.m with Tags := some tags }, err := st.err || e }
    | _ => { st with err := true }
  else st

/-- The zero value of the struct. -/
def zeroCandidate : MarkedCandidate :=
  { MarkerType := 0, CandidateType := "", Id := "", Owner := "", Ttl := "", Purpose := "",
    Account := "", Tags := none }

/-- The call `json.Unmarshal(data, &m)` for `var m *MarkedCandidate`: a syntax error or a
type error is the error; `null` leaves the nil pointer; an object gives the struct filled
member by member. -/
def goJsonUnmarshal (data : String) : Except String (Option MarkedCandidate) :=
  match parseJson data.data with
  | none => Except.error "invalid character"
  | some JsonValue.null => Except.ok none
  | some (JsonValue.obj ms) =>
    let st := ms.foldl decodeMember { m := zeroCandidate, err := false }
    if st.err then Except.error "json: cannot unmarshal" else Except.ok (some st.m)
  | some _ => Except.error "json: cannot unmarshal"

/-! ## `model.ParseDuration` -/

/-- The table `unitMap`: position and multiplier (in nanoseconds) of a unit. -/
def unitMap (u : List Char) : Option (Nat × Nat) :=
  if u = ['m', 's'] then some (7, 1000000)
  else if u = ['s'] then some (6, 1000000000)
  else if u = ['m'] then some (5, 60 * 1000000000)
  else if u = ['h'] then some (4, 3600 * 1000000000)
  else if u = ['d'] then some (3, 24 * 3600 * 1000000000)
  else if u = ['w'] then some (2, 7 * 24 * 3600 * 1000000000)
  else if u = ['y'] then some (1, 365 * 24 * 3600 * 1000000000)
  else none

/-- The loop of `ParseDuration`: a run of digits, then a unit, units from the biggest to the
smallest, the sum within the range of `time.Duration`. -/
def parseDurationLoop : Nat → List Char → Nat → Nat → Option Nat
  | 0, _, _, _ => none
  | fuel + 1, s, dur, lastUnitPos =>
    match s with
    | [] => some dur
    | c :: _ =>
      if !isDigit c then none
      else
        let v := natOfDigits (s.takeWhile isDigit)
        let s1 := s.dropWhile isDigit
        if 2 ^ 64 ≤ v then none
        else
          let u := s1.takeWhile (fun ch => !isDigit ch)
          let s2 := s1.dropWhile (fun ch => !isDigit ch)
          if u = [] then none
          else
            match unitMap u with
            | none => none
            | some (pos, mult) =>
              if pos ≤ lastUnitPos then none
              else if 2 ^ 63 / mult < v then none
              else if 2 ^ 63 - 1 < dur + v * mult then none
              else parseDurationLoop fuel s2 (dur + v * mult) pos

/-- The library function `model.ParseDuration` of `prometheus/common`, in nanoseconds;
`none` is its error. -/
def ParseDuration (s : String) : Option Int :=
  if s = "0" then some 0
  else if s = "" then none
  else (parseDurationLoop s.length s.data 0 0).map Int.ofNat

/-! ## The concrete library -/

deriving instance DecidableEq for Except

/-- The library functions as modelled above; the regular-expression engine stays an
argument. -/
def goLib (regexMatch : String → String → Bool) : Lib :=
  { ParseDuration := ParseDuration
    jsonMarshal := goJsonMarshal
    jsonUnmarshal := goJsonUnmarshal
    regexMatch := regexMatch }

/-! ## The filter chains of the Mark handlers -/

/-- The chain that `processEc2PagesCallback` builds for an instance. -/
def ec2Chain (L : Lib) (am : AwsMarker) (now : Int) (i : Instance) : awsFilterable :=
  ((((((newAwsFilterable (AwsObject.instance i)).WithIgnoreFilter
    (IgnoreConfigFilter L am)).WithIgnoreFilter
    Ec2IgnoreAutoScaleInstanceFilter).WithTypedIgnoreFilter
    Ec2IgnoreTerminatedFilter).WithComplianceFilter
    NoTagFilter).WithComplianceFilter
    NoTTLTagFilter).WithComplianceFilter
    (TTLTagExpiredFilter L now)

/-- The chain that `processsAsgMarkPages` builds for an auto-scaling group. -/
def asgChain (L : Lib) (am : AwsMarker) (now : Int) (asg : Group) : awsFilterable :=
  ((((((newAwsFilterable (AwsObject.group asg)).WithIgnoreFilter
    (IgnoreConfigFilter L am)).WithIgnoreFilter
    IgnoreK8sTagFilter).WithComplianceFilter
    NoTagFilter).WithComplianceFilter
    NoTTLTagFilter).WithComplianceFilter
    (TTLTagExpiredFilter L now)).WithTypedComplianceFilter
    AsgZeroCapacity

/-- The chain that `processEbsMarkPages` builds for a volume. -/
def ebsChain (L : Lib) (am : AwsMarker) (now : Int) (v : Volume) : awsFilterable :=
  (((((newAwsFilterable (AwsObject.volume v)).WithIgnoreFilter
    (IgnoreConfigFilter L am)).WithTypedIgnoreFilter
    EbsIgnoreAttachedFilter).WithComplianceFilter
    NoTagFilter).WithComplianceFilter
    NoTTLTagFilter).WithComplianceFilter
    (TTLTagExpiredFilter L now)

/-- The chain that `processElbMarkPages` builds for a classic load balancer. -/
def elbChain (L : Lib) (am : AwsMarker) (now : Int) (lb : LoadBalancerDescription) :
    awsFilterable :=
  (((((newAwsFilterable (AwsObject.loadBalancerDescription lb)).WithIgnoreFilter
    (IgnoreConfigFilter L am)).WithIgnoreFilter
    IgnoreK8sTagFilter).WithComplianceFilter
    NoTagFilter).WithComplianceFilter
    NoTTLTagFilter).WithComplianceFilter
    (TTLTagExpiredFilter L now)

/-- The chain that `processAlbMarkPages` builds for an application load balancer. -/
def albChain (L : Lib) (am : AwsMarker) (now : Int) (lb : LoadBalancer) : awsFilterable :=
  (((((newAwsFilterable (AwsObject.loadBalancer lb)).WithIgnoreFilter
    (IgnoreConfigFilter L am)).WithIgnoreFilter
    IgnoreK8sTagFilter).WithComplianceFilter
    NoTagFilter).WithComplianceFilter
    NoTTLTagFilter).WithComplianceFilter
    (TTLTagExpiredFilter L now)

/-- The chain that `processECMarkPages` builds for a cache cluster. -/
def ecChain (L : Lib) (am : AwsMarker) (now : Int) (cc : CacheCluster) : awsFilterable :=
  ((((newAwsFilterable (AwsObject.cacheCluster cc)).WithIgnoreFilter
    (IgnoreConfigFilter L am)).WithComplianceFilter
    NoTagFilter).WithComplianceFilter
    NoTTLTagFilter).WithComplianceFilter
    (TTLTagExpiredFilter L now)

/-- The chain that `processLaunchConfigsCallback` builds for a launch configuration. -/
def lcChain (L : Lib) (am : AwsMarker) (now : Int) (lc : LaunchConfiguration) :
    awsFilterable :=
  ((((newAwsFilterable (AwsObject.launchConfiguration lc)).WithIgnoreFilter
    (IgnoreConfigFilter L am)).WithComplianceFilter
    NoTagFilter).WithComplianceFilter
    NoTTLTagFilter).WithComplianceFilter
    (TTLTagExpiredFilter L now)

/-- The chain that `processSGMarkPages` builds for a security group. -/
def sgChain (L : Lib) (am : AwsMarker) (sg : SecurityGroup) : awsFilterable :=
  ((((newAwsFilterable (AwsObject.securityGroup sg)).WithIgnoreFilter
    (IgnoreConfigFilter L am)).WithTypedIgnoreFilter
    SGIgnoreChild).WithTypedIgnoreFilter
    (SGIgnoreInUse am)).WithComplianceFilter
    NoTagFilter

/-- The chain that `markNamespaces` builds for a namespace. -/
def K8s.namespaceChain (L : Lib) (k : K8s.K8SMarker) (now : Int) (n : K8s.Namespace) :
    K8s.k8sFilterable :=
  ((((K8s.newk8sFilterable n).WithIgnoreFilter
    K8s.ignoreProtectedNamespaceFilter).WithIgnoreFilter
    (K8s.ignoreNamespaceFilter L k)).WithComplianceFilter
    K8s.NoTTLAnnotationFilter).WithComplianceFilter
    (K8s.TTLExpiredFilter L now)

/-- A cache with no key. -/
def RedisCache.empty : RedisCache :=
  { sets := fun _ => [], strings := fun _ => none, log := [] }

/-! ## Sample data -/

/-- A matcher for configurations without regular expressions. -/
def noRegex : String → String → Bool := fun _ _ => false

/-- An AWS marker for the account `acct` with the default grace period. -/
def sampleMarker : AwsMarker :=
  { Config := { Name := "acct", Candidates := ["ec2"], Region := "us-west-2", Not := [],
                GracePeriod := "24h", DeleteEnabled := false },
    sgs := [] }

/-- A k8s marker for the cluster `acct`. -/
def sampleK8s : K8s.K8SMarker :=
  { Config := { Name := "acct", DeleteEnabled := false, GracePeriod := "24h", Not := [],
                NotRegex := [] } }

/-- A running instance without tags. -/
def untaggedInstance : Instance :=
  { InstanceId := "i-0abc", Tags := [], LaunchTime := some 0, StateName := "running" }

/-- A running instance with an owner and a name, but no ttl. -/
def ownedInstance : Instance :=
  { InstanceId := "i-0def", Tags := [⟨"owner", "bob"⟩, ⟨"Name", "web"⟩],
    LaunchTime := some 0, StateName := "running" }

/-- The instance `ownedInstance` with its tags listed in the other order. -/
def ownedInstanceSwapped : Instance :=
  { InstanceId := "i-0def", Tags := [⟨"Name", "web"⟩, ⟨"owner", "bob"⟩],
    LaunchTime := some 0, StateName := "running" }

/-- The instance `untaggedInstance` after it was given the unlimited ttl. -/
def unlimitedInstance : Instance :=
  { InstanceId := "i-0abc", Tags := [⟨"ttl", "0"⟩], LaunchTime := some 0,
    StateName := "running" }

/-- One day in nanoseconds. -/
def oneDay : Int := 24 * 3600 * 1000000000

/-- The cache after `ownedInstance` was recorded at time 0 on an empty cache. -/
def ownedRecorded : RedisCache :=
  ttlRejected (goLib noRegex) sampleMarker 0 RedisCache.empty (AwsObject.instance ownedInstance)
    "ec2"

/-- The cache after `untaggedInstance` was recorded at time 0 on an empty cache. -/
def untaggedRecorded : RedisCache :=
  ttlRejected (goLib noRegex) sampleMarker 0 RedisCache.empty
    (AwsObject.instance untaggedInstance) "ec2"

/-- A cache whose set for the owner `bob` holds an entry that is not JSON before a
well-formed record. -/
def brokenCache : RedisCache :=
  (RedisCache.empty.Write "bilge:candidates:bob" "not json").Write "bilge:candidates:bob"
    (goJsonMarshal (markedOf sampleMarker (AwsObject.instance ownedInstance) "ec2"))

/-- The instance `ownedInstance` after its name tag was changed. -/
def renamedInstance : Instance :=
  { InstanceId := "i-0def", Tags := [⟨"owner", "bob"⟩, ⟨"Name", "db"⟩],
    LaunchTime := some 0, StateName := "running" }

/-- A namespace annotated with the unlimited ttl. -/
def unlimitedNamespace : K8s.Namespace :=
  { Name := "team-a", CreationTimestamp := 0,
    Annotations := [("armory.io/bilge.ttl", "0")] }

/-- A k8s record with an empty, non-nil tag map. -/
def emptyTagsRecord : MarkedCandidate :=
  { MarkerType := 2, CandidateType := "namespace", Id := "team-a", Owner := "", Ttl := "",
    Purpose := "", Account := "acct", Tags := some [] }


/-- One week in nanoseconds. -/
def oneWeek : Int := 7 * oneDay

/-- A running instance whose ttl tag is not a duration. -/
def garbledInstance : Instance :=
  { InstanceId := "i-0bad", Tags := [⟨"owner", "bob"⟩, ⟨"ttl", "soon"⟩],
    LaunchTime := some 0, StateName := "running" }

/-- A running instance with a ttl of one week. -/
def weekInstance : Instance :=
  { InstanceId := "i-0aaa", Tags := [⟨"owner", "bob"⟩, ⟨"ttl", "1w"⟩],
    LaunchTime := some 0, StateName := "running" }

/-- A running instance with the ttl `-1w` of the test `ttl_tag_expired`. -/
def negativeInstance : Instance :=
  { InstanceId := "i-0bbb", Tags := [⟨"ttl", "-1w"⟩],
    LaunchTime := some 0, StateName := "running" }

/-- An account entry of a configuration file that leaves every optional key out. -/
def bareEntry : Aws :=
  { Name := "acct", Candidates := ["ec2"], Region := "us-west-2", Not := [],
    GracePeriod := "", DeleteEnabled := false }

/-- A configuration file with the one account `bareEntry`. -/
def bareConfig : Config :=
  { RedisHost := "", RedisPort := 0, Aws := [bareEntry], Kubernetes := [],
    Slack := { Token := "", DefaultOwner := "", Channel := "" } }

/-- The configuration `bareConfig` after `setDefaults`. -/
def loadedConfig : Config :=
  { RedisHost := "127.0.0.1", RedisPort := 6379,
    Aws := [{ Name := "acct", Candidates := ["ec2"], Region := "us-west-2", Not := [],
              GracePeriod := "24h", DeleteEnabled := false, MaxClientRetry := 10,
              MarkSchedule := "@hourly", SweepSchedule := "@daily",
              NotifySchedule := "@every 12h" }],
    Kubernetes := [], Slack := { Token := "", DefaultOwner := "", Channel := "" } }

/-- The marker of the account of `loadedConfig`. -/
def loadedMarker : AwsMarker :=
  { Config := { Name := "acct", Candidates := ["ec2"], Region := "us-west-2", Not := [],
                GracePeriod := "24h", DeleteEnabled := false, MaxClientRetry := 10,
                MarkSchedule := "@hourly", SweepSchedule := "@daily",
                NotifySchedule := "@every 12h" },
    sgs := [] }

/-- An auto-scaling group created at time 0 with a ttl of one week and no capacity. -/
def idleGroup : Group :=
  { AutoScalingGroupName := "web-asg", CreatedTime := some 0,
    Tags := [⟨"owner", "bob"⟩, ⟨"ttl", "1w"⟩], DesiredCapacity := 0 }

/-- The group `idleGroup` with a desired capacity of three. -/
def busyGroup : Group :=
  { AutoScalingGroupName := "web-asg", CreatedTime := some 0,
    Tags := [⟨"owner", "bob"⟩, ⟨"ttl", "1w"⟩], DesiredCapacity := 3 }

/-! ## Slack digest (`pkg/mark/mark.go`, `pkg/notify/slack.go`) -/

/-- The method `MarkerType.Color`: indexing the array of three colours panics outside
0..2. -/
def Color (mt : MarkerType) : Option String :=
  if mt < 0 then none else ["#F4D03F", "#FF0000", "#0000FF"][mt.toNat]?

/-- The SDK type `slack.AttachmentField`. -/
structure AttachmentField where
  Title : String
  Value : String
  Short : Bool
deriving DecidableEq, Repr

/-- The SDK type `slack.Attachment`, with the fields that `SlackSend` fills. -/
structure Attachment where
  Color : String
  Text : String
  Fields : List AttachmentField
deriving DecidableEq, Repr

/-- The method `GenerateSlackAttachmentFields`; the range over the tag map is taken in key
order, one of the orders the runtime may choose. -/
def GenerateSlackAttachmentFields (mc : MarkedCandidate) : List AttachmentField :=
  let afs : List AttachmentField :=
    (mc.Tags.getD []).map fun kv => { Title := kv.1, Value := kv.2, Short := true }
  let afs := afs ++ [{ Title := "purpose", Value := mc.Purpose, Short := true }]
  let afs := afs ++ [{ Title := "owner", Value := mc.Owner, Short := true }]
  let afs := afs ++ [{ Title := "type", Value := mc.CandidateType, Short := true }]
  afs ++ [{ Title := "account", Value := mc.Account, Short := true }]

/-- A non-nil `*slack.User`: the address it points to, which `==` compares, and the field
`ID` of the user there. -/
structure UserRef where
  addr : Nat
  ID : String
deriving DecidableEq, Repr

/-- One call of `PostMessage`: the channel and the attachments of the message. -/
structure SlackPost where
  channel : String
  attachments : List Attachment
deriving DecidableEq, Repr

def MAX_SLACK_ATTACHMENTS : Nat := 20

/-- The body of the first loop of `SlackSend`: the attachment of one candidate; reading
through a nil candidate is a panic. -/
def attachmentOf (c : Option MarkedCandidate) : Option Attachment :=
  match c with
  | none => none
  | some c =>
    match Color c.MarkerType with
    | none => none
    | some color =>
      some { Color := color, Text := c.Id, Fields := GenerateSlackAttachmentFields c }

/-- The chunk loop of `SlackSend`, `for i := 0; i < attSize; i += MAX_SLACK_ATTACHMENTS`,
from the index `i` on with `chunked` collected so far; `fuel` bounds the number of
iterations. -/
def chunkLoop {α : Type} (attachments : List α) : Nat → Nat → List (List α) → List (List α)
  | 0, _, chunkedAttachments => chunkedAttachments
  | fuel + 1, i, chunkedAttachments =>
    let attSize := attachments.length
    if i < attSize then
      let chunk := i + MAX_SLACK_ATTACHMENTS
      let chunk := if chunk > attSize then attSize else chunk
      chunkLoop attachments fuel (i + MAX_SLACK_ATTACHMENTS)
        (chunkedAttachments ++ [(attachments.take chunk).drop i])
    else chunkedAttachments

/-- The first loop of `SlackSend`: one attachment per candidate, in the order of the
list. -/
def buildAttachments : List (Option MarkedCandidate) → Option (List Attachment)
  | [] => some []
  | c :: rest =>
    match attachmentOf c with
    | none => none
    | some attachment =>
      match buildAttachments rest with
      | none => none
      | some attachments => some (attachment :: attachments)

/-- The channel `id` that `SlackSend` posts to for the user `u`. -/
def postChannel (config : Config) (defaultOwner : Option UserRef) (u : UserRef) : String :=
  let id := u.ID
  if config.Slack.Channel ≠ "" ∧ some u.addr = defaultOwner.map (fun d => d.addr) then
    config.Slack.Channel
  else id

/-- The method `SlackSend`: the calls of `PostMessage` in the order they are made, whose
errors are logged only; `none` is a panic.  The loop counter advances by 20 below
`attSize`, so `attSize` iterations are enough. -/
def SlackSend (config : Config) (defaultOwner : Option UserRef) (user : Option UserRef)
    (candidate : List (Option MarkedCandidate)) : Option (List SlackPost) :=
  match buildAttachments candidate with
  | none => none
  | some attachments =>
    match user with
    | none => none
    | some u =>
      let id := postChannel config defaultOwner u
      let attSize := attachments.length
      let chunkedAttachments := chunkLoop attachments attSize 0 []
      some (chunkedAttachments.map fun attachmentChunk =>
        { channel := id, attachments := attachmentChunk })

/-- A Slack user. -/
def sampleUser : UserRef := { addr := 1, ID := "U0001" }

/-- Forty-one copies of the record of `ownedInstance`. -/
def fortyOne : List (Option MarkedCandidate) :=
  List.replicate 41 (some (markedOf sampleMarker (AwsObject.instance ownedInstance) "ec2"))

/-! ## Sweep handlers (`pkg/mark/aws/*.go`, `pkg/mark/k8s/k8s.go`) -/

/-- The error that a delete call of a provider returns: nil, an `awserr.Error` with its
code, or another error. -/
inductive DeleteAnswer where
  | ok
  | awsErr (code : String)
  | otherErr
deriving DecidableEq, Repr

/-- One delete call to a provider: the operation, the id in its input, and the field
`DryRun` of the input (false for an input without that field). -/
structure ProviderCall where
  api : String
  id : String
  DryRun : Bool
deriving DecidableEq, Repr

/-- A provider: its answer to a call, given the calls made to it before. -/
abbrev Provider := List ProviderCall → ProviderCall → DeleteAnswer

/-- What a sweep changes: the cache and the calls made to the provider, oldest first. -/
structure SweepState where
  cache : RedisCache
  calls : List ProviderCall

/-- A delete call in a sweep: the answer and the state with the call recorded. -/
def SweepState.call (st : SweepState) (provider : Provider) (pc : ProviderCall) :
    DeleteAnswer × SweepState :=
  (provider st.calls pc, { st with calls := st.calls ++ [pc] })

/-- The statement `err = mark.RemoveCandidates(o, am.Cache, []*string{i})` of a sweep,
whose error is logged only; `none` is a panic. -/
def SweepState.remove (L : Lib) (o i : String) (st : SweepState) : Option SweepState :=
  match RemoveCandidates L o st.cache [i] with
  | none => none
  | some (_, c') => some { st with cache := c' }

/-- The loops that the sweep handlers share: for each owner, `toDelete` on the cache as it
stands, then `body` for each selected id in turn. -/
def sweepLoop (toDelete : RedisCache → String → Option (List String))
    (body : String → String → SweepState → Option SweepState) :
    List String → SweepState → Option SweepState
  | [], st => some st
  | o :: owners, st =>
    match toDelete st.cache o with
    | none => none
    | some ids =>
      match ids.foldlM (fun st i => body o i st) st with
      | none => none
      | some st' => sweepLoop toDelete body owners st'

/-- The loop body shared by `sweepEc2`, `sweepEbs` and `sweepSG`: the call is always made,
with `DryRun` set when deletion is disabled. -/
def dryRunBody (L : Lib) (am : AwsMarker) (provider : Provider) (api : String)
    (o i : String) (st : SweepState) : Option SweepState :=
  let (err, st) := st.call provider ⟨api, i, !am.Config.DeleteEnabled⟩
  match err with
  | .awsErr code =>
    if code = "DryRunOperation" then some st
    else if code = "Throttling" then some st
    else st.remove L o i
  | _ => st.remove L o i

/-- The method `sweepEc2`. -/
def sweepEc2 (L : Lib) (am : AwsMarker) (now : Int) (provider : Provider) (c : RedisCache) :
    Option SweepState :=
  sweepLoop (fun c o => toDelete L am now c o "ec2")
    (dryRunBody L am provider "TerminateInstances") c.ReadOwners ⟨c, []⟩

/-- The method `sweepEbs`. -/
def sweepEbs (L : Lib) (am : AwsMarker) (now : Int) (provider : Provider) (c : RedisCache) :
    Option SweepState :=
  sweepLoop (fun c o => toDelete L am now c o "ebs")
    (dryRunBody L am provider "DeleteVolume") c.ReadOwners ⟨c, []⟩

/-- The method `sweepSG`. -/
def sweepSG (L : Lib) (am : AwsMarker) (now : Int) (provider : Provider) (c : RedisCache) :
    Option SweepState :=
  sweepLoop (fun c o => toDelete L am now c o "sg")
    (dryRunBody L am provider "DeleteSecurityGroup") c.ReadOwners ⟨c, []⟩

/-- The method `sweepAsg`. -/
def sweepAsg (L : Lib) (am : AwsMarker) (now : Int) (provider : Provider) (c : RedisCache) :
    Option SweepState :=
  sweepLoop (fun c o => toDelete L am now c o "asg")
    (fun o asg st =>
      if am.Config.DeleteEnabled then
        let (err, st) := st.call provider ⟨"DeleteAutoScalingGroup", asg, false⟩
        match err with
        | .awsErr code =>
          if code = "Throttling" then some st
          else if code = "ValidationError" then st.remove L o asg
          else some st
        | _ => st.remove L o asg
      else some st) c.ReadOwners ⟨c, []⟩

/-- The method `sweepElb`. -/
def sweepElb (L : Lib) (am : AwsMarker) (now : Int) (provider : Provider) (c : RedisCache) :
    Option SweepState :=
  sweepLoop (fun c o => toDelete L am now c o "elb")
    (fun o lb st =>
      if am.Config.DeleteEnabled then
        let (err, st) := st.call provider ⟨"DeleteLoadBalancer", lb, false⟩
        match err with
        | .awsErr code =>
          if code = "Throttling" then st.remove L o lb
          else st.remove L o lb
        | _ => st.remove L o lb
      else some st) c.ReadOwners ⟨c, []⟩

/-- The method `sweepAlb`. -/
def sweepAlb (L : Lib) (am : AwsMarker) (now : Int) (provider : Provider) (c : RedisCache) :
    Option SweepState :=
  sweepLoop (fun c o => toDelete L am now c o "alb")
    (fun o lb st =>
      if am.Config.DeleteEnabled then
        let (err, st) := st.call provider ⟨"DeleteLoadBalancer", lb, false⟩
        match err with
        | .awsErr code =>
          if code = "Throttling" then some st
          else st.remove L o lb
        | _ => st.remove L o lb
      else some st) c.ReadOwners ⟨c, []⟩

/-- The method `sweepElasticache`. -/
def sweepElasticache (L : Lib) (am : AwsMarker) (now : Int) (provider : Provider)
    (c : RedisCache) : Option SweepState :=
  sweepLoop (fun c o => toDelete L am now c o "ec")
    (fun o cc st =>
      if am.Config.DeleteEnabled then
        let (err, st) := st.call provider ⟨"DeleteCacheCluster", cc, false⟩
        match err with
        | .awsErr code =>
          if code = "Throttling" then st.remove L o cc
          else some st
        | _ => st.remove L o cc
      else some st) c.ReadOwners ⟨c, []⟩

/-- The method `sweepLaunchConfig`. -/
def sweepLaunchConfig (L : Lib) (am : AwsMarker) (now : Int) (provider : Provider)
    (c : RedisCache) : Option SweepState :=
  sweepLoop (fun c o => toDelete L am now c o "lc")
    (fun o lc st =>
      if am.Config.DeleteEnabled then
        let (err, st) := st.call provider ⟨"DeleteLaunchConfiguration", lc, false⟩
        match err with
        | .awsErr code =>
          if code = "Throttling" then some st
          else some st
        | _ => st.remove L o lc
      else some st) c.ReadOwners ⟨c, []⟩

/-- The method `sweepEks`. -/
def sweepEks (L : Lib) (am : AwsMarker) (now : Int) (provider : Provider) (c : RedisCache) :
    Option SweepState :=
  sweepLoop (fun c o => toDelete L am now c o "eks")
    (fun o cl st =>
      if am.Config.DeleteEnabled then
        let (err, st) := st.call provider ⟨"DeleteCluster", cl, false⟩
        match err with
        | .ok => st.remove L o cl
        | _ => some st
      else some st) c.ReadOwners ⟨c, []⟩

/-- The method `sweepNamespaces` of the k8s marker. -/
def K8s.sweepNamespaces (L : Lib) (k : K8s.K8SMarker) (now : Int) (provider : Provider)
    (c : RedisCache) : Option SweepState :=
  sweepLoop (fun c o => K8s.toDelete L k now c o "namespace")
    (fun o n st =>
      if k.Config.DeleteEnabled then
        let (err, st) := st.call provider ⟨"Namespaces.Delete", n, false⟩
        match err with
        | .ok => st.remove L o n
        | _ => some st
      else some st) c.ReadOwners ⟨c, []⟩

/-! ## Sample data for the sweeps -/

/-- The marker `sampleMarker` with deletion enabled. -/
def enabledMarker : AwsMarker :=
  { Config := { Name := "acct", Candidates := ["ec2", "ebs", "elb", "alb", "ec"],
                Region := "us-west-2", Not := [], GracePeriod := "24h",
                DeleteEnabled := true },
    sgs := [] }

/-- A detached volume of the owner `bob`. -/
def ownedVolume : Volume :=
  { VolumeId := "vol-01", Tags := [⟨"owner", "bob"⟩], CreateTime := some 0,
    Attachments := 0, State := "available" }

/-- A classic load balancer of the owner `bob`. -/
def ownedElb : LoadBalancerDescription :=
  { LoadBalancerName := "web-elb", CreatedTime := some 0, DescribedTags := [⟨"owner", "bob"⟩] }

/-- An application load balancer of the owner `bob`. -/
def ownedAlb : LoadBalancer :=
  { LoadBalancerArn := "arn:alb/web", CreatedTime := some 0,
    DescribedTags := [⟨"owner", "bob"⟩] }

/-- A cache cluster of the owner `bob`. -/
def ownedCluster : CacheCluster :=
  { CacheClusterId := "cache-01", CacheClusterCreateTime := some 0,
    DescribedTags := [⟨"owner", "bob"⟩] }

/-- The cache after the five resources of `bob` were recorded at time 0, each with a lease
of one day. -/
def sweepCache : RedisCache :=
  [(AwsObject.instance ownedInstance, "ec2"), (AwsObject.volume ownedVolume, "ebs"),
   (AwsObject.loadBalancerDescription ownedElb, "elb"),
   (AwsObject.loadBalancer ownedAlb, "alb"),
   (AwsObject.cacheCluster ownedCluster, "ec")].foldl
    (fun c x => ttlRejected (goLib noRegex) sampleMarker 0 c x.1 x.2) RedisCache.empty

/-- A provider that gives the same answer to every call. -/
def answering (a : DeleteAnswer) : Provider := fun _ _ => a

/-- The ids of the records in the owner's set, in set order. -/
def recordIds (L : Lib) (c : RedisCache) (owner : String) : List String :=
  ((c.ReadCandidates owner).filterMap (slotOf L)).map fun m => m.Id

/-! ## Instrumented filter loop -/

/-- The filters that the loop `for _, f := range fs { if f(..) { return true } }` calls, in
order: every filter up to and including the first one that answers true or panics. -/
def awsFilterable.evaluated {α : Type} (run : α → Option Bool) : List α → List α
  | [] => []
  | f :: fs =>
    match run f with
    | some false => f :: awsFilterable.evaluated run fs
    | _ => [f]

/-! ## EKS clusters (`pkg/mark/aws/eks.go`) -/

/-- The record that `eksTtlRejected` builds for the cluster named `cluster`, from the
matching instance `i` or from nil.  The struct starts as the zero value; `Account` and
`Tags` are never assigned. -/
def eksMarked (i : Option Instance) (cluster : String) : MarkedCandidate :=
  match i with
  | some inst =>
    let (_, tags, _, _) := ExtractTags (AwsObject.instance inst)
    let owner := tagOrNil "owner" tags
    { MarkerType := AWS
      CandidateType := "eks"
      Id := cluster
      Owner := owner
      Purpose := tagOrNil "purpose" tags
      Ttl := tagOrNil "ttl" tags
      Account := ""
      Tags := none }
  | none =>
    { MarkerType := AWS
      CandidateType := "eks"
      Id := cluster
      Owner := ""
      Purpose := ""
      Ttl := ""
      Account := ""
      Tags := none }

/-- The method `eksTtlRejected`, run at time `now`: the cache afterwards.  The variable
`owner` that the cache calls read is the one declared by `var owner string`; the branch for
a non-nil instance declares another `owner` with `:=` and never assigns the outer one, which
stays empty. -/
def eksTtlRejected (L : Lib) (am : AwsMarker) (now : Int) (c : RedisCache)
    (i : Option Instance) (cluster : String) : RedisCache :=
  let gp := (L.ParseDuration am.Config.GracePeriod).getD 0
  let marked := eksMarked i cluster
  let owner := ""
  let mjson := L.jsonMarshal marked
  if c.CandidateExists owner mjson then c
  else
    let c := c.Write "bilge:owners" owner
    let c := c.Write ("bilge:candidates:" ++ owner) mjson
    c.WriteTimer now ("bilge:timers:" ++ cluster) am.Config.GracePeriod (now + gp)

/-- The slice `tagFilters` of `checkEksCluster`. -/
def eksTagFilters (L : Lib) (now : Int) : List Filter :=
  [NoTTLTagFilter, TTLTagExpiredFilter L now]

/-- The method `checkEksCluster`, run at time `now`: the cache afterwards; `none` is a
panic of a filter. -/
def checkEksCluster (L : Lib) (am : AwsMarker) (now : Int) (c : RedisCache) (i : Instance)
    (cluster : String) : Option RedisCache :=
  let (id, tags, created, _) := ExtractTags (AwsObject.instance i)
  match awsFilterable.anyFilter (fun f : Filter => f id tags created) (eksTagFilters L now) with
  | none => none
  | some true => some (eksTtlRejected L am now c (some i) cluster)
  | some false => some c

/-! ## Dispatch by kind (`pkg/mark/aws/aws.go`, `pkg/config/config.go`) -/

/-- The table `validAwsCandidates`; a missing key reads as false. -/
def validAwsCandidates (kind : String) : Bool :=
  ([("elb", true), ("ec2", true), ("eks", true), ("alb", true), ("ebs", true), ("sg", true),
    ("ec", true), ("asg", true), ("lc", true)].lookup kind).getD false

/-- The validation function `isAwsCandidate`: the error it returns, `none` for nil. -/
def isAwsCandidate (c : List String) : Option String :=
  let errs := c.filter fun i => !validAwsCandidates i
  if errs.length ≠ 0 then
    some ("the following candidates are invalid: " ++ ", ".intercalate errs)
  else none

/-- A handler `func() error` over the marker's state `σ`: the error it returns (`none` for
nil) and the state afterwards. -/
abbrev Handler (σ : Type) := σ → Option String × σ

/-- The Mark and Sweep methods of the marker that the registries refer to. -/
structure AwsHandlers (σ : Type) where
  markEc2 : Handler σ
  markEks : Handler σ
  markEbs : Handler σ
  markSG : Handler σ
  markElb : Handler σ
  markAlb : Handler σ
  markElasticache : Handler σ
  markAsg : Handler σ
  markLaunchConfig : Handler σ
  sweepEc2 : Handler σ
  sweepEks : Handler σ
  sweepEbs : Handler σ
  sweepSG : Handler σ
  sweepElb : Handler σ
  sweepAlb : Handler σ
  sweepElasticache : Handler σ
  sweepAsg : Handler σ
  sweepLaunchConfig : Handler σ

/-- The map `fm` of the method `Mark`. -/
def markFuncMap {σ : Type} (H : AwsHandlers σ) : List (String × Handler σ) :=
  [("ec2", H.markEc2), ("eks", H.markEks), ("ebs", H.markEbs), ("sg", H.markSG),
   ("elb", H.markElb), ("alb", H.markAlb), ("ec", H.markElasticache), ("asg", H.markAsg),
   ("lc", H.markLaunchConfig)]

/-- The map `fm` of the method `Sweep`. -/
def sweepFuncMap {σ : Type} (H : AwsHandlers σ) : List (String × Handler σ) :=
  [("ec2", H.sweepEc2), ("eks", H.sweepEks), ("ebs", H.sweepEbs), ("sg", H.sweepSG),
   ("elb", H.sweepElb), ("alb", H.sweepAlb), ("ec", H.sweepElasticache), ("asg", H.sweepAsg),
   ("lc", H.sweepLaunchConfig)]

/-- The loop `for _, c := range am.Config.Candidates { err := fm[c](); ... }`: the state
afterwards and the kinds whose handler was called, oldest first.  The error of a handler is
logged only; calling the nil function of a missing key is a panic. -/
def runCandidates {σ : Type} (fm : List (String × Handler σ)) :
    List String → σ × List String → Option (σ × List String)
  | [], st => some st
  | c :: rest, (s, called) =>
    match fm.lookup c with
    | none => none
    | some h => runCandidates fm rest ((h s).2, called ++ [c])

/-- The method `Mark` of the AWS marker. -/
def Mark {σ : Type} (H : AwsHandlers σ) (Candidates : List String) (s : σ) :
    Option (σ × List String) :=
  runCandidates (markFuncMap H) Candidates (s, [])

/-- The method `Sweep` of the AWS marker. -/
def Sweep {σ : Type} (H : AwsHandlers σ) (Candidates : List String) (s : σ) :
    Option (σ × List String) :=
  runCandidates (sweepFuncMap H) Candidates (s, [])

/-! ## Collecting the digests (`pkg/notify/slack.go`) -/

/-- The Slack client as `Collect` queries it: `GetUserByEmailContext` (`none` on an error),
and `GetUsersContext` (`none` on an error) with, for each user, the field `Name` and the
pointer that `findUserByName` returns for it. -/
structure SlackClient where
  GetUserByEmailContext : String → Option UserRef
  GetUsersContext : Option (List (String × UserRef))

/-- The method `findUserByEmail`; `emailCheck` is the matcher of the compiled expression of
that name. -/
def findUserByEmail (emailCheck : String → Bool) (client : SlackClient) (email : String) :
    Option UserRef :=
  if emailCheck email then client.GetUserByEmailContext email else none

/-- The method `findUserByName`. -/
def findUserByName (client : SlackClient) (user : String) : Option UserRef :=
  match client.GetUsersContext with
  | none => none
  | some users => (users.find? fun u => u.1 = user).map fun u => u.2

/-- The first loop of `Collect`: the map `notifyTargets`, a missing key reading as nil. -/
def notifyTargets (emailCheck : String → Bool) (client : SlackClient)
    (defaultOwner : Option UserRef) (owners : List String) : String → Option UserRef :=
  owners.foldl (fun targets o =>
    if o ≠ "" then
      match findUserByEmail emailCheck client o, findUserByName client o with
      | some email, _ => Function.update targets o (some email)
      | none, some user => Function.update targets o (some user)
      | none, none => Function.update targets o defaultOwner
    else targets) (Function.update (fun _ => none) "" defaultOwner)

/-- The second loop of `Collect` from the owner list `owners` on: the deliveries made, each
with its owner and the posts of `SlackSend`.  An error of `BuildCandidates` ends the method
(`return`); `none` is a panic inside `SlackSend`. -/
def collectLoop (L : Lib) (config : Config) (defaultOwner : Option UserRef)
    (targets : String → Option UserRef) (c : RedisCache) :
    List String → List (String × List SlackPost) → Option (List (String × List SlackPost))
  | [], sent => some sent
  | o :: rest, sent =>
    match BuildCandidates L o c with
    | Except.error _ => some sent
    | Except.ok mcs =>
      match SlackSend config defaultOwner (targets o) mcs with
      | none => none
      | some posts => collectLoop L config defaultOwner targets c rest (sent ++ [(o, posts)])

/-- The method `Collect`. -/
def Collect (L : Lib) (emailCheck : String → Bool) (client : SlackClient) (config : Config)
    (defaultOwner : Option UserRef) (c : RedisCache) :
    Option (List (String × List SlackPost)) :=
  let owners := c.ReadOwners
  collectLoop L config defaultOwner
    (notifyTargets emailCheck client defaultOwner owners) c owners []

/-! ## Sample data for the later checks -/

/-- A cache whose set for the owner `bob` holds a well-formed record before an entry that is
not JSON. -/
def trailingBrokenCache : RedisCache :=
  (RedisCache.empty.Write "bilge:candidates:bob"
    (goJsonMarshal (markedOf sampleMarker (AwsObject.instance ownedInstance) "ec2"))).Write
    "bilge:candidates:bob" "<html>"

/-- The cache `trailingBrokenCache` without the entry that is not JSON. -/
def trailingCleanCache : RedisCache :=
  RedisCache.empty.Write "bilge:candidates:bob"
    (goJsonMarshal (markedOf sampleMarker (AwsObject.instance ownedInstance) "ec2"))

/-- A worker node of the EKS cluster `prod`, owned by `bob`. -/
def clusterNode : Instance :=
  { InstanceId := "i-0eee",
    Tags := [⟨"owner", "bob"⟩, ⟨"kubernetes.io/cluster/prod", "owned"⟩],
    LaunchTime := some 0, StateName := "running" }

/-- The cache after `eksTtlRejected` recorded the cluster `prod` at time 0 for its node
`clusterNode`, on an empty cache. -/
def eksRecorded : RedisCache :=
  eksTtlRejected (goLib noRegex) enabledMarker 0 RedisCache.empty (some clusterNode) "prod"

/-- A run of Mark passes that each find the resource non-compliant: `ttlRejected` at the
time and for the object of each pass, in order. -/
def markPasses (L : Lib) (am : AwsMarker) (canType : String) (passes : List (Int × AwsObject))
    (c : RedisCache) : RedisCache :=
  passes.foldl (fun c p => ttlRejected L am p.1 c p.2 canType) c

/-- A Slack workspace in which no owner can be looked up. -/
def emptyWorkspace : SlackClient :=
  { GetUserByEmailContext := fun _ => none, GetUsersContext := some [] }

/-- The cache after the instances `untaggedInstance` (owner `""`) and `ownedInstance`
(owner `bob`) were recorded at time 0. -/
def twoOwners : RedisCache :=
  ttlRejected (goLib noRegex) sampleMarker 0 untaggedRecorded (AwsObject.instance ownedInstance)
    "ec2"

/-- The cache `twoOwners` after the record of `untaggedInstance` was retracted: the owner
`""` stays in the owners set with an empty candidate set. -/
def firstOwnerRetracted : RedisCache :=
  match RemoveCandidates (goLib noRegex) "" twoOwners ["i-0abc"] with
  | some (_, c) => c
  | none => twoOwners

/-- Handlers over a log of calls: each appends its name, and the handlers of `ec2` return an
error. -/
def loggingHandlers : AwsHandlers (List String) :=
  { markEc2 := fun s => (some "RequestLimitExceeded", s ++ ["markEc2"])
    markEks := fun s => (none, s ++ ["markEks"])
    markEbs := fun s => (none, s ++ ["markEbs"])
    markSG := fun s => (none, s ++ ["markSG"])
    markElb := fun s => (none, s ++ ["markElb"])
    markAlb := fun s => (none, s ++ ["markAlb"])
    markElasticache := fun s => (none, s ++ ["markElasticache"])
    markAsg := fun s => (none, s ++ ["markAsg"])
    markLaunchConfig := fun s => (none, s ++ ["markLaunchConfig"])
    sweepEc2 := fun s => (some "RequestLimitExceeded", s ++ ["sweepEc2"])
    sweepEks := fun s => (none, s ++ ["sweepEks"])
    sweepEbs := fun s => (none, s ++ ["sweepEbs"])
    sweepSG := fun s => (none, s ++ ["sweepSG"])
    sweepElb := fun s => (none, s ++ ["sweepElb"])
    sweepAlb := fun s => (none, s ++ ["sweepAlb"])
    sweepElasticache := fun s => (none, s ++ ["sweepElasticache"])
    sweepAsg := fun s => (none, s ++ ["sweepAsg"])
    sweepLaunchConfig := fun s => (none, s ++ ["sweepLaunchConfig"]) }
/-! ## Classification -/

theorem anyFilter_eq_false_iff {α : Type} (run : α → Option Bool) (fs : List α) :
    awsFilterable.anyFilter run fs = some false ↔ ∀ f ∈ fs, run f = some false := by
  induction fs with
  | nil => simp [awsFilterable.anyFilter]
  | cons f fs ih =>
    simp only [awsFilterable.anyFilter, List.mem_cons, forall_eq_or_imp]
    cases h : run f with
    | none => simp
    | some b => cases b <;> simp [ih]

theorem anyFilter_eq_true_imp {α : Type} (run : α → Option Bool) (fs : List α)
    (h : awsFilterable.anyFilter run fs = some true) : ∃ f ∈ fs, run f = some true := by
  induction fs with
  | nil => simp [awsFilterable.anyFilter] at h
  | cons f fs ih =>
    simp only [awsFilterable.anyFilter] at h
    cases hf : run f with
    | none => simp [hf] at h
    | some b =>
      cases b with
      | true => exact ⟨f, List.mem_cons_self _ _, hf⟩
      | false =>
        simp only [hf] at h
        obtain ⟨g, hg, hgt⟩ := ih h
        exact ⟨g, List.mem_cons_of_mem _ hg, hgt⟩

theorem anyFilter_isSome {α : Type} (run : α → Option Bool) (fs : List α)
    (h : ∀ f ∈ fs, (run f).isSome) : (awsFilterable.anyFilter run fs).isSome := by
  induction fs with
  | nil => simp [awsFilterable.anyFilter]
  | cons f fs ih =>
    simp only [awsFilterable.anyFilter]
    have hf := h f (List.mem_cons_self _ _)
    cases hr : run f with
    | none => simp [hr] at hf
    | some b =>
      cases b with
      | true => simp
      | false => exact ih (fun g hg => h g (List.mem_cons_of_mem _ hg))

/-- Whenever the loop returns, its answer is true exactly when some filter answered true. -/
theorem anyFilter_some_iff {α : Type} (run : α → Option Bool) (fs : List α) (b : Bool)
    (h : awsFilterable.anyFilter run fs = some b) :
    b = true ↔ ∃ f ∈ fs, run f = some true := by
  cases b with
  | true => simpa using anyFilter_eq_true_imp run fs h
  | false =>
    have hall := (anyFilter_eq_false_iff run fs).1 h
    constructor
    · intro hb; cases hb
    · rintro ⟨f, hf, hft⟩
      rw [hall f hf] at hft
      cases hft

/-- C1: classification completes whenever every filter answers, and whenever it completes
the disposition is `Ignore` exactly when some generic or typed ignore filter answers true,
`NonCompliant` exactly when no ignore filter does and some compliance or typed compliance
filter answers true, and `Compliant` otherwise; `FilterAwsObject` retracts on `Ignore`,
calls `ttlRejected` on `NonCompliant` only, and leaves the cache alone on `Compliant`.
An ignore match wins whatever the compliance filters would do: when the ignore filters
all answer and one of them answers true, the disposition is `Ignore`. -/
theorem classify_dispatch (L : Lib) (am : AwsMarker) (now : Int) (c : RedisCache)
    (e : awsFilterable) :
    (((∀ f ∈ e.ignoreFilters, (f e.id e.tags e.created).isSome) ∧
      (∀ f ∈ e.typedIgnoreFilters, (f e.object).isSome) ∧
      (∀ f ∈ e.complianceFilters, (f e.id e.tags e.created).isSome) ∧
      (∀ f ∈ e.typedComplianceFilters, (f e.object).isSome)) →
        (classify e).isSome) ∧
    (∀ d, classify e = some d →
      (d = Disposition.Ignore ↔
        ((∃ f ∈ e.ignoreFilters, f e.id e.tags e.created = some true) ∨
         (∃ f ∈ e.typedIgnoreFilters, f e.object = some true))) ∧
      (d = Disposition.NonCompliant ↔
        (¬ ((∃ f ∈ e.ignoreFilters, f e.id e.tags e.created = some true) ∨
            (∃ f ∈ e.typedIgnoreFilters, f e.object = some true)) ∧
         ((∃ f ∈ e.complianceFilters, f e.id e.tags e.created = some true) ∨
          (∃ f ∈ e.typedComplianceFilters, f e.object = some true)))) ∧
      (d = Disposition.Compliant ↔
        (¬ ((∃ f ∈ e.ignoreFilters, f e.id e.tags e.created = some true) ∨
            (∃ f ∈ e.typedIgnoreFilters, f e.object = some true)) ∧
         ¬ ((∃ f ∈ e.complianceFilters, f e.id e.tags e.created = some true) ∨
            (∃ f ∈ e.typedComplianceFilters, f e.object = some true))))) ∧
    FilterAwsObject L am now c e =
      (match classify e with
       | none => none
       | some Disposition.Ignore =>
         (filterableUpdate L am c e.object e.awsObjectType).map Prod.snd
       | some Disposition.NonCompliant =>
         some (ttlRejected L am now c e.object e.awsObjectType)
       | some Disposition.Compliant => some c) ∧
    (((∀ f ∈ e.ignoreFilters, (f e.id e.tags e.created).isSome) ∧
      (∀ f ∈ e.typedIgnoreFilters, (f e.object).isSome) ∧
      ((∃ f ∈ e.ignoreFilters, f e.id e.tags e.created = some true) ∨
       (∃ f ∈ e.typedIgnoreFilters, f e.object = some true))) →
        classify e = some Disposition.Ignore) := by
  refine ⟨?_, ?_, ?_, ?_⟩
  · rintro ⟨h1, h2, h3, h4⟩
    have a1 := anyFilter_isSome (fun f : Filter => f e.id e.tags e.created) _ h1
    have a2 := anyFilter_isSome (fun f : TypedFilter => f e.object) _ h2
    have a3 := anyFilter_isSome (fun f : Filter => f e.id e.tags e.created) _ h3
    have a4 := anyFilter_isSome (fun f : TypedFilter => f e.object) _ h4
    obtain ⟨b1, hb1⟩ := Option.isSome_iff_exists.1 a1
    obtain ⟨b2, hb2⟩ := Option.isSome_iff_exists.1 a2
    obtain ⟨b3, hb3⟩ := Option.isSome_iff_exists.1 a3
    obtain ⟨b4, hb4⟩ := Option.isSome_iff_exists.1 a4
    simp only [classify, awsFilterable.Ignore, awsFilterable.Compliant, hb1, hb2, hb3, hb4]
    cases b1 <;> cases b2 <;> cases b3 <;> cases b4 <;> rfl
  · intro d hd
    simp only [classify, awsFilterable.Ignore, awsFilterable.Compliant] at hd
    cases h1 : awsFilterable.anyFilter (fun f : Filter => f e.id e.tags e.created)
        e.ignoreFilters with
    | none => simp [h1] at hd
    | some b1 =>
      have i1 := anyFilter_some_iff _ _ _ h1
      cases b1 with
      | true =>
        simp only [h1] at hd
        cases hd
        have := i1.1 rfl
        simp [this]
      | false =>
        have n1 : ¬ ∃ f ∈ e.ignoreFilters, f e.id e.tags e.created = some true :=
          fun hx => by simpa using i1.2 hx
        cases h2 : awsFilterable.anyFilter (fun f : TypedFilter => f e.object)
            e.typedIgnoreFilters with
        | none => simp [h1, h2] at hd
        | some b2 =>
          have i2 := anyFilter_some_iff _ _ _ h2
          cases b2 with
          | true =>
            simp only [h1, h2] at hd
            cases hd
            have := i2.1 rfl
            simp [this]
          | false =>
            have n2 : ¬ ∃ f ∈ e.typedIgnoreFilters, f e.object = some true :=
              fun hx => by simpa using i2.2 hx
            cases h3 : awsFilterable.anyFilter (fun f : Filter => f e.id e.tags e.created)
                e.complianceFilters with
            | none => simp [h1, h2, h3] at hd
            | some b3 =>
              have i3 := anyFilter_some_iff _ _ _ h3
              cases b3 with
              | true =>
                simp only [h1, h2, h3] at hd
                cases hd
                have := i3.1 rfl
                simp [n1, n2, this]
              | false =>
                have n3 : ¬ ∃ f ∈ e.complianceFilters, f e.id e.tags e.created = some true :=
                  fun hx => by simpa using i3.2 hx
                cases h4 : awsFilterable.anyFilter (fun f : TypedFilter => f e.object)
                    e.typedComplianceFilters with
                | none => simp [h1, h2, h3, h4] at hd
                | some b4 =>
                  have i4 := anyFilter_some_iff _ _ _ h4
                  cases b4 with
                  | true =>
                    simp only [h1, h2, h3, h4] at hd
                    cases hd
                    have := i4.1 rfl
                    simp [n1, n2, n3, this]
                  | false =>
                    have n4 : ¬ ∃ f ∈ e.typedComplianceFilters, f e.object = some true :=
                      fun hx => by simpa using i4.2 hx
                    simp only [h1, h2, h3, h4] at hd
                    cases hd
                    simp [n1, n2, n3, n4]
  · simp only [FilterAwsObject, classify, awsFilterable.GetTypeInterface,
      awsFilterable.GetTypeString]
    cases e.Ignore with
    | none => rfl
    | some b =>
      cases b with
      | true =>
        cases filterableUpdate L am c e.object e.awsObjectType with
        | none => rfl
        | some r => rfl
      | false =>
        cases e.Compliant with
        | none => rfl
        | some b2 => cases b2 <;> rfl
  · rintro ⟨h1, h2, hm⟩
    have a1 := anyFilter_isSome (fun f : Filter => f e.id e.tags e.created) _ h1
    have a2 := anyFilter_isSome (fun f : TypedFilter => f e.object) _ h2
    obtain ⟨b1, hb1⟩ := Option.isSome_iff_exists.1 a1
    obtain ⟨b2, hb2⟩ := Option.isSome_iff_exists.1 a2
    have i1 := anyFilter_some_iff _ _ _ hb1
    have i2 := anyFilter_some_iff _ _ _ hb2
    have hb : b1 = true ∨ b2 = true := by
      rcases hm with hm | hm
      · exact Or.inl (i1.2 hm)
      · exact Or.inr (i2.2 hm)
    simp only [classify, awsFilterable.Ignore, hb1, hb2]
    rcases hb with hb | hb
    · subst hb
      rfl
    · subst hb
      cases b1 <;> rfl

/-! ## Sweep selection -/

/-- The loop body of `toDelete`, for the account name `name`. -/
theorem toDelete_fold (c : RedisCache) (now : Int) (thing name : String) (L : Lib)
    (xs : List String) (hwf : ∀ e ∈ xs, (slotOf L e).isSome) (acc : List String) :
    (xs.map (slotOf L)).foldlM (fun (acc : List String) (slot : Option MarkedCandidate) =>
      match slot with
      | none => none
      | some m =>
        if !c.TimerExists now ("bilge:timers:" ++ m.Id) then
          if m.CandidateType = thing ∧ m.Account = name then some (acc ++ [m.Id])
          else some acc
        else some acc) acc
    = some (acc ++ ((xs.filterMap (slotOf L)).filter (fun m =>
        decide (m.CandidateType = thing ∧ m.Account = name ∧
          c.TimerExists now ("bilge:timers:" ++ m.Id) = false))).map (fun m => m.Id)) := by
  induction xs generalizing acc with
  | nil => simp
  | cons x xs ih =>
    have hx := hwf x (List.mem_cons_self _ _)
    have hxs : ∀ e ∈ xs, (slotOf L e).isSome := fun e he => hwf e (List.mem_cons_of_mem _ he)
    obtain ⟨m, hm⟩ := Option.isSome_iff_exists.1 hx
    simp only [List.map_cons, List.foldlM_cons, hm, List.filterMap_cons]
    cases ht : c.TimerExists now ("bilge:timers:" ++ m.Id) with
    | true =>
      simp only [Bool.not_true, Bool.false_eq_true, if_false, Option.bind_eq_bind,
        Option.some_bind]
      rw [ih hxs]
      simp [List.filter_cons, ht]
    | false =>
      by_cases hp : m.CandidateType = thing ∧ m.Account = name
      · simp only [Bool.not_false, if_true, hp, and_self, Option.bind_eq_bind,
          Option.some_bind]
        rw [ih hxs]
        simp [List.filter_cons, ht, hp]
      · simp only [Bool.not_false, if_true, hp, if_false, Option.bind_eq_bind,
          Option.some_bind]
        rw [ih hxs]
        have hp' : ¬ (m.CandidateType = thing ∧ m.Account = name ∧ True) := by simpa using hp
        simp [List.filter_cons, ht, hp]

theorem checkRequiredTagsFrom_spec (required : String) (pre tags : List Tag) :
    (match tags.find? (fun t => t.Key == required) with
     | some t => (checkRequiredTagsFrom required pre.length tags).2 = true ∧
         (pre ++ tags)[(checkRequiredTagsFrom required pre.length tags).1]? = some t
     | none => checkRequiredTagsFrom required pre.length tags = (0, false)) := by
  induction tags generalizing pre with
  | nil => simp [checkRequiredTagsFrom]
  | cons t ts ih =>
    by_cases h : t.Key = required
    · simp [checkRequiredTagsFrom, h, List.find?_cons]
      rw [List.getElem_append_right (le_refl _)]
      simp
    · have hb : (t.Key == required) = false := by simpa using h
      simp only [checkRequiredTagsFrom, h, if_false, List.find?_cons, hb]
      have := ih (pre ++ [t])
      simpa using this

/-- The value `tagOrNil` reads is that of the first tag with the key, or the empty string. -/
theorem tagOrNil_eq_find (tag : String) (tags : List Tag) :
    tagOrNil tag tags = ((tags.find? (fun t => t.Key == tag)).map Tag.Value).getD "" := by
  have h := checkRequiredTagsFrom_spec tag [] tags
  unfold tagOrNil checkRequiredTags
  cases hf : tags.find? (fun t => t.Key == tag) with
  | none =>
    rw [hf] at h
    simp only [List.length_nil] at h
    simp [h]
  | some t =>
    rw [hf] at h
    simp only [List.length_nil, List.nil_append] at h
    obtain ⟨h1, h2⟩ := h
    cases hc : checkRequiredTagsFrom tag 0 tags with
    | mk i b =>
      rw [hc] at h1 h2
      simp only at h1 h2
      simp [h1, h2]

theorem find_key_perm (tag : String) (tags₁ tags₂ : List Tag) (hp : tags₁.Perm tags₂)
    (hn : (tags₁.map Tag.Key).Nodup) :
    tags₁.find? (fun t => t.Key == tag) = tags₂.find? (fun t => t.Key == tag) := by
  have hinj := List.inj_on_of_nodup_map hn
  cases h1 : tags₁.find? (fun t => t.Key == tag) with
  | none =>
    symm
    rw [List.find?_eq_none] at h1 ⊢
    intro x hx
    exact h1 x (hp.mem_iff.2 hx)
  | some a =>
    have ha := List.mem_of_find?_eq_some h1
    have hpa := List.find?_some h1
    cases h2 : tags₂.find? (fun t => t.Key == tag) with
    | none =>
      rw [List.find?_eq_none] at h2
      exact absurd hpa (h2 a (hp.mem_iff.1 ha))
    | some b =>
      have hb := hp.mem_iff.2 (List.mem_of_find?_eq_some h2)
      have hpb := List.find?_some h2
      simp only [beq_iff_eq] at hpa hpb
      rw [hinj ha hb (hpa.trans hpb.symm)]

theorem tagOrNil_perm (tag : String) (tags₁ tags₂ : List Tag) (hp : tags₁.Perm tags₂)
    (hn : (tags₁.map Tag.Key).Nodup) : tagOrNil tag tags₁ = tagOrNil tag tags₂ := by
  rw [tagOrNil_eq_find, tagOrNil_eq_find, find_key_perm tag tags₁ tags₂ hp hn]

theorem GoMap.mem_set (k v : String) (m : GoMap) (x : String × String)
    (hx : x ∈ GoMap.set k v m) : x = (k, v) ∨ x ∈ m := by
  induction m with
  | nil => simpa [GoMap.set] using hx
  | cons a rest ih =>
    obtain ⟨k', v'⟩ := a
    simp only [GoMap.set] at hx
    split_ifs at hx with h1 h2
    · simp only [List.mem_cons] at hx ⊢
      tauto
    · simp only [List.mem_cons] at hx ⊢
      tauto
    · simp only [List.mem_cons] at hx ⊢
      rcases hx with hx | hx
      · tauto
      · rcases ih hx with h | h
        · tauto
        · tauto

theorem GoMap.set_sorted (k v : String) (m : GoMap) (hm : m.Pairwise keyLt) :
    (GoMap.set k v m).Pairwise keyLt := by
  induction m with
  | nil => simp [GoMap.set]
  | cons a rest ih =>
    obtain ⟨k', v'⟩ := a
    rw [List.pairwise_cons] at hm
    obtain ⟨hhead, htail⟩ := hm
    simp only [GoMap.set]
    split_ifs with h1 h2
    · have hlt : k < k' := String.lt_iff_toList_lt.2 h1
      refine List.Pairwise.cons ?_ (List.Pairwise.cons hhead htail)
      intro x hx
      rcases List.mem_cons.1 hx with rfl | hx
      · exact hlt
      · exact lt_trans hlt (hhead x hx)
    · subst h2
      exact List.Pairwise.cons hhead htail
    · have hnlt : ¬ k < k' := fun h => h1 (String.lt_iff_toList_lt.1 h)
      have hgt : k' < k := lt_of_le_of_ne (not_lt.1 hnlt) (fun h => h2 h.symm)
      refine List.Pairwise.cons ?_ (ih htail)
      intro x hx
      rcases GoMap.mem_set k v rest x hx with rfl | hx
      · exact hgt
      · exact hhead x hx

theorem GoMap.set_perm (k v : String) (m : GoMap) (hk : ∀ x ∈ m, x.1 ≠ k) :
    (GoMap.set k v m).Perm ((k, v) :: m) := by
  induction m with
  | nil => simp [GoMap.set]
  | cons a rest ih =>
    obtain ⟨k', v'⟩ := a
    have hne : k ≠ k' := fun h => hk (k', v') (List.mem_cons_self _ _) h.symm
    simp only [GoMap.set, hne, if_false]
    split_ifs with h1
    · exact List.Perm.refl _
    · exact ((ih (fun x hx => hk x (List.mem_cons_of_mem _ hx))).cons (k', v')).trans
        (List.Perm.swap _ _ _)

theorem GoMap.fold_spec (ts : List Tag) :
    ∀ acc : GoMap, acc.Pairwise keyLt → (ts.map Tag.Key).Nodup →
      (∀ t ∈ ts, ∀ x ∈ acc, x.1 ≠ t.Key) →
      (ts.foldl (fun m t => GoMap.set t.Key t.Value m) acc).Pairwise keyLt ∧
      (ts.foldl (fun m t => GoMap.set t.Key t.Value m) acc).Perm
        (ts.map (fun t => (t.Key, t.Value)) ++ acc) := by
  induction ts with
  | nil => intro acc hs _ _; exact ⟨hs, List.Perm.refl _⟩
  | cons t ts ih =>
    intro acc hs hn hd
    rw [List.map_cons, List.nodup_cons] at hn
    obtain ⟨hnot, hn'⟩ := hn
    have hd' : ∀ t' ∈ ts, ∀ x ∈ GoMap.set t.Key t.Value acc, x.1 ≠ t'.Key := by
      intro t' ht' x hx
      rcases GoMap.mem_set _ _ _ _ hx with rfl | hx
      · intro h
        exact hnot (List.mem_map.2 ⟨t', ht', h.symm⟩)
      · exact hd t' (List.mem_cons_of_mem _ ht') x hx
    obtain ⟨h1, h2⟩ := ih (GoMap.set t.Key t.Value acc) (GoMap.set_sorted _ _ _ hs) hn' hd'
    refine ⟨h1, ?_⟩
    simp only [List.foldl_cons, List.map_cons, List.cons_append]
    refine h2.trans ?_
    have h3 := GoMap.set_perm t.Key t.Value acc (fun x hx => hd t (List.mem_cons_self _ _) x hx)
    exact (List.Perm.append_left _ h3).trans List.perm_middle

/-- The map that `ttlRejected` builds from the tags does not depend on their order. -/
theorem GoMap.fold_perm (tags₁ tags₂ : List Tag) (hp : tags₁.Perm tags₂)
    (hn : (tags₁.map Tag.Key).Nodup) :
    tags₁.foldl (fun m t => GoMap.set t.Key t.Value m) ([] : GoMap)
      = tags₂.foldl (fun m t => GoMap.set t.Key t.Value m) ([] : GoMap) := by
  have hn2 : (tags₂.map Tag.Key).Nodup := (hp.map Tag.Key).nodup_iff.1 hn
  obtain ⟨s1, p1⟩ := GoMap.fold_spec tags₁ [] List.Pairwise.nil hn (by simp)
  obtain ⟨s2, p2⟩ := GoMap.fold_spec tags₂ [] List.Pairwise.nil hn2 (by simp)
  have hperm := p1.trans (((hp.map (fun t => (t.Key, t.Value))).append_right []).trans p2.symm)
  exact @List.eq_of_perm_of_sorted _ keyLt
    ⟨fun a b h1 h2 => absurd h1 (lt_asymm h2)⟩ _ _ hperm s1 s2

/-! ## Cache keys -/

theorem candidatesKey_ne_owners (o : String) : "bilge:candidates:" ++ o ≠ "bilge:owners" := by
  intro h
  have := congrArg String.data h
  simp [String.data_append] at this

theorem candidatesKey_inj (o₁ o₂ : String)
    (h : "bilge:candidates:" ++ o₁ = "bilge:candidates:" ++ o₂) : o₁ = o₂ := by
  have := congrArg String.data h
  simp only [String.data_append, List.append_cancel_left_eq] at this
  exact String.ext this

theorem timersKey_ne_candidatesKey (i o : String) :
    "bilge:timers:" ++ i ≠ "bilge:candidates:" ++ o := by
  intro h
  have := congrArg String.data h
  simp [String.data_append] at this

theorem timersKey_ne_owners (i : String) : "bilge:timers:" ++ i ≠ "bilge:owners" := by
  intro h
  have := congrArg String.data h
  simp [String.data_append] at this

/-! ## Recording a candidate -/

theorem markedOf_perm (am : AwsMarker) (obj₁ obj₂ : AwsObject) (canType : String)
    (hid : (ExtractTags obj₁).1 = (ExtractTags obj₂).1)
    (hperm : (ExtractTags obj₁).2.1.Perm (ExtractTags obj₂).2.1)
    (hnodup : ((ExtractTags obj₁).2.1.map Tag.Key).Nodup) :
    markedOf am obj₁ canType = markedOf am obj₂ canType := by
  unfold markedOf
  rcases h1 : ExtractTags obj₁ with ⟨id1, tags1, cr1, ty1⟩
  rcases h2 : ExtractTags obj₂ with ⟨id2, tags2, cr2, ty2⟩
  rw [h1, h2] at hid hperm
  rw [h1] at hnodup
  simp only at hid hperm hnodup
  subst hid
  simp only [tagOrNil_perm _ tags1 tags2 hperm hnodup,
    GoMap.fold_perm tags1 tags2 hperm hnodup]

/-- The effect of `ttlRejected` when the serialized record is not yet in the owner's set
and the id has no timer. -/
theorem ttlRejected_fresh (L : Lib) (am : AwsMarker) (now : Int) (c : RedisCache)
    (obj : AwsObject) (canType : String)
    (hrec : L.jsonMarshal (markedOf am obj canType)
      ∉ c.ReadCandidates (tagOrNil "owner" (ExtractTags obj).2.1))
    (htimer : c.TimerExists now ("bilge:timers:" ++ (ExtractTags obj).1) = false) :
    (ttlRejected L am now c obj canType).sets
        ("bilge:candidates:" ++ tagOrNil "owner" (ExtractTags obj).2.1)
      = c.ReadCandidates (tagOrNil "owner" (ExtractTags obj).2.1)
          ++ [L.jsonMarshal (markedOf am obj canType)]
    ∧ (ttlRejected L am now c obj canType).strings ("bilge:timers:" ++ (ExtractTags obj).1)
      = some (am.Config.GracePeriod,
          some (Unix (now + (L.ParseDuration am.Config.GracePeriod).getD 0) * 1000000000))
    ∧ (ttlRejected L am now c obj canType).log
      = c.log ++
        [RedisCmd.SAdd "bilge:owners" (tagOrNil "owner" (ExtractTags obj).2.1),
         RedisCmd.SAdd ("bilge:candidates:" ++ tagOrNil "owner" (ExtractTags obj).2.1)
           (L.jsonMarshal (markedOf am obj canType)),
         RedisCmd.Set ("bilge:timers:" ++ (ExtractTags obj).1) am.Config.GracePeriod,
         RedisCmd.ExpireAt ("bilge:timers:" ++ (ExtractTags obj).1)
           (now + (L.ParseDuration am.Config.GracePeriod).getD 0)] := by
  rcases h1 : ExtractTags obj with ⟨id, tags, cr, ty⟩
  rw [h1] at hrec htimer
  simp only at hrec htimer
  have hex : c.CandidateExists (tagOrNil "owner" tags) (L.jsonMarshal (markedOf am obj canType))
      = false := by
    simpa [RedisCache.CandidateExists, RedisCache.ReadCandidates] using hrec
  have htimer' : (((c.Write "bilge:owners" (tagOrNil "owner" tags)).Write
      ("bilge:candidates:" ++ tagOrNil "owner" tags)
      (L.jsonMarshal (markedOf am obj canType))).TimerExists now ("bilge:timers:" ++ id))
      = false := by
    simpa [RedisCache.TimerExists, RedisCache.Exists, RedisCache.Write, RedisCache.SAdd]
      using htimer
  have hmem : L.jsonMarshal (markedOf am obj canType)
      ∉ c.sets ("bilge:candidates:" ++ tagOrNil "owner" tags) := hrec
  simp only [ttlRejected, h1, hex, Bool.false_eq_true, if_false, RedisCache.WriteTimer,
    htimer', Bool.not_false, if_true]
  refine ⟨?_, ?_, ?_⟩
  · simp [RedisCache.ExpireAt, RedisCache.Set, RedisCache.Write, RedisCache.SAdd,
      RedisCache.ReadCandidates, Function.update_noteq (candidatesKey_ne_owners _), hmem]
  · simp [RedisCache.ExpireAt, RedisCache.Set, RedisCache.Write, RedisCache.SAdd]
  · simp [RedisCache.ExpireAt, RedisCache.Set, RedisCache.Write, RedisCache.SAdd]

/-- The method `ttlRejected` returns the cache it was given when the serialized record is
already a member of the owner's set. -/
theorem ttlRejected_known (L : Lib) (am : AwsMarker) (now : Int) (c : RedisCache)
    (obj : AwsObject) (canType : String)
    (hrec : L.jsonMarshal (markedOf am obj canType)
      ∈ c.sets ("bilge:candidates:" ++ tagOrNil "owner" (ExtractTags obj).2.1)) :
    ttlRejected L am now c obj canType = c := by
  rcases h1 : ExtractTags obj with ⟨id, tags, cr, ty⟩
  rw [h1] at hrec
  simp only at hrec
  simp [ttlRejected, h1, RedisCache.CandidateExists, hrec]

/-- C3: with a cache that holds neither the serialized record nor a timer for the id,
two runs of `ttlRejected` for the same id and the same tags, given in any order (tag keys
distinct), under the same configuration: the second run returns the cache of the first
unchanged, write log included; the owner's set is the former set plus the one serialized
record; and the write log grows by the two `SADD`s and by one `SET` and one `EXPIREAT`
of the timer key, all from the first run. -/
theorem mark_idempotent (L : Lib) (am : AwsMarker) (now₁ now₂ : Int) (c : RedisCache)
    (obj₁ obj₂ : AwsObject) (canType : String)
    (hid : (ExtractTags obj₁).1 = (ExtractTags obj₂).1)
    (hperm : (ExtractTags obj₁).2.1.Perm (ExtractTags obj₂).2.1)
    (hnodup : ((ExtractTags obj₁).2.1.map Tag.Key).Nodup)
    (hrec : L.jsonMarshal (markedOf am obj₁ canType)
      ∉ c.ReadCandidates (tagOrNil "owner" (ExtractTags obj₁).2.1))
    (htimer : c.TimerExists now₁ ("bilge:timers:" ++ (ExtractTags obj₁).1) = false) :
    ttlRejected L am now₂ (ttlRejected L am now₁ c obj₁ canType) obj₂ canType
      = ttlRejected L am now₁ c obj₁ canType
    ∧ (ttlRejected L am now₂ (ttlRejected L am now₁ c obj₁ canType) obj₂ canType).ReadCandidates
        (tagOrNil "owner" (ExtractTags obj₁).2.1)
      = c.ReadCandidates (tagOrNil "owner" (ExtractTags obj₁).2.1)
          ++ [L.jsonMarshal (markedOf am obj₁ canType)]
    ∧ ((ttlRejected L am now₂ (ttlRejected L am now₁ c obj₁ canType) obj₂
          canType).ReadCandidates (tagOrNil "owner" (ExtractTags obj₁).2.1)).count
        (L.jsonMarshal (markedOf am obj₁ canType)) = 1
    ∧ (ttlRejected L am now₂ (ttlRejected L am now₁ c obj₁ canType) obj₂ canType).log
      = c.log ++
        [RedisCmd.SAdd "bilge:owners" (tagOrNil "owner" (ExtractTags obj₁).2.1),
         RedisCmd.SAdd ("bilge:candidates:" ++ tagOrNil "owner" (ExtractTags obj₁).2.1)
           (L.jsonMarshal (markedOf am obj₁ canType)),
         RedisCmd.Set ("bilge:timers:" ++ (ExtractTags obj₁).1) am.Config.GracePeriod,
         RedisCmd.ExpireAt ("bilge:timers:" ++ (ExtractTags obj₁).1)
           (now₁ + (L.ParseDuration am.Config.GracePeriod).getD 0)] := by
  obtain ⟨hset, _, hlog⟩ := ttlRejected_fresh L am now₁ c obj₁ canType hrec htimer
  have hm := markedOf_perm am obj₁ obj₂ canType hid hperm hnodup
  have ho := tagOrNil_perm "owner" _ _ hperm hnodup
  have hsecond : ttlRejected L am now₂ (ttlRejected L am now₁ c obj₁ canType) obj₂ canType
      = ttlRejected L am now₁ c obj₁ canType := by
    apply ttlRejected_known
    rw [← hm, ← ho, hset]
    simp
  rw [hsecond]
  refine ⟨rfl, hset, ?_, hlog⟩
  show ((ttlRejected L am now₁ c obj₁ canType).sets _).count _ = 1
  rw [hset, List.count_append, List.count_eq_zero_of_not_mem hrec]
  simp

/-- The inner loop of `RemoveCandidates` for a slot that holds a record: the entry of the
slot is removed from the set at `key` when the record's id is among `ids`, and nothing
else changes. -/
theorem removeForIds_spec (key : String) (strCans : List String) (ix : Nat)
    (m : MarkedCandidate) (s : String) (hs : strCans[ix]? = some s) (ids : List String) :
    ∀ c : RedisCache, ∃ c' : RedisCache,
      removeForIds key strCans ix (some m) ids c = some c' ∧
      c'.strings = c.strings ∧
      (∀ k, k ≠ key → c'.sets k = c.sets k) ∧
      c'.sets key = (if m.Id ∈ ids then (c.sets key).filter (fun x => x ≠ s) else c.sets key) := by
  induction ids with
  | nil => intro c; exact ⟨c, rfl, rfl, fun _ _ => rfl, by simp⟩
  | cons v rest ih =>
    intro c
    by_cases hv : v = m.Id
    · obtain ⟨c', h1, h2, h3, h4⟩ := ih (c.Delete key s)
      refine ⟨c', ?_, ?_, ?_, ?_⟩
      · simp only [removeForIds, hv, if_true, hs]
        exact h1
      · rw [h2]; rfl
      · intro k hk
        rw [h3 k hk]
        simp [RedisCache.Delete, RedisCache.SRem, Function.update_noteq hk]
      · rw [h4]
        have hd : (c.Delete key s).sets key = (c.sets key).filter (fun x => x ≠ s) := by
          simp [RedisCache.Delete, RedisCache.SRem]
        rw [hd]
        have hin : m.Id ∈ v :: rest := by rw [hv]; exact List.mem_cons_self _ _
        simp only [hin, if_true, List.filter_filter]
        split_ifs
        · congr 1
          funext x
          simp
        · rfl
    · obtain ⟨c', h1, h2, h3, h4⟩ := ih c
      refine ⟨c', ?_, h2, h3, ?_⟩
      · simp only [removeForIds, hv, if_false]
        exact h1
      · rw [h4]
        have : (m.Id ∈ v :: rest) ↔ (m.Id ∈ rest) := by
          simp only [List.mem_cons]
          constructor
          · rintro (h | h)
            · exact absurd h.symm hv
            · exact h
          · exact Or.inr
        simp only [this]

/-- The outer loop of `RemoveCandidates` over slots that all hold records: the set at
`key` loses the entries whose record has an id among `ids`, and nothing else changes. -/
theorem removeForCans_spec (L : Lib) (key : String) (ids : List String) (suf : List String) :
    ∀ (pre : List String) (c : RedisCache), (∀ e ∈ suf, (slotOf L e).isSome) →
      ∃ c' : RedisCache,
        removeForCans key (pre ++ suf) ids pre.length (suf.map (slotOf L)) c = some c' ∧
        c'.strings = c.strings ∧
        (∀ k, k ≠ key → c'.sets k = c.sets k) ∧
        c'.sets key = (c.sets key).filter (fun x =>
          decide (x ∉ suf.filter (fun e => (slotOf L e).any (fun m => decide (m.Id ∈ ids))))) := by
  induction suf with
  | nil =>
    intro pre c _
    exact ⟨c, rfl, rfl, fun _ _ => rfl, by simp⟩
  | cons e suf ih =>
    intro pre c hwf
    obtain ⟨m, hm⟩ := Option.isSome_iff_exists.1 (hwf e (List.mem_cons_self _ _))
    have hs : (pre ++ e :: suf)[pre.length]? = some e := by
      rw [List.getElem?_append_right (le_refl _)]
      simp
    obtain ⟨c₁, a1, a2, a3, a4⟩ := removeForIds_spec key (pre ++ e :: suf) pre.length m e hs ids c
    have hpre : pre ++ e :: suf = (pre ++ [e]) ++ suf := by simp
    obtain ⟨c₂, b1, b2, b3, b4⟩ :=
      ih (pre ++ [e]) c₁ (fun x hx => hwf x (List.mem_cons_of_mem _ hx))
    refine ⟨c₂, ?_, ?_, ?_, ?_⟩
    · simp only [List.map_cons, removeForCans, hm, a1]
      rw [hpre]
      have hl : (pre ++ [e]).length = pre.length + 1 := by simp
      rw [hl] at b1
      exact b1
    · rw [b2, a2]
    · intro k hk
      rw [b3 k hk, a3 k hk]
    · rw [b4, a4]
      by_cases hid : m.Id ∈ ids
      · simp only [hid, if_true, List.filter_filter]
        apply List.filter_congr
        intro x _
        simp only [List.filter_cons, hm, Option.any_some, hid, decide_True, if_true,
          List.mem_cons, not_or]
        by_cases hxe : x = e
        · simp [hxe]
        · simp [hxe]
      · simp only [hid, if_false]
        apply List.filter_congr
        intro x _
        simp [List.filter_cons, hm, hid]

/-- On a non-empty set of well-formed entries `RemoveCandidates` returns nil. -/
theorem RemoveCandidates_ok (L : Lib) (owner : String) (c : RedisCache) (ids : List String)
    (hne : c.ReadCandidates owner ≠ [])
    (hwf : ∀ e ∈ c.ReadCandidates owner, (slotOf L e).isSome) :
    ∃ c' : RedisCache, RemoveCandidates L owner c ids = some (none, c') := by
  obtain ⟨c', h1, _⟩ :=
    removeForCans_spec L ("bilge:candidates:" ++ owner) ids (c.ReadCandidates owner) [] c hwf
  have hlen : ¬ (c.ReadCandidates owner).length = 0 := fun h => hne (List.length_eq_zero.1 h)
  refine ⟨c', ?_⟩
  simp only [RemoveCandidates, BuildCandidates, hlen, if_false]
  simp only [List.nil_append, List.length_nil] at h1
  rw [h1]

/-- C6: for an owner whose set is non-empty and holds only entries that deserialize to a
record, `RemoveCandidates(owner, ids)` returns nil and leaves in the owner's set exactly
the entries whose record's id is not in `ids`, in the same order; no string key (so no
timer), no other set key, no other owner's set and not the owners set is changed. -/
theorem RemoveCandidates_frame (L : Lib) (owner : String) (c : RedisCache) (ids : List String)
    (hne : c.ReadCandidates owner ≠ [])
    (hwf : ∀ e ∈ c.ReadCandidates owner, (slotOf L e).isSome) :
    ∃ c' : RedisCache,
      RemoveCandidates L owner c ids = some (none, c') ∧
      c'.ReadCandidates owner = (c.ReadCandidates owner).filter
        (fun e => (slotOf L e).all (fun m => decide (m.Id ∉ ids))) ∧
      c'.strings = c.strings ∧
      (∀ key, key ≠ "bilge:candidates:" ++ owner → c'.sets key = c.sets key) ∧
      (∀ owner', owner' ≠ owner → c'.ReadCandidates owner' = c.ReadCandidates owner') ∧
      c'.ReadOwners = c.ReadOwners := by
  obtain ⟨c', h1, h2, h3, h4⟩ :=
    removeForCans_spec L ("bilge:candidates:" ++ owner) ids (c.ReadCandidates owner) [] c hwf
  have hlen : ¬ (c.ReadCandidates owner).length = 0 := fun h => hne (List.length_eq_zero.1 h)
  refine ⟨c', ?_, ?_, h2, h3, ?_, ?_⟩
  · simp only [RemoveCandidates, BuildCandidates, hlen, if_false]
    simp only [List.nil_append, List.length_nil] at h1
    rw [h1]
  · show c'.sets _ = _
    rw [h4]
    apply List.filter_congr
    intro x hx
    have hx' : x ∈ c.ReadCandidates owner := hx
    obtain ⟨m, hm⟩ := Option.isSome_iff_exists.1 (hwf x hx')
    simp only [List.mem_filter, hx', true_and, hm, Option.any_some, Option.all_some,
      decide_eq_true_eq, decide_not]
  · intro owner' ho
    exact h3 _ (fun h => ho (candidatesKey_inj _ _ h))
  · exact h3 _ (fun h => candidatesKey_ne_owners owner h.symm)


/-- C7: `RemoveCandidates(owner, ids)` returns the `NoCandidatesError` exactly when the
owner's set is empty, whatever `ids` is, and then hands back the cache untouched; on a
non-empty set whose entries all deserialize it returns nil.  `filterableUpdate` never
returns an error: on an empty set it swallows the `NoCandidatesError`, returns nil and
leaves the cache untouched, and on a non-empty set of well-formed entries it returns
nil. -/
theorem RemoveCandidates_error (L : Lib) (am : AwsMarker) (owner : String) (c : RedisCache)
    (ids : List String) (obj : AwsObject) (canType : String) :
    (c.ReadCandidates owner = [] →
      RemoveCandidates L owner c ids = some (some ⟨"no candidates to remove"⟩, c)) ∧
    (∀ err c', RemoveCandidates L owner c ids = some (some err, c') →
      c.ReadCandidates owner = []) ∧
    (c.ReadCandidates owner ≠ [] → (∀ e ∈ c.ReadCandidates owner, (slotOf L e).isSome) →
      ∃ c', RemoveCandidates L owner c ids = some (none, c')) ∧
    (∀ r, filterableUpdate L am c obj canType = some r → r.1 = none) ∧
    (c.ReadCandidates (tagOrNil "owner" (ExtractTags obj).2.1) = [] →
      filterableUpdate L am c obj canType = some (none, c)) ∧
    (c.ReadCandidates (tagOrNil "owner" (ExtractTags obj).2.1) ≠ [] →
      (∀ e ∈ c.ReadCandidates (tagOrNil "owner" (ExtractTags obj).2.1), (slotOf L e).isSome) →
      ∃ c', filterableUpdate L am c obj canType = some (none, c')) := by
  have hempty : ∀ (o : String) (is : List String), c.ReadCandidates o = [] →
      RemoveCandidates L o c is = some (some ⟨"no candidates to remove"⟩, c) := by
    intro o is h
    simp [RemoveCandidates, h]
  refine ⟨hempty owner ids, ?_, ?_, ?_, ?_, ?_⟩
  · intro err c' h
    by_contra hne
    have hlen : ¬ (c.ReadCandidates owner).length = 0 := fun hl => hne (List.length_eq_zero.1 hl)
    simp only [RemoveCandidates, BuildCandidates, hlen, if_false] at h
    split at h <;> simp at h
  · intro hne hwf
    exact RemoveCandidates_ok L owner c ids hne hwf
  · intro r h
    rcases h1 : ExtractTags obj with ⟨id, tags, cr, ty⟩
    simp only [filterableUpdate, h1] at h
    split at h
    · cases h
    · cases h
      rfl
  · intro h
    rcases h1 : ExtractTags obj with ⟨id, tags, cr, ty⟩
    rw [h1] at h
    simp only at h
    simp only [filterableUpdate, h1, hempty _ [id] h]
  · intro hne hwf
    rcases h1 : ExtractTags obj with ⟨id, tags, cr, ty⟩
    rw [h1] at hne hwf
    simp only at hne hwf
    obtain ⟨c', h⟩ := RemoveCandidates_ok L (tagOrNil "owner" tags) c [id] hne hwf
    exact ⟨c', by simp only [filterableUpdate, h1, h]⟩

/-! ## The unlimited ttl -/

theorem checkRequiredTags_of_find (required : String) (tags : List Tag) (t : Tag)
    (h : tags.find? (fun x => x.Key == required) = some t) :
    (checkRequiredTags required tags).2 = true ∧
    tags[(checkRequiredTags required tags).1]? = some t := by
  have := checkRequiredTagsFrom_spec required [] tags
  rw [h] at this
  simpa [checkRequiredTags] using this

/-- C10: when the first tag keyed `ttl` has the value `"0"`, `TTLTagExpiredFilter` answers
false for every creation time (also a missing one) and every clock, and so does the k8s
`TTLExpiredFilter` for the annotation `armory.io/bilge.ttl` of `"0"`; `NoTagFilter` and
`NoTTLTagFilter` answer false as well.  A resource with such tags on which every other
filter of its chain answers false is classified `Compliant`, and `FilterAwsObject`
returns the cache it was given: no record is written. -/
theorem ttl_zero_unlimited (L : Lib) (am : AwsMarker) (now : Int) (c : RedisCache)
    (id : String) (tags : List Tag) (created : Option Int)
    (annotations : GoMap) (k8sCreated : Int) (e : awsFilterable)
    (httl : tags.find? (fun t => t.Key == "ttl") = some ⟨"ttl", "0"⟩)
    (hann : GoMap.get? "armory.io/bilge.ttl" annotations = some "0")
    (htags : e.tags = tags)
    (hign : ∀ f ∈ e.ignoreFilters, f e.id e.tags e.created = some false)
    (htign : ∀ f ∈ e.typedIgnoreFilters, f e.object = some false)
    (hcomp : ∀ f ∈ e.complianceFilters,
      f = NoTagFilter ∨ f = NoTTLTagFilter ∨ f = TTLTagExpiredFilter L now ∨
      f e.id e.tags e.created = some false)
    (htcomp : ∀ f ∈ e.typedComplianceFilters, f e.object = some false)
    (k : K8s.K8SMarker) (ke : K8s.k8sFilterable)
    (hkann : ke.annotations = annotations)
    (hkign : ∀ f ∈ ke.ignoreFilters, f ke.id ke.annotations ke.created = false)
    (hkcomp : ∀ f ∈ ke.complianceFilters,
      f = K8s.NoTTLAnnotationFilter ∨ f = K8s.TTLExpiredFilter L now ∨
      f ke.id ke.annotations ke.created = false) :
    TTLTagExpiredFilter L now id tags created = some false ∧
    K8s.TTLExpiredFilter L now id annotations k8sCreated = false ∧
    NoTagFilter id tags created = some false ∧
    NoTTLTagFilter id tags created = some false ∧
    classify e = some Disposition.Compliant ∧
    FilterAwsObject L am now c e = some c ∧
    ke.Ignore = false ∧ ke.Compliant = true ∧
    K8s.FilterK8SObject L k now c ke = some c := by
  obtain ⟨hex, hget⟩ := checkRequiredTags_of_find "ttl" tags _ httl
  have hT : ∀ (i : String) (cr : Option Int), TTLTagExpiredFilter L now i tags cr = some false := by
    intro i cr
    simp only [TTLTagExpiredFilter, REQUIRED_TAG]
    rcases hc : checkRequiredTags "ttl" tags with ⟨ix, b⟩
    rw [hc] at hget
    simp only at hget
    simp [hget]
  have hne : tags ≠ [] := by
    intro h
    rw [h] at httl
    simp at httl
  have hN : ∀ (i : String) (cr : Option Int), NoTagFilter i tags cr = some false := by
    intro i cr
    have : tags.length ≠ 0 := fun h => hne (List.length_eq_zero.1 h)
    simp [NoTagFilter, this]
  have hNT : ∀ (i : String) (cr : Option Int), NoTTLTagFilter i tags cr = some false := by
    intro i cr
    simp [NoTTLTagFilter, REQUIRED_TAG, hex]
  have hK : K8s.TTLExpiredFilter L now id annotations k8sCreated = false := by
    simp [K8s.TTLExpiredFilter, hann]
  have hI : e.Ignore = some false := by
    have a1 := (anyFilter_eq_false_iff (fun f : Filter => f e.id e.tags e.created)
      e.ignoreFilters).2 hign
    have a2 := (anyFilter_eq_false_iff (fun f : TypedFilter => f e.object)
      e.typedIgnoreFilters).2 htign
    simp [awsFilterable.Ignore, a1, a2]
  have hC : e.Compliant = some true := by
    have a1 := (anyFilter_eq_false_iff (fun f : Filter => f e.id e.tags e.created)
      e.complianceFilters).2 (by
        intro f hf
        rcases hcomp f hf with h | h | h | h
        · rw [h, htags]; exact hN _ _
        · rw [h, htags]; exact hNT _ _
        · rw [h, htags]; exact hT _ _
        · exact h)
    have a2 := (anyFilter_eq_false_iff (fun f : TypedFilter => f e.object)
      e.typedComplianceFilters).2 htcomp
    simp [awsFilterable.Compliant, a1, a2]
  have hKI : ke.Ignore = false := by
    simp only [K8s.k8sFilterable.Ignore, List.any_eq_false]
    intro f hf
    simp [hkign f hf]
  have hKC : ke.Compliant = true := by
    simp only [K8s.k8sFilterable.Compliant, Bool.not_eq_true', List.any_eq_false]
    intro f hf
    rcases hkcomp f hf with h | h | h
    · simp [h, K8s.NoTTLAnnotationFilter, hkann, hann]
    · simp [h, K8s.TTLExpiredFilter, hkann, hann]
    · simp [h]
  refine ⟨hT id created, hK, hN id created, hNT id created, ?_, ?_, hKI, hKC, ?_⟩
  · simp [classify, hI, hC]
  · simp [FilterAwsObject, hI, hC]
  · simp [K8s.FilterK8SObject, hKI, hKC]

/-! ## Round trip of the JSON encoding -/

theorem digitChar_isDigit (d : Nat) (hd : d < 10) :
    isDigit (Nat.digitChar d) = true ∧ (Nat.digitChar d).toNat - 48 = d ∧
    (Nat.digitChar d = '0' ↔ d = 0) := by
  interval_cases d <;> decide

theorem toDigitsCore_append (fuel : Nat) :
    ∀ (n : Nat) (ds : List Char), n < fuel →
      Nat.toDigitsCore 10 fuel n ds = Nat.toDigits 10 n ++ ds := by
  induction fuel using Nat.strong_induction_on with
  | _ fuel ih =>
    intro n ds hn
    cases fuel with
    | zero => omega
    | succ fuel =>
      unfold Nat.toDigits
      simp only [Nat.toDigitsCore]
      by_cases h0 : n / 10 = 0
      · simp [h0]
      · simp only [h0, if_false]
        have hlt : n / 10 < n := Nat.div_lt_self (by omega) (by decide)
        rw [ih fuel (Nat.lt_succ_self _) (n / 10) _ (by omega)]
        rw [ih n (by omega) (n / 10) _ hlt]
        simp

theorem toDigits_small (n : Nat) (hn : n < 10) : Nat.toDigits 10 n = [Nat.digitChar n] := by
  unfold Nat.toDigits
  simp only [Nat.toDigitsCore]
  have h0 : n / 10 = 0 := Nat.div_eq_of_lt hn
  simp [h0, Nat.mod_eq_of_lt hn]

theorem toDigits_big (n : Nat) (hn : 10 ≤ n) :
    Nat.toDigits 10 n = Nat.toDigits 10 (n / 10) ++ [Nat.digitChar (n % 10)] := by
  have h0 : n / 10 ≠ 0 := by
    intro h
    have := (Nat.div_eq_zero_iff (by decide : 0 < 10)).1 h
    omega
  conv_lhs => unfold Nat.toDigits
  simp only [Nat.toDigitsCore, h0, if_false]
  exact toDigitsCore_append n (n / 10) _ (Nat.div_lt_self (by omega) (by decide))

/-- The decimal rendering of a natural number: digits only, not empty, no leading zero
except for zero itself, and read back as the number. -/
theorem toDigits_spec (n : Nat) :
    (Nat.toDigits 10 n).all isDigit = true ∧
    natOfDigits (Nat.toDigits 10 n) = n ∧
    (∃ c cs, Nat.toDigits 10 n = c :: cs ∧ (c = '0' → n = 0 ∧ cs = [])) := by
  induction n using Nat.strong_induction_on with
  | _ n ih =>
    by_cases hn : n < 10
    · rw [toDigits_small n hn]
      obtain ⟨h1, h2, h3⟩ := digitChar_isDigit n hn
      refine ⟨by simp [h1], by simp [natOfDigits, h2], _, _, rfl, fun h => ⟨h3.1 h, rfl⟩⟩
    · have hn' : 10 ≤ n := by omega
      rw [toDigits_big n hn']
      obtain ⟨a1, a2, c, cs, a3, a4⟩ := ih (n / 10) (Nat.div_lt_self (by omega) (by decide))
      obtain ⟨h1, h2, _⟩ := digitChar_isDigit (n % 10) (Nat.mod_lt _ (by decide))
      refine ⟨by simp [a1, h1], ?_, c, cs ++ [Nat.digitChar (n % 10)], by simp [a3], ?_⟩
      · unfold natOfDigits at a2 ⊢
        rw [List.foldl_append, a2]
        simp only [List.foldl_cons, List.foldl_nil, h2]
        omega
      · intro hc
        have := (a4 hc).1
        omega

theorem takeWhile_append_stop {p : Char → Bool} (xs : List Char) (y : Char) (ys : List Char)
    (hx : xs.all p = true) (hy : p y = false) :
    (xs ++ y :: ys).takeWhile p = xs ∧ (xs ++ y :: ys).dropWhile p = y :: ys := by
  induction xs with
  | nil => simp [List.takeWhile, List.dropWhile, hy]
  | cons x xs ih =>
    simp only [List.all_cons, Bool.and_eq_true] at hx
    obtain ⟨h1, h2⟩ := ih hx.2
    simp [List.takeWhile, List.dropWhile, hx.1, h1, h2]

theorem isDigit_ne (c : Char) (hc : isDigit c = true) :
    c ≠ '-' ∧ c ≠ '\x7b' ∧ c ≠ '[' ∧ c ≠ '\x22' ∧ isWs c = false := by
  simp only [isDigit, decide_eq_true_eq] at hc
  refine ⟨?_, ?_, ?_, ?_, ?_⟩
  · rintro rfl; revert hc; decide
  · rintro rfl; revert hc; decide
  · rintro rfl; revert hc; decide
  · rintro rfl; revert hc; decide
  · simp only [isWs, Bool.or_eq_false_iff, decide_eq_false_iff_not]
    refine ⟨⟨⟨?_, ?_⟩, ?_⟩, ?_⟩ <;> (rintro rfl; revert hc; decide)

theorem parseIntPart_digits (n : Nat) (lit r : List Char) :
    parseIntPart lit (Nat.toDigits 10 n ++ ',' :: r)
      = some (lit ++ Nat.toDigits 10 n, ',' :: r) := by
  obtain ⟨hall, _, c, cs, hcs, hzero⟩ := toDigits_spec n
  rw [hcs] at hall ⊢
  simp only [List.all_cons, Bool.and_eq_true] at hall
  simp only [List.cons_append, parseIntPart]
  by_cases hc : c = '0'
  · obtain ⟨_, rfl⟩ := hzero hc
    simp [hc, parseFrac, parseExp]
  · obtain ⟨h1, h2⟩ := takeWhile_append_stop (p := isDigit) cs ',' r hall.2 (by decide)
    simp [hc, hall.1, h1, h2, parseFrac, parseExp]

theorem parseNumber_printInt (i : Int) (r : List Char) :
    parseNumber (printInt i ++ ',' :: r) = some (printInt i, ',' :: r) := by
  unfold printInt
  by_cases hi : i < 0
  · simp only [hi, if_true, List.cons_append, parseNumber]
    rw [parseIntPart_digits]
    simp
  · simp only [hi, if_false]
    obtain ⟨hall, _, c, cs, hcs, _⟩ := toDigits_spec i.toNat
    have hp := parseIntPart_digits i.toNat [] r
    rw [hcs] at hall hp ⊢
    simp only [List.all_cons, Bool.and_eq_true] at hall
    have hne := (isDigit_ne c hall.1).1
    simp only [List.cons_append, parseNumber, hne, if_false]
    simpa using hp

theorem parseIntLit_printInt (i : Int) (hlo : -(2 : Int) ^ 63 ≤ i) (hhi : i < (2 : Int) ^ 63) :
    parseIntLit (printInt i) = some i := by
  unfold printInt
  by_cases hi : i < 0
  · obtain ⟨hall, hval, c, cs, hcs, _⟩ := toDigits_spec i.natAbs
    simp only [hi, if_true, parseIntLit]
    have hne : Nat.toDigits 10 i.natAbs ≠ [] := by rw [hcs]; simp
    have hle : i.natAbs ≤ 9223372036854775808 := by omega
    have hback : -|i| = i := by rw [abs_of_neg hi, neg_neg]
    simp [hne, hall, hval, hle, hback]
  · obtain ⟨hall, hval, c, cs, hcs, _⟩ := toDigits_spec i.toNat
    simp only [hi, if_false]
    have hlt : i.toNat < 9223372036854775808 := by omega
    have hback : (i.toNat : Int) = i := by omega
    rw [hcs] at hall hval ⊢
    have hc : isDigit c = true := by
      simp only [List.all_cons, Bool.and_eq_true] at hall
      exact hall.1
    have hne := (isDigit_ne c hc).1
    simp only [parseIntLit, hne, if_false]
    simp [hall, hval, hlt, hback]

theorem parseValue_printInt (fuel : Nat) (i : Int) (r : List Char) :
    parseValue (fuel + 1) (printInt i ++ ',' :: r)
      = some (JsonValue.number (printInt i), ',' :: r) := by
  have hnum := parseNumber_printInt i r
  have hfirst : ∃ c cs, printInt i = c :: cs ∧ (c = '-' ∨ isDigit c = true) := by
    unfold printInt
    by_cases hi : i < 0
    · exact ⟨'-', Nat.toDigits 10 i.natAbs, by simp [hi], Or.inl rfl⟩
    · obtain ⟨hall, _, c, cs, hcs, _⟩ := toDigits_spec i.toNat
      rw [hcs] at hall
      simp only [List.all_cons, Bool.and_eq_true] at hall
      exact ⟨c, cs, by simp [hi, hcs], Or.inr hall.1⟩
  obtain ⟨c, cs, hcs, hc⟩ := hfirst
  rw [hcs] at hnum ⊢
  have hprops : c ≠ '\x7b' ∧ c ≠ '[' ∧ c ≠ '\x22' ∧ isWs c = false := by
    rcases hc with rfl | hc
    · decide
    · exact (isDigit_ne c hc).2
  obtain ⟨h1, h2, h3, h4⟩ := hprops
  simp only [List.cons_append] at hnum ⊢
  simp only [parseValue, skipWs, h4, Bool.false_eq_true, if_false, h1, h2, h3]
  have hc' : (c = '-' ∨ isDigit c = true) := hc
  simp only [hc', if_true, hnum]

theorem hexVal_hexDigit (n : Nat) (hn : n < 16) : hexVal (hexDigit n) = some n := by
  interval_cases n <;> decide

theorem readEscape_u00 (c : Char) (hc : c.toNat < 128) (tail : List Char) :
    readEscape ('u' :: '0' :: '0' :: hexDigit (c.toNat / 16) :: hexDigit (c.toNat % 16) :: tail)
      = some (c, tail) := by
  have h1 := hexVal_hexDigit (c.toNat / 16) (by omega)
  have h2 := hexVal_hexDigit (c.toNat % 16) (by omega)
  have h0 : hexVal '0' = some 0 := by decide
  have hsum : ((0 * 16 + 0) * 16 + c.toNat / 16) * 16 + c.toNat % 16 = c.toNat := by omega
  have hns : ¬ (0xD800 ≤ c.toNat ∧ c.toNat < 0xE000) := by omega
  simp only [readEscape, if_true, getu4, h0, h1, h2, hsum, hns, if_false, Char.ofNat_toNat]

/-- Reading back the encoder's rendering of one character costs one unit of fuel and
gives the character. -/
theorem parseStr_escapeChar (c : Char) (fuel : Nat) (tail : List Char) :
    parseStr (fuel + 1) (escapeChar c ++ tail)
      = (match parseStr fuel tail with
         | none => none
         | some (s, r) => some (c :: s, r)) := by
  unfold escapeChar
  by_cases h1 : c = '\x22'
  · subst h1
    simp [parseStr, readEscape]
  by_cases h2 : c = '\x5c'
  · subst h2
    simp [parseStr, readEscape]
  by_cases h3 : c = '\n'
  · subst h3
    simp [parseStr, readEscape]
  by_cases h4 : c = '\r'
  · subst h4
    simp [parseStr, readEscape]
  by_cases h5 : c = '\t'
  · subst h5
    simp [parseStr, readEscape]
  simp only [h1, h2, h3, h4, h5, if_false]
  by_cases h6 : c.toNat < 0x20 ∨ c = '<' ∨ c = '>' ∨ c = '&'
  · have hlt : c.toNat < 128 := by
      rcases h6 with h | rfl | rfl | rfl
      · omega
      · decide
      · decide
      · decide
    simp only [h6, if_true, List.cons_append, List.nil_append]
    have hq : ('\x5c' : Char) ≠ '\x22' := by decide
    simp only [parseStr, hq, if_false, if_true, readEscape_u00 c hlt tail]
  simp only [h6, if_false]
  have h6' : ¬ c.toNat < 0x20 := fun h => h6 (Or.inl h)
  by_cases h7 : c.toNat = 0x2028
  · have hc : c = Char.ofNat 0x2028 := by rw [← h7, Char.ofNat_toNat]
    subst hc
    simp [parseStr, readEscape, getu4, hexVal]
  by_cases h8 : c.toNat = 0x2029
  · have hc : c = Char.ofNat 0x2029 := by rw [← h8, Char.ofNat_toNat]
    subst hc
    simp [parseStr, readEscape, getu4, hexVal]
  simp only [h7, h8, if_false, List.cons_append, List.nil_append, parseStr, h1, h2, h6']

theorem escapeChar_length (c : Char) : 1 ≤ (escapeChar c).length := by
  unfold escapeChar
  split_ifs <;> simp

theorem flatMap_escapeChar_length (s : List Char) :
    s.length ≤ (s.flatMap escapeChar).length := by
  induction s with
  | nil => simp
  | cons c s ih =>
    have := escapeChar_length c
    simp only [List.flatMap_cons, List.length_append, List.length_cons]
    omega

/-- Reading back the encoder's rendering of a string body, up to the closing quote. -/
theorem parseStr_escaped (s : List Char) :
    ∀ (fuel : Nat) (rest : List Char), s.length + 1 ≤ fuel →
      parseStr fuel (s.flatMap escapeChar ++ '\x22' :: rest) = some (s, rest) := by
  induction s with
  | nil =>
    intro fuel rest hf
    obtain ⟨f, rfl⟩ : ∃ f, fuel = f + 1 := ⟨fuel - 1, by omega⟩
    simp [parseStr]
  | cons c s ih =>
    intro fuel rest hf
    obtain ⟨f, rfl⟩ : ∃ f, fuel = f + 1 := ⟨fuel - 1, by omega⟩
    simp only [List.flatMap_cons, List.append_assoc]
    rw [parseStr_escapeChar, ih f rest (by simpa using hf)]

/-- Reading back a quoted string, after its opening quote, with the fuel the decoder
gives it. -/
theorem parseStr_quote_tail (s : String) (rest : List Char) :
    parseStr (s.data.flatMap escapeChar ++ '\x22' :: rest).length
      (s.data.flatMap escapeChar ++ '\x22' :: rest) = some (s.data, rest) := by
  apply parseStr_escaped
  have := flatMap_escapeChar_length s.data
  simp only [List.length_append, List.length_cons]
  omega

theorem parseValue_quote (fuel : Nat) (s : String) (rest : List Char) :
    parseValue (fuel + 1) (quote s ++ rest) = some (JsonValue.str s, rest) := by
  have hws : isWs '\x22' = false := by decide
  have h1 : ('\x22' : Char) ≠ '\x7b' := by decide
  have h2 : ('\x22' : Char) ≠ '[' := by decide
  have hq : quote s ++ rest = '\x22' :: (s.data.flatMap escapeChar ++ '\x22' :: rest) := by
    simp [quote]
  rw [hq]
  simp only [parseValue, skipWs, hws, Bool.false_eq_true, if_false, h1, h2, if_true,
    parseStr_quote_tail]

theorem skipWs_quote (k : String) (tail : List Char) : skipWs (quote k ++ tail) = quote k ++ tail := by
  have hws : isWs '\x22' = false := by decide
  simp [quote, skipWs, hws]

/-- One member of an object followed by a comma. -/
theorem parseMembers_comma (fuel : Nat) (k : String) (tail rest : List Char) (v : JsonValue)
    (acc : List (String × JsonValue))
    (hv : parseValue fuel tail = some (v, ',' :: rest)) (hrest : skipWs rest = rest) :
    parseMembers (fuel + 1) (quote k ++ ':' :: tail) acc
      = parseMembers fuel rest (acc ++ [(k, v)]) := by
  have hq : quote k ++ ':' :: tail
      = '\x22' :: (k.data.flatMap escapeChar ++ '\x22' :: (':' :: tail)) := by
    simp [quote]
  have hws1 : isWs ':' = false := by decide
  have hws2 : isWs ',' = false := by decide
  rw [hq]
  simp only [parseMembers, if_true, parseStr_quote_tail, skipWs, hws1, hws2, Bool.false_eq_true,
    if_false, hv, hrest]

/-- The last member of an object, followed by the closing brace. -/
theorem parseMembers_close (fuel : Nat) (k : String) (tail rest : List Char) (v : JsonValue)
    (acc : List (String × JsonValue))
    (hv : parseValue fuel tail = some (v, '\x7d' :: rest)) :
    parseMembers (fuel + 1) (quote k ++ ':' :: tail) acc
      = some (JsonValue.obj (acc ++ [(k, v)]), rest) := by
  have hq : quote k ++ ':' :: tail
      = '\x22' :: (k.data.flatMap escapeChar ++ '\x22' :: (':' :: tail)) := by
    simp [quote]
  have hws1 : isWs ':' = false := by decide
  have hws2 : isWs '\x7d' = false := by decide
  have hne : ('\x7d' : Char) ≠ ',' := by decide
  rw [hq]
  simp only [parseMembers, if_true, parseStr_quote_tail, skipWs, hws1, hws2, Bool.false_eq_true,
    if_false, hv, hne]

/-- Reading back the entries of a map. -/
theorem parseMembers_entries (m : GoMap) :
    ∀ (fuel : Nat) (rest : List Char) (acc : List (String × JsonValue)),
      m ≠ [] → m.length + 1 ≤ fuel →
      parseMembers fuel (printEntries m ++ '\x7d' :: rest) acc
        = some (JsonValue.obj (acc ++ m.map (fun kv => (kv.1, JsonValue.str kv.2))), rest) := by
  induction m with
  | nil => intro _ _ _ h; exact absurd rfl h
  | cons kv m ih =>
    intro fuel rest acc _ hf
    obtain ⟨k, v⟩ := kv
    obtain ⟨f, rfl⟩ : ∃ f, fuel = f + 1 := ⟨fuel - 1, by simp at hf; omega⟩
    obtain ⟨g, rfl⟩ : ∃ g, f = g + 1 := ⟨f - 1, by simp at hf; omega⟩
    cases m with
    | nil =>
      have hp : printEntries [(k, v)] ++ '\x7d' :: rest
          = quote k ++ ':' :: (quote v ++ '\x7d' :: rest) := by
        simp [printEntries]
      rw [hp, parseMembers_close (g + 1) k _ rest (JsonValue.str v) acc (parseValue_quote g v _)]
      simp
    | cons kv2 m2 =>
      have hp : printEntries ((k, v) :: kv2 :: m2) ++ '\x7d' :: rest
          = quote k ++ ':' :: (quote v ++ ',' :: (printEntries (kv2 :: m2) ++ '\x7d' :: rest)) := by
        simp [printEntries]
      have hsk : skipWs (printEntries (kv2 :: m2) ++ '\x7d' :: rest)
          = printEntries (kv2 :: m2) ++ '\x7d' :: rest := by
        obtain ⟨k2, v2⟩ := kv2
        cases m2 with
        | nil => simp only [printEntries, List.append_assoc]; exact skipWs_quote _ _
        | cons _ _ => simp only [printEntries, List.append_assoc]; exact skipWs_quote _ _
      rw [hp, parseMembers_comma (g + 1) k _ _ (JsonValue.str v) acc (parseValue_quote g v _) hsk]
      rw [ih (g + 1) rest _ (by simp) (by simp at hf ⊢; omega)]
      simp

/-- Reading back the rendering of the `tags` field. -/
theorem parseValue_printTags (t : Option GoMap) (fuel : Nat) (rest : List Char)
    (hf : (t.getD []).length + 1 ≤ fuel) :
    parseValue (fuel + 1) (printTags t ++ '\x7d' :: rest)
      = some (t.elim JsonValue.null
          (fun m => JsonValue.obj (m.map (fun kv => (kv.1, JsonValue.str kv.2)))),
        '\x7d' :: rest) := by
  cases t with
  | none =>
    simp [printTags, parseValue, skipWs, isWs, isDigit]
  | some m =>
    have hws1 : isWs '\x7b' = false := by decide
    have hws2 : isWs '\x7d' = false := by decide
    cases m with
    | nil =>
      simp [printTags, parseValue, skipWs, hws1, hws2, printEntries]
    | cons kv m =>
      have hstart : ∃ tl, printEntries (kv :: m) ++ '\x7d' :: '\x7d' :: rest = '\x22' :: tl := by
        obtain ⟨k, v⟩ := kv
        cases m with
        | nil => exact ⟨_, by simp [printEntries, quote]; rfl⟩
        | cons _ _ => exact ⟨_, by simp [printEntries, quote]; rfl⟩
      obtain ⟨tl, htl⟩ := hstart
      have hws3 : isWs '\x22' = false := by decide
      have hne : ('\x22' : Char) ≠ '\x7d' := by decide
      have hp : printTags (some (kv :: m)) ++ '\x7d' :: rest
          = '\x7b' :: (printEntries (kv :: m) ++ '\x7d' :: '\x7d' :: rest) := by
        simp [printTags]
      rw [hp]
      simp only [parseValue, skipWs, hws1, Bool.false_eq_true, if_false, if_true]
      rw [htl]
      simp only [skipWs, hws3, Bool.false_eq_true, if_false, hne]
      rw [← htl, parseMembers_entries (kv :: m) fuel _ [] (by simp) (by simpa using hf)]
      simp

theorem GoMap.set_append (k v : String) (acc : GoMap) (h : ∀ x ∈ acc, x.1 < k) :
    GoMap.set k v acc = acc ++ [(k, v)] := by
  induction acc with
  | nil => rfl
  | cons a acc ih =>
    obtain ⟨k', v'⟩ := a
    have hlt : k' < k := h (k', v') (List.mem_cons_self _ _)
    have h1 : ¬ k.data < k'.data := fun hh => lt_asymm hlt (String.lt_iff_toList_lt.2 hh)
    have h2 : k ≠ k' := fun hh => (lt_irrefl k) (hh ▸ hlt)
    simp only [GoMap.set, h1, h2, if_false, List.cons_append]
    rw [ih (fun x hx => h x (List.mem_cons_of_mem _ hx))]

/-- Decoding the members read back from a sorted map rebuilds the map. -/
theorem decodeMapEntries_sorted (m : GoMap) :
    ∀ acc : GoMap, (acc ++ m).Pairwise keyLt →
      decodeMapEntries (m.map (fun kv => (kv.1, JsonValue.str kv.2))) acc = (acc ++ m, false) := by
  induction m with
  | nil => intro acc _; simp [decodeMapEntries]
  | cons kv m ih =>
    intro acc hs
    obtain ⟨k, v⟩ := kv
    have hlt : ∀ x ∈ acc, x.1 < k := by
      intro x hx
      have := (List.pairwise_append.1 hs).2.2 x hx (k, v) (List.mem_cons_self _ _)
      exact this
    have hs' : ((acc ++ [(k, v)]) ++ m).Pairwise keyLt := by simpa using hs
    simp only [List.map_cons, decodeMapEntries, decodeString, GoMap.set_append k v acc hlt,
      ih _ hs']
    simp

theorem printEntries_length (m : GoMap) : m.length ≤ (printEntries m).length := by
  induction m with
  | nil => simp
  | cons kv m ih =>
    obtain ⟨k, v⟩ := kv
    cases m with
    | nil => simp [printEntries, quote]
    | cons kv2 m2 =>
      simp only [printEntries, List.length_append, List.length_cons] at ih ⊢
      omega

theorem printTags_length (t : Option GoMap) : (t.getD []).length + 2 ≤ (printTags t).length := by
  cases t with
  | none => simp [printTags]
  | some m =>
    have := printEntries_length m
    simp only [printTags, Option.getD_some, List.length_cons, List.length_append,
      List.length_singleton]
    omega

/-- An object that starts with a key: the decoder goes on to its members. -/
theorem parseValue_object_start (fuel : Nat) (k : String) (tail : List Char) :
    parseValue (fuel + 1) ('\x7b' :: (quote k ++ tail)) = parseMembers fuel (quote k ++ tail) [] := by
  have hq : quote k ++ tail = '\x22' :: (k.data.flatMap escapeChar ++ '\x22' :: tail) := by
    simp [quote]
  have hws1 : isWs '\x7b' = false := by decide
  have hws2 : isWs '\x22' = false := by decide
  have hne : ('\x22' : Char) ≠ '\x7d' := by decide
  rw [hq]
  simp only [parseValue, skipWs, hws1, hws2, Bool.false_eq_true, if_false, if_true, hne]

/-- The members that the decoder reads from the output of the encoder. -/
theorem parseJson_marshal (m : MarkedCandidate) :
    parseJson (goJsonMarshal m).data
      = some (JsonValue.obj
          [("marker_type", JsonValue.number (printInt m.MarkerType)),
           ("candidate_type", JsonValue.str m.CandidateType),
           ("id", JsonValue.str m.Id),
           ("owner", JsonValue.str m.Owner),
           ("ttl", JsonValue.str m.Ttl),
           ("purpose", JsonValue.str m.Purpose),
           ("account", JsonValue.str m.Account),
           ("tags", m.Tags.elim JsonValue.null
              (fun t => JsonValue.obj (t.map (fun kv => (kv.1, JsonValue.str kv.2)))))]) := by
  have hshape : (goJsonMarshal m).data = '\x7b' ::
      (quote "marker_type" ++ ':' :: (printInt m.MarkerType ++ ',' ::
      (quote "candidate_type" ++ ':' :: (quote m.CandidateType ++ ',' ::
      (quote "id" ++ ':' :: (quote m.Id ++ ',' ::
      (quote "owner" ++ ':' :: (quote m.Owner ++ ',' ::
      (quote "ttl" ++ ':' :: (quote m.Ttl ++ ',' ::
      (quote "purpose" ++ ':' :: (quote m.Purpose ++ ',' ::
      (quote "account" ++ ':' :: (quote m.Account ++ ',' ::
      (quote "tags" ++ ':' :: (printTags m.Tags ++ '\x7d' :: [])))))))))))))))) := by
    simp [goJsonMarshal]
  have hbound : (m.Tags.getD []).length + 10 ≤ (goJsonMarshal m).data.length := by
    have := printTags_length m.Tags
    rw [hshape]
    simp only [List.length_cons, List.length_append]
    omega
  unfold parseJson
  generalize (goJsonMarshal m).data.length = len at hbound
  obtain ⟨F, rfl⟩ : ∃ F, len = F + 1 + 1 + 1 + 1 + 1 + 1 + 1 + 1 + 1 := ⟨len - 9, by omega⟩
  have hF : (m.Tags.getD []).length + 1 ≤ F := by omega
  rw [hshape]
  rw [parseValue_object_start]
  rw [parseMembers_comma _ "marker_type" _ _ _ [] (parseValue_printInt _ m.MarkerType _)
    (skipWs_quote _ _)]
  rw [parseMembers_comma _ "candidate_type" _ _ _ _ (parseValue_quote _ m.CandidateType _)
    (skipWs_quote _ _)]
  rw [parseMembers_comma _ "id" _ _ _ _ (parseValue_quote _ m.Id _) (skipWs_quote _ _)]
  rw [parseMembers_comma _ "owner" _ _ _ _ (parseValue_quote _ m.Owner _) (skipWs_quote _ _)]
  rw [parseMembers_comma _ "ttl" _ _ _ _ (parseValue_quote _ m.Ttl _) (skipWs_quote _ _)]
  rw [parseMembers_comma _ "purpose" _ _ _ _ (parseValue_quote _ m.Purpose _)
    (skipWs_quote _ _)]
  rw [parseMembers_comma _ "account" _ _ _ _ (parseValue_quote _ m.Account _)
    (skipWs_quote _ _)]
  rw [parseMembers_close _ "tags" _ _ _ _ (parseValue_printTags m.Tags F [] hF)]
  simp [skipWs]

/-- The decoder applied to the encoder's output gives the record back. -/
theorem goJson_roundtrip (m : MarkedCandidate)
    (hlo : -(2 : Int) ^ 63 ≤ m.MarkerType) (hhi : m.MarkerType < (2 : Int) ^ 63)
    (hs : ∀ t, m.Tags = some t → t.Pairwise keyLt) :
    goJsonUnmarshal (goJsonMarshal m) = Except.ok (some m) := by
  have e00 : foldEq ("marker_type" : String).data ("marker_type" : String).data = true := by decide
  have e01 : foldEq ("marker_type" : String).data ("candidate_type" : String).data = false := by decide
  have e11 : foldEq ("candidate_type" : String).data ("candidate_type" : String).data = true := by decide
  have e02 : foldEq ("marker_type" : String).data ("id" : String).data = false := by decide
  have e12 : foldEq ("candidate_type" : String).data ("id" : String).data = false := by decide
  have e22 : foldEq ("id" : String).data ("id" : String).data = true := by decide
  have e03 : foldEq ("marker_type" : String).data ("owner" : String).data = false := by decide
  have e13 : foldEq ("candidate_type" : String).data ("owner" : String).data = false := by decide
  have e23 : foldEq ("id" : String).data ("owner" : String).data = false := by decide
  have e33 : foldEq ("owner" : String).data ("owner" : String).data = true := by decide
  have e04 : foldEq ("marker_type" : String).data ("ttl" : String).data = false := by decide
  have e14 : foldEq ("candidate_type" : String).data ("ttl" : String).data = false := by decide
  have e24 : foldEq ("id" : String).data ("ttl" : String).data = false := by decide
  have e34 : foldEq ("owner" : String).data ("ttl" : String).data = false := by decide
  have e44 : foldEq ("ttl" : String).data ("ttl" : String).data = true := by decide
  have e05 : foldEq ("marker_type" : String).data ("purpose" : String).data = false := by decide
  have e15 : foldEq ("candidate_type" : String).data ("purpose" : String).data = false := by decide
  have e25 : foldEq ("id" : String).data ("purpose" : String).data = false := by decide
  have e35 : foldEq ("owner" : String).data ("purpose" : String).data = false := by decide
  have e45 : foldEq ("ttl" : String).data ("purpose" : String).data = false := by decide
  have e55 : foldEq ("purpose" : String).data ("purpose" : String).data = true := by decide
  have e06 : foldEq ("marker_type" : String).data ("account" : String).data = false := by decide
  have e16 : foldEq ("candidate_type" : String).data ("account" : String).data = false := by decide
  have e26 : foldEq ("id" : String).data ("account" : String).data = false := by decide
  have e36 : foldEq ("owner" : String).data ("account" : String).data = false := by decide
  have e46 : foldEq ("ttl" : String).data ("account" : String).data = false := by decide
  have e56 : foldEq ("purpose" : String).data ("account" : String).data = false := by decide
  have e66 : foldEq ("account" : String).data ("account" : String).data = true := by decide
  have e07 : foldEq ("marker_type" : String).data ("tags" : String).data = false := by decide
  have e17 : foldEq ("candidate_type" : String).data ("tags" : String).data = false := by decide
  have e27 : foldEq ("id" : String).data ("tags" : String).data = false := by decide
  have e37 : foldEq ("owner" : String).data ("tags" : String).data = false := by decide
  have e47 : foldEq ("ttl" : String).data ("tags" : String).data = false := by decide
  have e57 : foldEq ("purpose" : String).data ("tags" : String).data = false := by decide
  have e67 : foldEq ("account" : String).data ("tags" : String).data = false := by decide
  have e77 : foldEq ("tags" : String).data ("tags" : String).data = true := by decide
  have hint := parseIntLit_printInt m.MarkerType hlo hhi
  unfold goJsonUnmarshal
  rw [parseJson_marshal]
  obtain ⟨mt, ct, id, ow, ttl, pu, ac, tags⟩ := m
  simp only at hint hs
  cases tags with
  | none =>
    simp only [List.foldl, decodeMember, decodeString, zeroCandidate, Option.elim, hint,
      e00, e01, e11, e02, e12, e22, e03, e13, e23, e33, e04, e14, e24, e34, e44, e05, e15, e25, e35, e45, e55, e06, e16, e26, e36, e46, e56, e66, e07, e17, e27, e37, e47, e57, e67, e77, Bool.false_eq_true, if_false, if_true, Bool.or_false]
  | some t =>
    have hdec := decodeMapEntries_sorted t [] (by simpa using hs t rfl)
    simp only [List.foldl, decodeMember, decodeString, zeroCandidate, Option.elim, hint,
      e00, e01, e11, e02, e12, e22, e03, e13, e23, e33, e04, e14, e24, e34, e44, e05, e15, e25, e35, e45, e55, e06, e16, e26, e36, e46, e56, e66, e07, e17, e27, e37, e47, e57, e67, e77, Bool.false_eq_true, if_false, if_true, Bool.or_false,
      Option.getD_none, hdec, List.nil_append]

theorem slotOf_goLib (re : String → String → Bool) (s : String) :
    slotOf (goLib re) s
      = (match goJsonUnmarshal s with
         | Except.error _ => none
         | Except.ok x => x) := rfl

/-- C9: for every `MarkedCandidate` (its `MarkerType` a Go `int`, its tag map any map, the
empty and the nil one included), `json.Unmarshal` of its `json.Marshal` gives a record
equal to the original in every field; serializing that record again gives the same bytes,
so `CandidateExists` finds it wherever the first serialization is stored. -/
theorem json_round_trip (m : MarkedCandidate)
    (hlo : -(2 : Int) ^ 63 ≤ m.MarkerType) (hhi : m.MarkerType < (2 : Int) ^ 63)
    (hs : ∀ t, m.Tags = some t → t.Pairwise keyLt) :
    goJsonUnmarshal (goJsonMarshal m) = Except.ok (some m) ∧
    (∀ m', goJsonUnmarshal (goJsonMarshal m) = Except.ok (some m') →
      m' = m ∧ goJsonMarshal m' = goJsonMarshal m) ∧
    (∀ (re : String → String → Bool) (c : RedisCache) (owner : String) (m' : MarkedCandidate),
      slotOf (goLib re) (goJsonMarshal m) = some m' →
      goJsonMarshal m ∈ c.ReadCandidates owner →
      c.CandidateExists owner (goJsonMarshal m') = true) := by
  have h := goJson_roundtrip m hlo hhi hs
  have hinj : ∀ m', goJsonUnmarshal (goJsonMarshal m) = Except.ok (some m') → m' = m := by
    intro m' hm'
    exact (Option.some.inj (Except.ok.inj (h.symm.trans hm'))).symm
  refine ⟨h, ?_, ?_⟩
  · intro m' hm'
    have e := hinj m' hm'
    exact ⟨e, congrArg goJsonMarshal e⟩
  · intro re c owner m' hslot hmem
    have e : m' = m := by
      have h2 : slotOf (goLib re) (goJsonMarshal m) = some m := by
        rw [slotOf_goLib, h]
      exact (Option.some.inj (h2.symm.trans hslot)).symm
    rw [e]
    simpa [RedisCache.CandidateExists, RedisCache.ReadCandidates] using hmem

/-! ## Instances on sample data -/

set_option maxRecDepth 100000 in
/-- An instance with an owner and no ttl: every filter of the ec2 chain answers, the
disposition is `NonCompliant` through a compliance filter, and `ttlRejected` is called. -/
theorem classify_dispatch_witness :
    (classify (ec2Chain (goLib noRegex) sampleMarker 5 ownedInstance)).isSome ∧
    classify (ec2Chain (goLib noRegex) sampleMarker 5 ownedInstance)
      = some Disposition.NonCompliant ∧
    (∃ f ∈ (ec2Chain (goLib noRegex) sampleMarker 5 ownedInstance).complianceFilters,
      f "i-0def" ownedInstance.Tags (some 0) = some true) ∧
    FilterAwsObject (goLib noRegex) sampleMarker 5 RedisCache.empty
        (ec2Chain (goLib noRegex) sampleMarker 5 ownedInstance)
      = some (ttlRejected (goLib noRegex) sampleMarker 5 RedisCache.empty
          (AwsObject.instance ownedInstance) "ec2") := by
  have h := classify_dispatch (goLib noRegex) sampleMarker 5 RedisCache.empty
    (ec2Chain (goLib noRegex) sampleMarker 5 ownedInstance)
  have hc : classify (ec2Chain (goLib noRegex) sampleMarker 5 ownedInstance)
      = some Disposition.NonCompliant := by decide
  refine ⟨h.1 (by decide), hc, ?_, ?_⟩
  · have h2 := ((h.2.1 _ hc).2.1.1 rfl).2
    rcases h2 with h2 | ⟨f, hf, _⟩
    · exact h2
    · simp [ec2Chain, newAwsFilterable, awsFilterable.WithIgnoreFilter,
        awsFilterable.WithComplianceFilter, awsFilterable.WithTypedIgnoreFilter] at hf
  · rw [h.2.2.1, hc]
    rfl

set_option maxRecDepth 100000 in
/-- Marking `i-0def` again with its two tags swapped writes nothing. -/
theorem mark_idempotent_witness :
    (ExtractTags (AwsObject.instance ownedInstance)).1
      = (ExtractTags (AwsObject.instance ownedInstanceSwapped)).1 ∧
    (ExtractTags (AwsObject.instance ownedInstance)).2.1.Perm
      (ExtractTags (AwsObject.instance ownedInstanceSwapped)).2.1 ∧
    ((ExtractTags (AwsObject.instance ownedInstance)).2.1.map Tag.Key).Nodup ∧
    ttlRejected (goLib noRegex) sampleMarker 7
        (ttlRejected (goLib noRegex) sampleMarker 0 RedisCache.empty
          (AwsObject.instance ownedInstance) "ec2")
        (AwsObject.instance ownedInstanceSwapped) "ec2"
      = ttlRejected (goLib noRegex) sampleMarker 0 RedisCache.empty
          (AwsObject.instance ownedInstance) "ec2" ∧
    ((ttlRejected (goLib noRegex) sampleMarker 7
        (ttlRejected (goLib noRegex) sampleMarker 0 RedisCache.empty
          (AwsObject.instance ownedInstance) "ec2")
        (AwsObject.instance ownedInstanceSwapped) "ec2").ReadCandidates "bob").length = 1 := by
  have h := mark_idempotent (goLib noRegex) sampleMarker 0 7 RedisCache.empty
    (AwsObject.instance ownedInstance) (AwsObject.instance ownedInstanceSwapped) "ec2"
    (by decide) (by decide) (by decide) (by decide) (by decide)
  refine ⟨by decide, by decide, by decide, h.1, ?_⟩
  have h2 := h.2.1
  have ho : tagOrNil "owner" (ExtractTags (AwsObject.instance ownedInstance)).2.1 = "bob" := by
    decide
  rw [ho] at h2
  rw [h2]
  decide

set_option maxRecDepth 100000 in
/-- Retracting `i-0def` empties the set of `bob` and leaves timers and owners alone. -/
theorem RemoveCandidates_frame_witness :
    ownedRecorded.ReadCandidates "bob" ≠ [] ∧
    (∀ e ∈ ownedRecorded.ReadCandidates "bob", (slotOf (goLib noRegex) e).isSome) ∧
    ∃ c' : RedisCache,
      RemoveCandidates (goLib noRegex) "bob" ownedRecorded ["i-0def"] = some (none, c') ∧
      c'.ReadCandidates "bob" = [] ∧
      c'.strings = ownedRecorded.strings ∧
      c'.ReadOwners = ["bob"] := by
  refine ⟨by decide, by decide, ?_⟩
  obtain ⟨c', h1, h2, h3, _, _, h6⟩ := RemoveCandidates_frame (goLib noRegex) "bob"
    ownedRecorded ["i-0def"] (by decide) (by decide)
  refine ⟨c', h1, ?_, h3, ?_⟩
  · rw [h2]
    decide
  · rw [h6]
    decide

set_option maxRecDepth 100000 in
/-- On the empty cache `RemoveCandidates` reports `NoCandidatesError` and
`filterableUpdate` returns nil; on a non-empty set an unknown id gives nil. -/
theorem RemoveCandidates_error_witness :
    RedisCache.empty.ReadCandidates "bob" = [] ∧
    RemoveCandidates (goLib noRegex) "bob" RedisCache.empty ["i-0def"]
      = some (some ⟨"no candidates to remove"⟩, RedisCache.empty) ∧
    filterableUpdate (goLib noRegex) sampleMarker RedisCache.empty
      (AwsObject.instance ownedInstance) "ec2" = some (none, RedisCache.empty) ∧
    ∃ c', RemoveCandidates (goLib noRegex) "bob" ownedRecorded ["i-0000"] = some (none, c') := by
  have h := RemoveCandidates_error (goLib noRegex) sampleMarker "bob" RedisCache.empty
    ["i-0def"] (AwsObject.instance ownedInstance) "ec2"
  have h' := RemoveCandidates_error (goLib noRegex) sampleMarker "bob" ownedRecorded
    ["i-0000"] (AwsObject.instance ownedInstance) "ec2"
  exact ⟨by decide, h.1 (by decide), h.2.2.2.2.1 (by decide),
    h'.2.2.1 (by decide) (by decide)⟩

set_option maxRecDepth 100000 in
/-- An instance and a namespace with ttl `0`, ten years old: compliant, nothing written. -/
theorem ttl_zero_unlimited_witness :
    unlimitedInstance.Tags.find? (fun t => t.Key == "ttl") = some ⟨"ttl", "0"⟩ ∧
    GoMap.get? "armory.io/bilge.ttl" unlimitedNamespace.Annotations = some "0" ∧
    TTLTagExpiredFilter (goLib noRegex) (3650 * oneDay) "i-0abc" unlimitedInstance.Tags
      (some 0) = some false ∧
    K8s.TTLExpiredFilter (goLib noRegex) (3650 * oneDay) "team-a"
      unlimitedNamespace.Annotations 0 = false ∧
    classify (ec2Chain (goLib noRegex) sampleMarker (3650 * oneDay) unlimitedInstance)
      = some Disposition.Compliant ∧
    FilterAwsObject (goLib noRegex) sampleMarker (3650 * oneDay) untaggedRecorded
        (ec2Chain (goLib noRegex) sampleMarker (3650 * oneDay) unlimitedInstance)
      = some untaggedRecorded ∧
    K8s.FilterK8SObject (goLib noRegex) sampleK8s (3650 * oneDay) untaggedRecorded
        (K8s.namespaceChain (goLib noRegex) sampleK8s (3650 * oneDay) unlimitedNamespace)
      = some untaggedRecorded := by
  have h := ttl_zero_unlimited (goLib noRegex) sampleMarker (3650 * oneDay) untaggedRecorded
    "i-0abc" unlimitedInstance.Tags (some 0) unlimitedNamespace.Annotations 0
    (ec2Chain (goLib noRegex) sampleMarker (3650 * oneDay) unlimitedInstance)
    (by decide) (by decide) rfl (by decide) (by decide)
    (by
      intro f hf
      simp only [ec2Chain, newAwsFilterable, ExtractTags, awsFilterable.WithIgnoreFilter,
        awsFilterable.WithComplianceFilter, awsFilterable.WithTypedIgnoreFilter,
        List.nil_append, List.cons_append, List.mem_cons, List.mem_singleton,
        List.not_mem_nil, or_false] at hf
      rcases hf with rfl | rfl | rfl
      · exact Or.inl rfl
      · exact Or.inr (Or.inl rfl)
      · exact Or.inr (Or.inr (Or.inl rfl)))
    (by decide)
    sampleK8s (K8s.namespaceChain (goLib noRegex) sampleK8s (3650 * oneDay) unlimitedNamespace)
    rfl (by decide)
    (by
      intro f hf
      simp only [K8s.namespaceChain, K8s.newk8sFilterable, K8s.k8sFilterable.WithIgnoreFilter,
        K8s.k8sFilterable.WithComplianceFilter, List.nil_append, List.cons_append,
        List.mem_cons, List.mem_singleton, List.not_mem_nil, or_false] at hf
      rcases hf with rfl | rfl
      · exact Or.inl rfl
      · exact Or.inr (Or.inl rfl))
  exact ⟨by decide, by decide, h.1, h.2.1, h.2.2.2.2.1, h.2.2.2.2.2.1, h.2.2.2.2.2.2.2.2⟩

/-! ## Evaluations -/

set_option maxRecDepth 100000 in
/-- C5: on the sample data a Mark pass records the untagged instance `i-0abc`
(`NonCompliant`); after the instance got the tag `ttl = 0` the next pass classifies it
`Compliant`, and `FilterAwsObject` hands back the cache unchanged: the record is still in
the candidate set of owner `""`, and one day later `toDelete` selects `i-0abc`. -/
theorem compliant_pass_keeps_record :
    classify (ec2Chain (goLib noRegex) sampleMarker 0 untaggedInstance)
      = some Disposition.NonCompliant ∧
    FilterAwsObject (goLib noRegex) sampleMarker 0 RedisCache.empty
        (ec2Chain (goLib noRegex) sampleMarker 0 untaggedInstance) = some untaggedRecorded ∧
    untaggedRecorded.ReadCandidates ""
      = [goJsonMarshal (markedOf sampleMarker (AwsObject.instance untaggedInstance) "ec2")] ∧
    (markedOf sampleMarker (AwsObject.instance untaggedInstance) "ec2").Id = "i-0abc" ∧
    classify (ec2Chain (goLib noRegex) sampleMarker 1 unlimitedInstance)
      = some Disposition.Compliant ∧
    FilterAwsObject (goLib noRegex) sampleMarker 1 untaggedRecorded
        (ec2Chain (goLib noRegex) sampleMarker 1 unlimitedInstance) = some untaggedRecorded ∧
    toDelete (goLib noRegex) sampleMarker (oneDay + 1) untaggedRecorded "" "ec2"
      = some ["i-0abc"] := by
  refine ⟨by decide, rfl, by decide, by decide, by decide, rfl, by decide⟩

set_option maxRecDepth 100000 in
/-- C8: on a set that holds the entry `not json` before a well-formed record,
`BuildCandidates` returns two slots, the first of them nil, although only one entry
deserializes; `toDelete` and `RemoveCandidates` then stop with a nil dereference. -/
theorem BuildCandidates_keeps_nil_slot :
    brokenCache.ReadCandidates "bob"
      = ["not json",
         goJsonMarshal (markedOf sampleMarker (AwsObject.instance ownedInstance) "ec2")] ∧
    goJsonUnmarshal "not json" = Except.error "invalid character" ∧
    BuildCandidates (goLib noRegex) "bob" brokenCache
      = Except.ok [none, some (markedOf sampleMarker (AwsObject.instance ownedInstance) "ec2")] ∧
    toDelete (goLib noRegex) sampleMarker (oneDay + 1) brokenCache "bob" "ec2" = none ∧
    RemoveCandidates (goLib noRegex) "bob" brokenCache ["i-0def"] = none := by
  refine ⟨by decide, by decide, by decide, by decide, rfl⟩

set_option maxRecDepth 100000 in
/-- The record with an empty tag map, its bytes, and its round trip. -/
theorem json_round_trip_witness :
    (-(2 : Int) ^ 63 ≤ emptyTagsRecord.MarkerType ∧
      emptyTagsRecord.MarkerType < (2 : Int) ^ 63) ∧
    goJsonMarshal emptyTagsRecord
      = "\x7b\x22marker_type\x22:2,\x22candidate_type\x22:\x22namespace\x22,\x22id\x22:\x22team-a\x22,\x22owner\x22:\x22\x22,\x22ttl\x22:\x22\x22,\x22purpose\x22:\x22\x22,\x22account\x22:\x22acct\x22,\x22tags\x22:\x7b\x7d\x7d" ∧
    goJsonUnmarshal (goJsonMarshal emptyTagsRecord) = Except.ok (some emptyTagsRecord) :=
  ⟨by decide, by decide,
   (json_round_trip emptyTagsRecord (by decide) (by decide)
      (by
        intro t ht
        have e : t = [] := (Option.some.inj ht).symm
        rw [e]
        exact List.Pairwise.nil)).1⟩

/-! ## The ttl check -/

theorem anyFilter_eq_true_of {α : Type} (run : α → Option Bool) (fs : List α)
    (hall : ∀ f ∈ fs, (run f).isSome) (g : α) (hg : g ∈ fs) (hgt : run g = some true) :
    awsFilterable.anyFilter run fs = some true := by
  have hs := anyFilter_isSome run fs hall
  cases h : awsFilterable.anyFilter run fs with
  | none => simp [h] at hs
  | some b =>
    cases b with
    | true => rfl
    | false =>
      have := (anyFilter_eq_false_iff run fs).1 h g hg
      rw [this] at hgt
      cases hgt

/-- A resource that no ignore filter matches and on which the compliance filters all
answer, one of them with true, is `NonCompliant` and handed to `ttlRejected`. -/
theorem classify_signalled (L : Lib) (am : AwsMarker) (now : Int) (c : RedisCache)
    (e : awsFilterable)
    (hign : ∀ f ∈ e.ignoreFilters, f e.id e.tags e.created = some false)
    (htign : ∀ f ∈ e.typedIgnoreFilters, f e.object = some false)
    (hall : ∀ f ∈ e.complianceFilters, (f e.id e.tags e.created).isSome)
    (g : Filter) (hg : g ∈ e.complianceFilters) (hgt : g e.id e.tags e.created = some true) :
    classify e = some Disposition.NonCompliant ∧
    FilterAwsObject L am now c e
      = some (ttlRejected L am now c e.GetTypeInterface e.GetTypeString) := by
  have hI : e.Ignore = some false := by
    have a1 := (anyFilter_eq_false_iff (fun f : Filter => f e.id e.tags e.created)
      e.ignoreFilters).2 hign
    have a2 := (anyFilter_eq_false_iff (fun f : TypedFilter => f e.object)
      e.typedIgnoreFilters).2 htign
    simp [awsFilterable.Ignore, a1, a2]
  have hC : e.Compliant = some false := by
    have a1 := anyFilter_eq_true_of (fun f : Filter => f e.id e.tags e.created)
      e.complianceFilters hall g hg hgt
    simp [awsFilterable.Compliant, a1]
  constructor
  · simp [classify, hI, hC]
  · simp [FilterAwsObject, hI, hC]

theorem TTLTagExpiredFilter_of_find (L : Lib) (now : Int) (id : String) (tags : List Tag)
    (t : Tag) (start : Int)
    (httl : tags.find? (fun x => x.Key == "ttl") = some t) (hz : t.Value ≠ "0") :
    TTLTagExpiredFilter L now id tags (some start)
      = some (!WithinTTLTime L now t.Value start) := by
  obtain ⟨_, hget⟩ := checkRequiredTags_of_find "ttl" tags _ httl
  simp only [TTLTagExpiredFilter, REQUIRED_TAG]
  rcases hc : checkRequiredTags "ttl" tags with ⟨ix, b⟩
  rw [hc] at hget
  simp only at hget
  simp only [hget, hz, if_false]
  cases WithinTTLTime L now t.Value start <;> simp

/-- C11 (amended): for a ttl tag value other than `"0"` that does not parse, and every
creation time, the ttl check fails closed: `WithinTTLTime` answers false,
`TTLTagExpiredFilter` answers true, and a resource that no ignore filter matches and whose
compliance filters all answer is classified `NonCompliant` and handed to `ttlRejected`. -/
theorem unparseable_ttl_fails_closed (L : Lib) (am : AwsMarker) (now : Int) (c : RedisCache)
    (id : String) (tags : List Tag) (t : Tag) (start : Int) (e : awsFilterable)
    (httl : tags.find? (fun x => x.Key == "ttl") = some t) (hz : t.Value ≠ "0")
    (hparse : L.ParseDuration t.Value = none)
    (htags : e.tags = tags) (hcreated : e.created = some start)
    (hign : ∀ f ∈ e.ignoreFilters, f e.id e.tags e.created = some false)
    (htign : ∀ f ∈ e.typedIgnoreFilters, f e.object = some false)
    (hall : ∀ f ∈ e.complianceFilters, (f e.id e.tags e.created).isSome)
    (hmem : TTLTagExpiredFilter L now ∈ e.complianceFilters) :
    WithinTTLTime L now t.Value start = false ∧
    TTLTagExpiredFilter L now id tags (some start) = some true ∧
    classify e = some Disposition.NonCompliant ∧
    FilterAwsObject L am now c e
      = some (ttlRejected L am now c e.GetTypeInterface e.GetTypeString) := by
  have hW : WithinTTLTime L now t.Value start = false := by
    simp [WithinTTLTime, hparse]
  have hT : ∀ i : String, TTLTagExpiredFilter L now i tags (some start) = some true := by
    intro i
    rw [TTLTagExpiredFilter_of_find L now i tags t start httl hz, hW]
    rfl
  refine ⟨hW, hT id, ?_⟩
  exact classify_signalled L am now c e hign htign hall _ hmem (by
    rw [htags, hcreated]; exact hT _)

/-- C12 (amended): for a ttl tag value other than `"0"` that parses to the duration `d`,
`TTLTagExpiredFilter` answers true exactly when `now - start` is at least `d`: false on a
younger resource, true at an age of exactly `d`. -/
theorem ttl_expiry_boundary (L : Lib) (now : Int) (id : String) (tags : List Tag) (t : Tag)
    (d start : Int)
    (httl : tags.find? (fun x => x.Key == "ttl") = some t) (hz : t.Value ≠ "0")
    (hparse : L.ParseDuration t.Value = some d) :
    TTLTagExpiredFilter L now id tags (some start) = some (decide (d ≤ now - start)) ∧
    (TTLTagExpiredFilter L now id tags (some start) = some true ↔ d ≤ now - start) ∧
    (now - start < d → TTLTagExpiredFilter L now id tags (some start) = some false) ∧
    (now - start = d → TTLTagExpiredFilter L now id tags (some start) = some true) := by
  have hT : TTLTagExpiredFilter L now id tags (some start) = some (decide (d ≤ now - start)) := by
    rw [TTLTagExpiredFilter_of_find L now id tags t start httl hz]
    simp only [WithinTTLTime, hparse]
    by_cases h : now - start < d
    · have h2 : ¬ d ≤ now - start := not_le.2 h
      simp [h, h2]
    · have h2 : d ≤ now - start := not_lt.1 h
      simp [h, h2]
  refine ⟨hT, ?_, ?_, ?_⟩
  · rw [hT]; simp
  · intro h
    rw [hT]
    simp [not_le.2 h]
  · intro h
    rw [hT]
    simp [h]

/-- C13: when the first tag keyed `ttl` has the value `-1w`, which the library either
rejects or reads as a duration that is not positive, `TTLTagExpiredFilter` answers true for
every creation time that is not after the clock, and `WithinTTLTime` answers false. -/
theorem negative_week_signals (L : Lib) (now : Int) (id : String) (tags : List Tag)
    (start : Int)
    (httl : tags.find? (fun x => x.Key == "ttl") = some ⟨"ttl", "-1w"⟩)
    (hparse : ∀ d, L.ParseDuration "-1w" = some d → d ≤ 0)
    (hstart : start ≤ now) :
    WithinTTLTime L now "-1w" start = false ∧
    TTLTagExpiredFilter L now id tags (some start) = some true := by
  have hW : WithinTTLTime L now "-1w" start = false := by
    simp only [WithinTTLTime]
    cases hp : L.ParseDuration "-1w" with
    | none => rfl
    | some d =>
      have := hparse d hp
      simp only [decide_eq_false_iff_not, not_lt]
      omega
  refine ⟨hW, ?_⟩
  rw [TTLTagExpiredFilter_of_find L now id tags ⟨"ttl", "-1w"⟩ start httl (by decide)]
  simp only [hW]
  rfl

set_option maxRecDepth 100000 in
/-- C11: the value `soon` is not `"0"` and does not parse, yet `WithinTTLTime` answers
false and `TTLTagExpiredFilter` true on `garbledInstance` at the moment of its creation,
and the instance is classified `NonCompliant`. -/
theorem unparseable_ttl_signals :
    ParseDuration "soon" = none ∧
    WithinTTLTime (goLib noRegex) 0 "soon" 0 = false ∧
    TTLTagExpiredFilter (goLib noRegex) 0 "i-0bad" garbledInstance.Tags (some 0) = some true ∧
    classify (ec2Chain (goLib noRegex) sampleMarker 0 garbledInstance)
      = some Disposition.NonCompliant := by
  decide

set_option maxRecDepth 100000 in
/-- C12: the value `"0"` parses to the duration 0, and a resource aged eight days is at
least that old, yet `TTLTagExpiredFilter` answers false. -/
theorem zero_ttl_parses_unsignalled :
    ParseDuration "0" = some 0 ∧
    (0 : Int) ≤ 8 * oneDay - 0 ∧
    TTLTagExpiredFilter (goLib noRegex) (8 * oneDay) "i-0abc" unlimitedInstance.Tags (some 0)
      = some false := by
  decide

theorem ec2Chain_compliance (L : Lib) (am : AwsMarker) (now : Int) (i : Instance) :
    (ec2Chain L am now i).complianceFilters
      = [NoTagFilter, NoTTLTagFilter, TTLTagExpiredFilter L now] := rfl

set_option maxRecDepth 100000 in
theorem unparseable_ttl_fails_closed_witness :
    WithinTTLTime (goLib noRegex) 0 "soon" 0 = false ∧
    TTLTagExpiredFilter (goLib noRegex) 0 "i-0bad" garbledInstance.Tags (some 0) = some true ∧
    classify (ec2Chain (goLib noRegex) sampleMarker 0 garbledInstance)
      = some Disposition.NonCompliant ∧
    FilterAwsObject (goLib noRegex) sampleMarker 0 RedisCache.empty
        (ec2Chain (goLib noRegex) sampleMarker 0 garbledInstance)
      = some (ttlRejected (goLib noRegex) sampleMarker 0 RedisCache.empty
          (AwsObject.instance garbledInstance) "ec2") :=
  unparseable_ttl_fails_closed (goLib noRegex) sampleMarker 0 RedisCache.empty "i-0bad"
    garbledInstance.Tags ⟨"ttl", "soon"⟩ 0 (ec2Chain (goLib noRegex) sampleMarker 0 garbledInstance)
    (by decide) (by decide) (by decide) rfl rfl (by decide) (by decide) (by decide)
    (by simp [ec2Chain_compliance])

set_option maxRecDepth 100000 in
theorem ttl_expiry_boundary_witness :
    ParseDuration "1w" = some oneWeek ∧
    (TTLTagExpiredFilter (goLib noRegex) oneWeek "i-0aaa" weekInstance.Tags (some 0) = some true
      ↔ oneWeek ≤ oneWeek - 0) ∧
    (oneWeek - 1 - 0 < oneWeek →
      TTLTagExpiredFilter (goLib noRegex) (oneWeek - 1) "i-0aaa" weekInstance.Tags (some 0)
        = some false) ∧
    (oneWeek - 0 = oneWeek →
      TTLTagExpiredFilter (goLib noRegex) oneWeek "i-0aaa" weekInstance.Tags (some 0)
        = some true) :=
  ⟨by decide,
   (ttl_expiry_boundary (goLib noRegex) oneWeek "i-0aaa" weekInstance.Tags ⟨"ttl", "1w"⟩
      oneWeek 0 (by decide) (by decide) (by decide)).2.1,
   (ttl_expiry_boundary (goLib noRegex) (oneWeek - 1) "i-0aaa" weekInstance.Tags ⟨"ttl", "1w"⟩
      oneWeek 0 (by decide) (by decide) (by decide)).2.2.1,
   (ttl_expiry_boundary (goLib noRegex) oneWeek "i-0aaa" weekInstance.Tags ⟨"ttl", "1w"⟩
      oneWeek 0 (by decide) (by decide) (by decide)).2.2.2⟩

set_option maxRecDepth 100000 in
theorem negative_week_signals_witness :
    ParseDuration "-1w" = none ∧
    TTLTagExpiredFilter (goLib noRegex) (8 * oneDay) "i-0bbb" negativeInstance.Tags (some 0)
      = some true ∧
    TTLTagExpiredFilter (goLib noRegex) (8 * oneDay) "i-0bbb" negativeInstance.Tags
      (some (8 * oneDay)) = some true :=
  ⟨by decide,
   (negative_week_signals (goLib noRegex) (8 * oneDay) "i-0bbb" negativeInstance.Tags 0
      (by decide) (by decide) (by decide)).2,
   (negative_week_signals (goLib noRegex) (8 * oneDay) "i-0bbb" negativeInstance.Tags
      (8 * oneDay) (by decide) (by decide) (by decide)).2⟩

/-! ## A resource without tags -/

theorem anyFilter_append_true {α : Type} (run : α → Option Bool) (pre rest : List α) (g : α)
    (hpre : ∀ f ∈ pre, run f = some false) (hg : run g = some true) :
    awsFilterable.anyFilter run (pre ++ g :: rest) = some true := by
  induction pre with
  | nil => simp [awsFilterable.anyFilter, hg]
  | cons f fs ih =>
    have hf := hpre f (List.mem_cons_self _ _)
    simp only [List.cons_append, awsFilterable.anyFilter, hf]
    exact ih (fun x hx => hpre x (List.mem_cons_of_mem _ hx))

/-- The owners set after `ttlRejected` wrote a record. -/
theorem ttlRejected_fresh_owners (L : Lib) (am : AwsMarker) (now : Int) (c : RedisCache)
    (obj : AwsObject) (canType : String)
    (hrec : L.jsonMarshal (markedOf am obj canType)
      ∉ c.ReadCandidates (tagOrNil "owner" (ExtractTags obj).2.1)) :
    (ttlRejected L am now c obj canType).ReadOwners
      = if tagOrNil "owner" (ExtractTags obj).2.1 ∈ c.ReadOwners then c.ReadOwners
        else c.ReadOwners ++ [tagOrNil "owner" (ExtractTags obj).2.1] := by
  rcases h1 : ExtractTags obj with ⟨id, tags, cr, ty⟩
  rw [h1] at hrec
  simp only at hrec
  have hex : c.CandidateExists (tagOrNil "owner" tags) (L.jsonMarshal (markedOf am obj canType))
      = false := by
    simpa [RedisCache.CandidateExists, RedisCache.ReadCandidates] using hrec
  simp only [ttlRejected, h1, hex, Bool.false_eq_true, if_false, RedisCache.WriteTimer]
  have hk1 : "bilge:owners" ≠ "bilge:candidates:" ++ tagOrNil "owner" tags :=
    fun h => candidatesKey_ne_owners _ h.symm
  simp only [RedisCache.ReadOwners]
  split_ifs <;>
    simp_all [RedisCache.ExpireAt, RedisCache.Set, RedisCache.Write, RedisCache.SAdd,
      Function.update_noteq hk1]

theorem setAwsDefaults_GracePeriod (a : Aws) :
    (setAwsDefaults a).GracePeriod
      = if a.GracePeriod = "" then DEFAULT_GRACEPERIOD else a.GracePeriod := by
  simp only [setAwsDefaults]
  split_ifs <;> rfl

theorem setDefaults_Aws (home : Option String) (file cfg : Config)
    (h : file.setDefaults home = some cfg) : cfg.Aws = file.Aws.map setAwsDefaults := by
  simp only [Config.setDefaults] at h
  split at h
  · cases h
  · cases h
    split_ifs <;> rfl

/-- The whole seconds of a time, as nanoseconds, are at most the time and less than a
second before it. -/
theorem Unix_bounds (tm : Int) :
    Unix tm * 1000000000 ≤ tm ∧ tm < Unix tm * 1000000000 + 1000000000 := by
  have h : Unix tm = tm / 1000000000 := Int.fdiv_eq_ediv tm (by decide)
  rw [h]
  omega

/-- Adding whole seconds to a time adds them to its whole seconds. -/
theorem Unix_add_seconds (tm k : Int) : Unix (tm + k * 1000000000) = Unix tm + k := by
  have h1 : Unix (tm + k * 1000000000) = (tm + k * 1000000000) / 1000000000 :=
    Int.fdiv_eq_ediv _ (by decide)
  have h2 : Unix tm = tm / 1000000000 := Int.fdiv_eq_ediv tm (by decide)
  rw [h1, h2]
  omega

/-- C14 (amended): a resource with an empty tag list, on which the ignore filters answer
false and `NoTagFilter` is reached in the compliance chain, is classified `NonCompliant` and
handed to `ttlRejected`.  On a cache that holds neither its record nor a timer for its id,
the owners set afterwards contains `""`, the candidate set of the owner `""` is the former
set plus the one record, whose owner is `""`, and the timer of the id expires at the mark
time plus the parsed grace period rounded down to the whole second, which is less than one
second earlier than the mark time plus the grace period; the timer exists at a time exactly
when that time is before this expiry.  When the account comes out of `setDefaults` from a
file entry with an empty `grace_period`, the grace period is `24h` and the expiry is one day
after the whole second of the mark time. -/
theorem untagged_marked (L : Lib) (am : AwsMarker) (now : Int) (c : RedisCache)
    (e : awsFilterable) (pre rest : List Filter)
    (home : Option String) (file cfg : Config) (i : Nat) (entry : Aws)
    (hinv : e.tags = (ExtractTags e.object).2.1)
    (hempty : e.tags = [])
    (hign : ∀ f ∈ e.ignoreFilters, f e.id e.tags e.created = some false)
    (htign : ∀ f ∈ e.typedIgnoreFilters, f e.object = some false)
    (hchain : e.complianceFilters = pre ++ NoTagFilter :: rest)
    (hpre : ∀ f ∈ pre, f e.id e.tags e.created = some false)
    (hrec : L.jsonMarshal (markedOf am e.object e.awsObjectType) ∉ c.ReadCandidates "")
    (htimer : c.TimerExists now ("bilge:timers:" ++ (ExtractTags e.object).1) = false)
    (hload : file.setDefaults home = some cfg)
    (hfile : file.Aws[i]? = some entry)
    (hcfg : cfg.Aws[i]? = some am.Config) :
    classify e = some Disposition.NonCompliant ∧
    FilterAwsObject L am now c e
      = some (ttlRejected L am now c e.object e.awsObjectType) ∧
    "" ∈ (ttlRejected L am now c e.object e.awsObjectType).ReadOwners ∧
    (markedOf am e.object e.awsObjectType).Owner = "" ∧
    (ttlRejected L am now c e.object e.awsObjectType).ReadCandidates ""
      = c.ReadCandidates "" ++ [L.jsonMarshal (markedOf am e.object e.awsObjectType)] ∧
    (ttlRejected L am now c e.object e.awsObjectType).strings
        ("bilge:timers:" ++ (ExtractTags e.object).1)
      = some (am.Config.GracePeriod,
          some (Unix (now + (L.ParseDuration am.Config.GracePeriod).getD 0) * 1000000000)) ∧
    (now + (L.ParseDuration am.Config.GracePeriod).getD 0 - 1000000000
        < Unix (now + (L.ParseDuration am.Config.GracePeriod).getD 0) * 1000000000 ∧
      Unix (now + (L.ParseDuration am.Config.GracePeriod).getD 0) * 1000000000
        ≤ now + (L.ParseDuration am.Config.GracePeriod).getD 0) ∧
    (∀ t : Int, (ttlRejected L am now c e.object e.awsObjectType).TimerExists t
        ("bilge:timers:" ++ (ExtractTags e.object).1)
      = decide (t < Unix (now + (L.ParseDuration am.Config.GracePeriod).getD 0)
          * 1000000000)) ∧
    (entry.GracePeriod = "" → L.ParseDuration "24h" = some (24 * 3600 * 1000000000) →
      (ttlRejected L am now c e.object e.awsObjectType).strings
          ("bilge:timers:" ++ (ExtractTags e.object).1)
        = some ("24h", some (Unix now * 1000000000 + 24 * 3600 * 1000000000))) := by
  have htags : (ExtractTags e.object).2.1 = [] := by rw [← hinv, hempty]
  have hown : tagOrNil "owner" (ExtractTags e.object).2.1 = "" := by
    rw [htags]; rfl
  have hI : e.Ignore = some false := by
    have a1 := (anyFilter_eq_false_iff (fun f : Filter => f e.id e.tags e.created)
      e.ignoreFilters).2 hign
    have a2 := (anyFilter_eq_false_iff (fun f : TypedFilter => f e.object)
      e.typedIgnoreFilters).2 htign
    simp [awsFilterable.Ignore, a1, a2]
  have hC : e.Compliant = some false := by
    have a1 := anyFilter_append_true (fun f : Filter => f e.id e.tags e.created) pre rest
      NoTagFilter hpre (by simp [NoTagFilter, hempty])
    simp [awsFilterable.Compliant, hchain, a1]
  have hrec' : L.jsonMarshal (markedOf am e.object e.awsObjectType)
      ∉ c.ReadCandidates (tagOrNil "owner" (ExtractTags e.object).2.1) := by
    rw [hown]; exact hrec
  have hfresh := ttlRejected_fresh L am now c e.object e.awsObjectType hrec' htimer
  have howners := ttlRejected_fresh_owners L am now c e.object e.awsObjectType hrec'
  rw [hown] at hfresh howners
  have hOwner : (markedOf am e.object e.awsObjectType).Owner = "" := by
    rcases h1 : ExtractTags e.object with ⟨id, tags, cr, ty⟩
    rw [h1] at hown
    simp only at hown
    simp [markedOf, h1, hown]
  have hb := Unix_bounds (now + (L.ParseDuration am.Config.GracePeriod).getD 0)
  refine ⟨by simp [classify, hI, hC],
    by simp [FilterAwsObject, hI, hC, awsFilterable.GetTypeInterface,
      awsFilterable.GetTypeString], ?_, hOwner, hfresh.1, hfresh.2.1, ⟨by omega, hb.1⟩,
    ?_, ?_⟩
  · rw [howners]
    split_ifs with h
    · exact h
    · simp
  · intro t
    simp only [RedisCache.TimerExists, RedisCache.Exists, hfresh.2.1]
  · intro hunset hday
    have hA := setDefaults_Aws home file cfg hload
    rw [hA, List.getElem?_map, hfile] at hcfg
    have hgp : am.Config.GracePeriod = "24h" := by
      have := Option.some.inj hcfg
      rw [← this, setAwsDefaults_GracePeriod, if_pos hunset]
      rfl
    rw [hfresh.2.1, hgp, hday]
    have h2 : Unix (now + (some (24 * 3600 * 1000000000 : Int)).getD 0)
        = Unix now + 24 * 3600 := by
      have := Unix_add_seconds now (24 * 3600)
      simpa using this
    rw [h2]
    have h3 : (Unix now + 24 * 3600) * 1000000000
        = Unix now * 1000000000 + 24 * 3600 * 1000000000 := by ring
    rw [h3]

set_option maxRecDepth 100000 in
theorem untagged_marked_witness :
    bareConfig.setDefaults none = some loadedConfig ∧
    bareEntry.GracePeriod = "" ∧
    classify (ec2Chain (goLib noRegex) loadedMarker 1500000000 untaggedInstance)
      = some Disposition.NonCompliant ∧
    "" ∈ (ttlRejected (goLib noRegex) loadedMarker 1500000000 RedisCache.empty
      (AwsObject.instance untaggedInstance) "ec2").ReadOwners ∧
    (ttlRejected (goLib noRegex) loadedMarker 1500000000 RedisCache.empty
      (AwsObject.instance untaggedInstance) "ec2").strings "bilge:timers:i-0abc"
      = some ("24h", some (Unix 1500000000 * 1000000000 + 24 * 3600 * 1000000000)) ∧
    Unix 1500000000 * 1000000000 + 24 * 3600 * 1000000000 = 86401000000000 := by
  have h := untagged_marked (goLib noRegex) loadedMarker 1500000000 RedisCache.empty
    (ec2Chain (goLib noRegex) loadedMarker 1500000000 untaggedInstance) []
    [NoTTLTagFilter, TTLTagExpiredFilter (goLib noRegex) 1500000000] none bareConfig
    loadedConfig 0 bareEntry rfl rfl (by decide) (by decide) rfl (by simp) (by decide)
    (by decide) (by decide) rfl rfl
  exact ⟨by decide, rfl, h.1, h.2.2.1, h.2.2.2.2.2.2.2.2 rfl (by decide), by decide⟩

set_option maxRecDepth 100000 in
/-- C14: the untagged instance `i-0abc` is marked 1.5 s after time 0 under the default grace
period of 24h.  The mark time plus the grace period is one day and 1.5 s, but the timer is
stored with the expiry one day and 1 s, and it no longer exists at one day and 1.2 s. -/
theorem untagged_expiry_whole_seconds :
    classify (ec2Chain (goLib noRegex) loadedMarker 1500000000 untaggedInstance)
      = some Disposition.NonCompliant ∧
    RedisCache.empty.TimerExists 1500000000 "bilge:timers:i-0abc" = false ∧
    ((1500000000 : Int) + (ParseDuration loadedMarker.Config.GracePeriod).getD 0
      = 86401500000000) ∧
    ((FilterAwsObject (goLib noRegex) loadedMarker 1500000000 RedisCache.empty
        (ec2Chain (goLib noRegex) loadedMarker 1500000000 untaggedInstance)).map
      (fun c => (c.strings "bilge:timers:i-0abc",
        c.TimerExists 86401200000000 "bilge:timers:i-0abc",
        c.TimerExists 86400900000000 "bilge:timers:i-0abc")))
      = some (some ("24h", some 86401000000000), false, true) := by
  refine ⟨by decide, by decide, by decide, by decide⟩

/-! ## Order of the filters -/

/-- What the chain of `processsAsgMarkPages` gives for a group that no ignore filter matches
and whose first `ttl` tag is not elapsed: `Compliant` at a desired capacity of zero,
`NonCompliant` at any other. -/
theorem asgChain_classify (L : Lib) (am : AwsMarker) (now : Int) (asg : Group) (t : Tag)
    (d start : Int)
    (hign : (asgChain L am now asg).Ignore = some false)
    (httl : (extractAsgTags asg).find? (fun x => x.Key == "ttl") = some t)
    (hz : t.Value ≠ "0") (hparse : L.ParseDuration t.Value = some d)
    (hcreated : asg.CreatedTime = some start) (hyoung : now - start < d) :
    classify (asgChain L am now asg)
      = some (if asg.DesiredCapacity = 0 then Disposition.Compliant
              else Disposition.NonCompliant) := by
  obtain ⟨hex, hget⟩ := checkRequiredTags_of_find "ttl" (extractAsgTags asg) _ httl
  have hne : (extractAsgTags asg).length ≠ 0 := by
    intro h
    rw [List.length_eq_zero.1 h] at httl
    simp at httl
  have hT : TTLTagExpiredFilter L now asg.AutoScalingGroupName (extractAsgTags asg)
      (some start) = some false := by
    rw [TTLTagExpiredFilter_of_find L now _ _ t start httl hz]
    simp [WithinTTLTime, hparse, hyoung]
  have hC : awsFilterable.anyFilter
      (fun f : Filter => f asg.AutoScalingGroupName (extractAsgTags asg) asg.CreatedTime)
      [NoTagFilter, NoTTLTagFilter, TTLTagExpiredFilter L now] = some false := by
    rw [anyFilter_eq_false_iff]
    intro f hf
    simp only [List.mem_cons, List.mem_singleton, List.not_mem_nil, or_false] at hf
    rcases hf with rfl | rfl | rfl
    · simp [NoTagFilter, hne]
    · simp [NoTTLTagFilter, REQUIRED_TAG, hex]
    · rw [hcreated]; exact hT
  have hCo : (asgChain L am now asg).Compliant
      = some (decide (asg.DesiredCapacity = 0)) := by
    have : (asgChain L am now asg).Compliant
        = match awsFilterable.anyFilter
            (fun f : Filter => f asg.AutoScalingGroupName (extractAsgTags asg) asg.CreatedTime)
            [NoTagFilter, NoTTLTagFilter, TTLTagExpiredFilter L now] with
          | none => none
          | some true => some false
          | some false =>
            match awsFilterable.anyFilter (fun f : TypedFilter => f (AwsObject.group asg))
                [AsgZeroCapacity] with
            | none => none
            | some true => some false
            | some false => some true := rfl
    rw [this, hC]
    by_cases h0 : asg.DesiredCapacity = 0
    · simp [awsFilterable.anyFilter, AsgZeroCapacity, h0]
    · simp [awsFilterable.anyFilter, AsgZeroCapacity, h0]
  simp only [classify, hign, hCo]
  by_cases h0 : asg.DesiredCapacity = 0 <;> simp [h0]

set_option maxRecDepth 100000 in
/-- C19: one day into a ttl of one week, with no ignore filter matching and the generic
compliance filters answering false, the chain of `processsAsgMarkPages` classifies the group
with a desired capacity of zero `Compliant` and writes nothing to the cache, and classifies the
same group with a desired capacity of three `NonCompliant` and records it. -/
theorem asgChain_capacity_inverted :
    (asgChain (goLib noRegex) sampleMarker oneDay idleGroup).Ignore = some false ∧
    (∀ f ∈ (asgChain (goLib noRegex) sampleMarker oneDay idleGroup).complianceFilters,
      f "web-asg" (extractAsgTags idleGroup) (some 0) = some false) ∧
    AsgZeroCapacity (AwsObject.group idleGroup) = some false ∧
    AsgZeroCapacity (AwsObject.group busyGroup) = some true ∧
    classify (asgChain (goLib noRegex) sampleMarker oneDay idleGroup)
      = some Disposition.Compliant ∧
    ((FilterAwsObject (goLib noRegex) sampleMarker oneDay RedisCache.empty
      (asgChain (goLib noRegex) sampleMarker oneDay idleGroup)).map
        (fun c => (c.log, c.ReadOwners, c.ReadCandidates "bob"))) = some ([], [], []) ∧
    classify (asgChain (goLib noRegex) sampleMarker oneDay busyGroup)
      = some Disposition.NonCompliant ∧
    ((FilterAwsObject (goLib noRegex) sampleMarker oneDay RedisCache.empty
      (asgChain (goLib noRegex) sampleMarker oneDay busyGroup)).map
        (fun c => (c.ReadCandidates "bob").length)) = some 1 := by
  decide

/-! ## Chunks of the Slack digest -/

/-- The chunk loop with enough fuel appends to what it was given the chunks of the
attachments from `i` on. -/
theorem chunkLoop_spec {α : Type} (attachments : List α) (fuel : Nat) :
    ∀ (i : Nat) (chunked : List (List α)), attachments.length - i ≤ 20 * fuel →
    ∃ R : List (List α), chunkLoop attachments fuel i chunked = chunked ++ R ∧
      R.flatten = attachments.drop i ∧
      (∀ ch ∈ R, ch ≠ [] ∧ ch.length ≤ 20) ∧
      R.length = (attachments.length - i + 19) / 20 ∧
      (∀ k, k + 1 < R.length → (R[k]?).map List.length = some 20) := by
  induction fuel with
  | zero =>
    intro i chunked h
    have hi : attachments.length ≤ i := by omega
    refine ⟨[], by simp [chunkLoop], ?_, by simp, ?_, by simp⟩
    · simp [List.drop_eq_nil_of_le hi]
    · simp; omega
  | succ fuel ih =>
    intro i chunked h
    by_cases hlt : i < attachments.length
    · obtain ⟨R, hR, hjoin, hall, hlen, hfull⟩ := ih (i + 20)
        (chunked ++ [(attachments.take
          (if i + 20 > attachments.length then attachments.length else i + 20)).drop i])
        (by omega)
      have hslice : (attachments.take
          (if i + 20 > attachments.length then attachments.length else i + 20)).drop i
          = (attachments.drop i).take 20 := by
        split_ifs with hgt
        · rw [List.take_length]
          rw [List.take_of_length_le]
          simp; omega
        · rw [List.drop_take]
          congr 1
          omega
      have hslen : ((attachments.drop i).take 20).length = min 20 (attachments.length - i) := by
        simp
      refine ⟨((attachments.drop i).take 20) :: R, ?_, ?_, ?_, ?_, ?_⟩
      · simp only [chunkLoop, MAX_SLACK_ATTACHMENTS, hlt, if_true]
        rw [hR, hslice]
        simp
      · rw [List.flatten_cons, hjoin]
        have : attachments.drop (i + 20) = (attachments.drop i).drop 20 := by
          rw [List.drop_drop]
        rw [this, List.take_append_drop]
      · intro ch hch
        rcases List.mem_cons.1 hch with rfl | hch
        · constructor
          · intro hnil
            have := congrArg List.length hnil
            rw [hslen] at this
            simp at this
            omega
          · rw [hslen]; omega
        · exact hall ch hch
      · rw [List.length_cons, hlen]
        omega
      · intro k hk
        cases k with
        | zero =>
          simp only [List.length_cons] at hk
          have : 1 ≤ R.length := by omega
          rw [hlen] at this
          simp only [List.getElem?_cons_zero, Option.map_some', hslen]
          congr 1
          omega
        | succ k =>
          simp only [List.length_cons] at hk
          simp only [List.getElem?_cons_succ]
          exact hfull k (by omega)
    · have hi : attachments.length ≤ i := by omega
      refine ⟨[], by simp [chunkLoop, hlt], ?_, by simp, ?_, by simp⟩
      · simp [List.drop_eq_nil_of_le hi]
      · simp; omega

theorem Color_in_range (mt : Int) (hlo : 0 ≤ mt) (hhi : mt < 3) :
    ∃ col, Color mt = some col := by
  have hn : ¬ mt < 0 := by omega
  have hlt : mt.toNat < 3 := by omega
  simp only [Color, hn, if_false]
  rcases hm : mt.toNat with _ | _ | _ | k
  · exact ⟨_, rfl⟩
  · exact ⟨_, rfl⟩
  · exact ⟨_, rfl⟩
  · omega

theorem buildAttachments_spec (candidate : List (Option MarkedCandidate))
    (hc : ∀ slot ∈ candidate, ∃ m, slot = some m ∧ 0 ≤ m.MarkerType ∧ m.MarkerType < 3) :
    ∃ attachments, buildAttachments candidate = some attachments ∧
      attachments.length = candidate.length ∧
      attachments.map (fun a => a.Text)
        = candidate.map (fun s => (s.map (fun m => m.Id)).getD "") := by
  induction candidate with
  | nil => exact ⟨[], rfl, rfl, rfl⟩
  | cons slot rest ih =>
    obtain ⟨atts, h1, h2, h3⟩ := ih (fun s hs => hc s (List.mem_cons_of_mem _ hs))
    obtain ⟨m, rfl, hlo, hhi⟩ := hc slot (List.mem_cons_self _ _)
    have hcol : ∃ col, Color m.MarkerType = some col := Color_in_range m.MarkerType hlo hhi
    obtain ⟨col, hcol⟩ := hcol
    refine ⟨{ Color := col, Text := m.Id, Fields := GenerateSlackAttachmentFields m } :: atts,
      ?_, by simp [h2], by simp [h3]⟩
    simp [buildAttachments, attachmentOf, hcol, h1]

/-- C20: for a non-nil user and candidates that are all non-nil with a marker type in
0..2, `SlackSend` returns, with one attachment per candidate in the order of the list, and
posts them in consecutive chunks: the chunks put end to end are the attachments, every
chunk is non-empty and has at most 20 items, every chunk but the last has exactly 20, and
the number of posts is the length of the list divided by 20 and rounded up, zero for the
empty list. -/
theorem SlackSend_chunks (config : Config) (defaultOwner : Option UserRef) (u : UserRef)
    (candidate : List (Option MarkedCandidate))
    (hc : ∀ slot ∈ candidate, ∃ m, slot = some m ∧ 0 ≤ m.MarkerType ∧ m.MarkerType < 3) :
    ∃ (posts : List SlackPost) (attachments : List Attachment),
      buildAttachments candidate = some attachments ∧
      attachments.length = candidate.length ∧
      attachments.map (fun a => a.Text)
        = candidate.map (fun s => (s.map (fun m => m.Id)).getD "") ∧
      SlackSend config defaultOwner (some u) candidate = some posts ∧
      (posts.map (fun p => p.attachments)).flatten = attachments ∧
      (∀ p ∈ posts, p.attachments ≠ [] ∧ p.attachments.length ≤ MAX_SLACK_ATTACHMENTS) ∧
      (∀ k, k + 1 < posts.length →
        (posts[k]?).map (fun p => p.attachments.length) = some MAX_SLACK_ATTACHMENTS) ∧
      posts.length = (candidate.length + 19) / 20 ∧
      (candidate.length = 0 → posts = []) := by
  obtain ⟨atts, h1, h2, h3⟩ := buildAttachments_spec candidate hc
  obtain ⟨R, hR, hjoin, hall, hlen, hfull⟩ :=
    chunkLoop_spec atts atts.length 0 [] (by omega)
  simp only [List.nil_append, List.drop_zero, Nat.sub_zero] at hR hjoin hlen
  refine ⟨R.map (fun ch => ⟨postChannel config defaultOwner u, ch⟩), atts, h1, h2, h3,
    ?_, ?_, ?_, ?_, ?_, ?_⟩
  · simp only [SlackSend, h1, hR]
  · simp only [List.map_map]
    have : ((fun p : SlackPost => p.attachments) ∘
        fun ch => (⟨postChannel config defaultOwner u, ch⟩ : SlackPost)) = id := rfl
    rw [this, List.map_id, hjoin]
  · intro p hp
    obtain ⟨ch, hch, rfl⟩ := List.mem_map.1 hp
    exact hall ch hch
  · intro k hk
    rw [List.length_map] at hk
    have := hfull k hk
    rw [List.getElem?_map, Option.map_map]
    exact this
  · rw [List.length_map, hlen, h2]
  · intro h0
    have : R.length = 0 := by rw [hlen, h2, h0]
    rw [List.length_eq_zero.1 this]
    rfl

set_option maxRecDepth 100000 in
theorem SlackSend_chunks_witness :
    ((SlackSend loadedConfig none (some sampleUser) fortyOne).map
      (fun posts => posts.map (fun p => p.attachments.length))) = some [20, 20, 1] ∧
    ∃ (posts : List SlackPost) (attachments : List Attachment),
      buildAttachments fortyOne = some attachments ∧
      attachments.length = fortyOne.length ∧
      attachments.map (fun a => a.Text)
        = fortyOne.map (fun s => (s.map (fun m => m.Id)).getD "") ∧
      SlackSend loadedConfig none (some sampleUser) fortyOne = some posts ∧
      (posts.map (fun p => p.attachments)).flatten = attachments ∧
      (∀ p ∈ posts, p.attachments ≠ [] ∧ p.attachments.length ≤ MAX_SLACK_ATTACHMENTS) ∧
      (∀ k, k + 1 < posts.length →
        (posts[k]?).map (fun p => p.attachments.length) = some MAX_SLACK_ATTACHMENTS) ∧
      posts.length = (fortyOne.length + 19) / 20 ∧
      (fortyOne.length = 0 → posts = []) :=
  ⟨by decide,
   SlackSend_chunks loadedConfig none sampleUser fortyOne (by
     intro slot h
     rw [List.eq_of_mem_replicate h]
     exact ⟨_, rfl, by decide, by decide⟩)⟩

/-! ## Sweep with deletion disabled -/

/-- The selection of `toDelete`, for the account name `name`, on a set whose entries all
deserialize. -/
theorem toDelete_of_wf (L : Lib) (am : AwsMarker) (k : K8s.K8SMarker) (now : Int)
    (c : RedisCache) (owner thing : String)
    (hwf : ∀ e ∈ c.ReadCandidates owner, (slotOf L e).isSome) :
    (toDelete L am now c owner thing).isSome ∧
    (K8s.toDelete L k now c owner thing).isSome := by
  have key : ∀ name : String,
      (match BuildCandidates L owner c with
        | Except.error _ => some []
        | Except.ok mcs =>
          mcs.foldlM (fun (acc : List String) (slot : Option MarkedCandidate) =>
            match slot with
            | none => none
            | some m =>
              if !c.TimerExists now ("bilge:timers:" ++ m.Id) then
                if m.CandidateType = thing ∧ m.Account = name then some (acc ++ [m.Id])
                else some acc
              else some acc) []).isSome := by
    intro name
    unfold BuildCandidates
    by_cases hlen : (c.ReadCandidates owner).length = 0
    · have hnil : c.ReadCandidates owner = [] := List.length_eq_zero.1 hlen
      simp [hnil]
    · simp only [hlen, if_false]
      rw [toDelete_fold c now thing name L (c.ReadCandidates owner) hwf []]
      rfl
  exact ⟨key am.Config.Name, key k.Config.Name⟩

/-- A loop body that leaves the cache alone and records the calls `mk i`. -/
theorem foldlM_frame (body : String → SweepState → Option SweepState)
    (mk : String → List ProviderCall)
    (hbody : ∀ i st, body i st = some ⟨st.cache, st.calls ++ mk i⟩) :
    ∀ (ids : List String) (st : SweepState),
      ids.foldlM (fun st i => body i st) st
        = some ⟨st.cache, st.calls ++ ids.flatMap mk⟩ := by
  intro ids
  induction ids with
  | nil => intro st; simp
  | cons i ids ih =>
    intro st
    rw [List.foldlM_cons, hbody i st]
    simp only [Option.bind_eq_bind, Option.some_bind]
    rw [ih]
    simp [List.flatMap_cons, List.append_assoc]

/-- A sweep whose body leaves the cache alone returns the cache it started from, with the
calls `mk i` for each selected id `i`, owner by owner. -/
theorem sweepLoop_frame (sel : RedisCache → String → Option (List String))
    (body : String → String → SweepState → Option SweepState)
    (mk : String → List ProviderCall) (c : RedisCache)
    (hbody : ∀ o i st, body o i st = some ⟨st.cache, st.calls ++ mk i⟩) :
    ∀ (owners : List String) (calls : List ProviderCall),
      (∀ o ∈ owners, (sel c o).isSome) →
      sweepLoop sel body owners ⟨c, calls⟩
        = some ⟨c, calls ++ owners.flatMap (fun o => ((sel c o).getD []).flatMap mk)⟩ := by
  intro owners
  induction owners with
  | nil => intro calls _; simp [sweepLoop]
  | cons o owners ih =>
    intro calls hsel
    obtain ⟨ids, hids⟩ := Option.isSome_iff_exists.1 (hsel o (List.mem_cons_self _ _))
    simp only [sweepLoop, hids, foldlM_frame (body o) mk (hbody o) ids ⟨c, calls⟩]
    rw [ih _ (fun o' ho' => hsel o' (List.mem_cons_of_mem _ ho'))]
    simp [hids, List.flatMap_cons, List.append_assoc]

theorem flatMap_empty {α β : Type} (l : List α) : l.flatMap (fun _ => ([] : List β)) = [] := by
  induction l with
  | nil => rfl
  | cons a l ih => simp [List.flatMap_cons, ih]

/-- A sweep whose body does nothing returns the cache it started from and makes no call. -/
theorem sweepLoop_idle (sel : RedisCache → String → Option (List String))
    (body : String → String → SweepState → Option SweepState) (c : RedisCache)
    (hbody : ∀ o i st, body o i st = some st)
    (hsel : ∀ o ∈ c.ReadOwners, (sel c o).isSome) :
    sweepLoop sel body c.ReadOwners ⟨c, []⟩ = some ⟨c, []⟩ := by
  have h := sweepLoop_frame sel body (fun _ => []) c (by
    intro o i st
    rw [hbody]
    simp) c.ReadOwners [] hsel
  rw [h]
  simp [flatMap_empty]

/-- The body of `sweepEc2`, `sweepEbs` and `sweepSG` when the provider answers
`DryRunOperation` or `Throttling`. -/
theorem dryRunBody_kept (L : Lib) (am : AwsMarker) (provider : Provider) (api : String)
    (hoff : am.Config.DeleteEnabled = false)
    (hprov : ∀ hist call, call.DryRun = true →
      provider hist call = DeleteAnswer.awsErr "DryRunOperation" ∨
      provider hist call = DeleteAnswer.awsErr "Throttling")
    (o i : String) (st : SweepState) :
    dryRunBody L am provider api o i st
      = some ⟨st.cache, st.calls ++ [⟨api, i, true⟩]⟩ := by
  simp only [dryRunBody, SweepState.call, hoff, Bool.not_false]
  rcases hprov st.calls ⟨api, i, true⟩ rfl with h | h <;> simp [h]

/-- C15 (amended): with deletion disabled and a cache whose entries all deserialize, the
handlers `sweepAsg`, `sweepElb`, `sweepAlb`, `sweepElasticache`, `sweepLaunchConfig`,
`sweepEks` and `sweepNamespaces` return the cache they were given and make no call to the
provider, whatever it would answer.  The handlers `sweepEc2`, `sweepEbs` and `sweepSG` make
one call with `DryRun` set for each id that `toDelete` selects, and return the cache they
were given when the provider answers each such call with `DryRunOperation` or
`Throttling`. -/
theorem sweep_disabled (L : Lib) (am : AwsMarker) (k : K8s.K8SMarker) (now : Int)
    (provider : Provider) (c : RedisCache)
    (hoff : am.Config.DeleteEnabled = false) (hkoff : k.Config.DeleteEnabled = false)
    (hwf : ∀ o ∈ c.ReadOwners, ∀ e ∈ c.ReadCandidates o, (slotOf L e).isSome) :
    sweepAsg L am now provider c = some ⟨c, []⟩ ∧
    sweepElb L am now provider c = some ⟨c, []⟩ ∧
    sweepAlb L am now provider c = some ⟨c, []⟩ ∧
    sweepElasticache L am now provider c = some ⟨c, []⟩ ∧
    sweepLaunchConfig L am now provider c = some ⟨c, []⟩ ∧
    sweepEks L am now provider c = some ⟨c, []⟩ ∧
    K8s.sweepNamespaces L k now provider c = some ⟨c, []⟩ ∧
    ((∀ hist call, call.DryRun = true →
        provider hist call = DeleteAnswer.awsErr "DryRunOperation" ∨
        provider hist call = DeleteAnswer.awsErr "Throttling") →
      sweepEc2 L am now provider c
        = some ⟨c, c.ReadOwners.flatMap (fun o =>
            ((toDelete L am now c o "ec2").getD []).flatMap
              (fun i => [⟨"TerminateInstances", i, true⟩]))⟩ ∧
      sweepEbs L am now provider c
        = some ⟨c, c.ReadOwners.flatMap (fun o =>
            ((toDelete L am now c o "ebs").getD []).flatMap
              (fun i => [⟨"DeleteVolume", i, true⟩]))⟩ ∧
      sweepSG L am now provider c
        = some ⟨c, c.ReadOwners.flatMap (fun o =>
            ((toDelete L am now c o "sg").getD []).flatMap
              (fun i => [⟨"DeleteSecurityGroup", i, true⟩]))⟩) := by
  have hsel : ∀ thing, ∀ o ∈ c.ReadOwners, (toDelete L am now c o thing).isSome :=
    fun thing o ho => (toDelete_of_wf L am k now c o thing (hwf o ho)).1
  have hksel : ∀ o ∈ c.ReadOwners, (K8s.toDelete L k now c o "namespace").isSome :=
    fun o ho => (toDelete_of_wf L am k now c o "namespace" (hwf o ho)).2
  refine ⟨?_, ?_, ?_, ?_, ?_, ?_, ?_, ?_⟩
  · exact sweepLoop_idle _ _ c (by intro o i st; simp [hoff]) (hsel "asg")
  · exact sweepLoop_idle _ _ c (by intro o i st; simp [hoff]) (hsel "elb")
  · exact sweepLoop_idle _ _ c (by intro o i st; simp [hoff]) (hsel "alb")
  · exact sweepLoop_idle _ _ c (by intro o i st; simp [hoff]) (hsel "ec")
  · exact sweepLoop_idle _ _ c (by intro o i st; simp [hoff]) (hsel "lc")
  · exact sweepLoop_idle _ _ c (by intro o i st; simp [hoff]) (hsel "eks")
  · exact sweepLoop_idle _ _ c (by intro o i st; simp [hkoff]) hksel
  · intro hprov
    refine ⟨?_, ?_, ?_⟩
    · have h := sweepLoop_frame (fun c o => toDelete L am now c o "ec2")
        (dryRunBody L am provider "TerminateInstances")
        (fun i => [⟨"TerminateInstances", i, true⟩]) c
        (dryRunBody_kept L am provider _ hoff hprov) c.ReadOwners [] (hsel "ec2")
      simpa [sweepEc2] using h
    · have h := sweepLoop_frame (fun c o => toDelete L am now c o "ebs")
        (dryRunBody L am provider "DeleteVolume")
        (fun i => [⟨"DeleteVolume", i, true⟩]) c
        (dryRunBody_kept L am provider _ hoff hprov) c.ReadOwners [] (hsel "ebs")
      simpa [sweepEbs] using h
    · have h := sweepLoop_frame (fun c o => toDelete L am now c o "sg")
        (dryRunBody L am provider "DeleteSecurityGroup")
        (fun i => [⟨"DeleteSecurityGroup", i, true⟩]) c
        (dryRunBody_kept L am provider _ hoff hprov) c.ReadOwners [] (hsel "sg")
      simpa [sweepSG] using h

set_option maxRecDepth 100000 in
theorem sweep_disabled_witness :
    recordIds (goLib noRegex) sweepCache "bob"
      = ["i-0def", "vol-01", "web-elb", "arn:alb/web", "cache-01"] ∧
    toDelete (goLib noRegex) sampleMarker (2 * oneDay) sweepCache "bob" "alb"
      = some ["arn:alb/web"] ∧
    sweepAlb (goLib noRegex) sampleMarker (2 * oneDay)
      (answering (DeleteAnswer.awsErr "DryRunOperation")) sweepCache = some ⟨sweepCache, []⟩ ∧
    sweepEc2 (goLib noRegex) sampleMarker (2 * oneDay)
      (answering (DeleteAnswer.awsErr "DryRunOperation")) sweepCache
      = some ⟨sweepCache, sweepCache.ReadOwners.flatMap (fun o =>
          ((toDelete (goLib noRegex) sampleMarker (2 * oneDay) sweepCache o "ec2").getD []).flatMap
            (fun i => [⟨"TerminateInstances", i, true⟩]))⟩ := by
  have h := sweep_disabled (goLib noRegex) sampleMarker sampleK8s (2 * oneDay)
    (answering (DeleteAnswer.awsErr "DryRunOperation")) sweepCache rfl rfl (by decide)
  exact ⟨by decide, by decide, h.2.2.1,
    (h.2.2.2.2.2.2.2 (fun _ _ _ => Or.inl rfl)).1⟩

set_option maxRecDepth 100000 in
/-- C15: with deletion disabled and the lease of `i-0def` gone, `sweepEc2` calls
`TerminateInstances` for it with `DryRun` set, and when the provider answers that call with
`UnauthorizedOperation` the record of `i-0def` is removed from the set of `bob`. -/
theorem sweepEc2_disabled_calls_and_removes :
    sampleMarker.Config.DeleteEnabled = false ∧
    toDelete (goLib noRegex) sampleMarker (2 * oneDay) sweepCache "bob" "ec2"
      = some ["i-0def"] ∧
    (sweepEc2 (goLib noRegex) sampleMarker (2 * oneDay)
      (answering (DeleteAnswer.awsErr "DryRunOperation")) sweepCache).map
        (fun st => (st.calls, recordIds (goLib noRegex) st.cache "bob"))
      = some ([⟨"TerminateInstances", "i-0def", true⟩],
          ["i-0def", "vol-01", "web-elb", "arn:alb/web", "cache-01"]) ∧
    (sweepEc2 (goLib noRegex) sampleMarker (2 * oneDay)
      (answering (DeleteAnswer.awsErr "UnauthorizedOperation")) sweepCache).map
        (fun st => (st.calls, recordIds (goLib noRegex) st.cache "bob"))
      = some ([⟨"TerminateInstances", "i-0def", true⟩],
          ["vol-01", "web-elb", "arn:alb/web", "cache-01"]) := by
  decide

/-! ## Sweep with deletion enabled -/

set_option maxRecDepth 100000 in
/-- C16: with deletion enabled and the provider answering every delete call with
`Throttling`, `sweepElb` removes the record of `web-elb` and `sweepElasticache` the record of
`cache-01`, and `toDelete` on the cache afterwards selects neither again; `sweepAlb` on the
same cache keeps the record of `arn:alb/web`. -/
theorem throttled_record_removed :
    enabledMarker.Config.DeleteEnabled = true ∧
    toDelete (goLib noRegex) enabledMarker (2 * oneDay) sweepCache "bob" "elb"
      = some ["web-elb"] ∧
    (sweepElb (goLib noRegex) enabledMarker (2 * oneDay)
      (answering (DeleteAnswer.awsErr "Throttling")) sweepCache).map
        (fun st => (st.calls, recordIds (goLib noRegex) st.cache "bob",
          toDelete (goLib noRegex) enabledMarker (2 * oneDay) st.cache "bob" "elb"))
      = some ([⟨"DeleteLoadBalancer", "web-elb", false⟩],
          ["i-0def", "vol-01", "arn:alb/web", "cache-01"], some []) ∧
    (sweepElasticache (goLib noRegex) enabledMarker (2 * oneDay)
      (answering (DeleteAnswer.awsErr "Throttling")) sweepCache).map
        (fun st => (st.calls, recordIds (goLib noRegex) st.cache "bob",
          toDelete (goLib noRegex) enabledMarker (2 * oneDay) st.cache "bob" "ec"))
      = some ([⟨"DeleteCacheCluster", "cache-01", false⟩],
          ["i-0def", "vol-01", "web-elb", "arn:alb/web"], some []) ∧
    (sweepAlb (goLib noRegex) enabledMarker (2 * oneDay)
      (answering (DeleteAnswer.awsErr "Throttling")) sweepCache).map
        (fun st => (st.calls, recordIds (goLib noRegex) st.cache "bob",
          toDelete (goLib noRegex) enabledMarker (2 * oneDay) st.cache "bob" "alb"))
      = some ([⟨"DeleteLoadBalancer", "arn:alb/web", false⟩],
          ["i-0def", "vol-01", "web-elb", "arn:alb/web", "cache-01"],
          some ["arn:alb/web"]) := by
  decide

set_option maxRecDepth 100000 in
/-- C17: with deletion enabled and the provider answering every delete call with the error
`UnauthorizedOperation`, `sweepEc2`, `sweepEbs` and `sweepAlb` remove the record of the id
they tried to delete; `sweepElasticache` on the same cache keeps the record of
`cache-01`. -/
theorem failed_delete_record_removed :
    enabledMarker.Config.DeleteEnabled = true ∧
    (sweepEc2 (goLib noRegex) enabledMarker (2 * oneDay)
      (answering (DeleteAnswer.awsErr "UnauthorizedOperation")) sweepCache).map
        (fun st => (st.calls, recordIds (goLib noRegex) st.cache "bob"))
      = some ([⟨"TerminateInstances", "i-0def", false⟩],
          ["vol-01", "web-elb", "arn:alb/web", "cache-01"]) ∧
    (sweepEbs (goLib noRegex) enabledMarker (2 * oneDay)
      (answering (DeleteAnswer.awsErr "UnauthorizedOperation")) sweepCache).map
        (fun st => (st.calls, recordIds (goLib noRegex) st.cache "bob"))
      = some ([⟨"DeleteVolume", "vol-01", false⟩],
          ["i-0def", "web-elb", "arn:alb/web", "cache-01"]) ∧
    (sweepAlb (goLib noRegex) enabledMarker (2 * oneDay)
      (answering (DeleteAnswer.awsErr "UnauthorizedOperation")) sweepCache).map
        (fun st => (st.calls, recordIds (goLib noRegex) st.cache "bob"))
      = some ([⟨"DeleteLoadBalancer", "arn:alb/web", false⟩],
          ["i-0def", "vol-01", "web-elb", "cache-01"]) ∧
    (sweepElasticache (goLib noRegex) enabledMarker (2 * oneDay)
      (answering (DeleteAnswer.awsErr "UnauthorizedOperation")) sweepCache).map
        (fun st => (st.calls, recordIds (goLib noRegex) st.cache "bob"))
      = some ([⟨"DeleteCacheCluster", "cache-01", false⟩],
          ["i-0def", "vol-01", "web-elb", "arn:alb/web", "cache-01"]) := by
  decide

/-! ## The generic filters -/

/-- C24: `IgnoreConfigFilter` always answers, and answers true exactly when some tag and some
rule of `not_tags` agree in key and value, or the rule has a non-empty `key_regex` that
matches the tag's key, or a non-empty `value_regex` that matches the tag's value.  Under
rules without regular expressions a tag list is not ignored unless a tag agrees with a rule
in both key and value: agreeing in the key only or in the value only is not enough. -/
theorem IgnoreConfigFilter_iff (L : Lib) (am : AwsMarker) (id : String) (tags : List Tag)
    (created : Option Int) :
    (∃ b, IgnoreConfigFilter L am id tags created = some b) ∧
    (IgnoreConfigFilter L am id tags created = some true ↔
      ∃ t ∈ tags, ∃ ignore ∈ am.Config.Not,
        (ignore.Key = t.Key ∧ ignore.Value = t.Value) ∨
        (ignore.KeyRegex ≠ "" ∧ L.regexMatch ignore.KeyRegex t.Key = true) ∨
        (ignore.ValueRegex ≠ "" ∧ L.regexMatch ignore.ValueRegex t.Value = true)) ∧
    ((∀ ignore ∈ am.Config.Not, ignore.KeyRegex = "" ∧ ignore.ValueRegex = "") →
      (∀ t ∈ tags, ∀ ignore ∈ am.Config.Not, ignore.Key ≠ t.Key ∨ ignore.Value ≠ t.Value) →
      IgnoreConfigFilter L am id tags created = some false) := by
  have hiff : IgnoreConfigFilter L am id tags created = some true ↔
      ∃ t ∈ tags, ∃ ignore ∈ am.Config.Not,
        (ignore.Key = t.Key ∧ ignore.Value = t.Value) ∨
        (ignore.KeyRegex ≠ "" ∧ L.regexMatch ignore.KeyRegex t.Key = true) ∨
        (ignore.ValueRegex ≠ "" ∧ L.regexMatch ignore.ValueRegex t.Value = true) := by
    simp only [IgnoreConfigFilter, Option.some.injEq, List.any_eq_true, Bool.or_eq_true,
      Bool.and_eq_true, beq_iff_eq, bne_iff_ne, ne_eq, or_assoc]
  refine ⟨⟨_, rfl⟩, hiff, ?_⟩
  intro hre hne
  cases hb : IgnoreConfigFilter L am id tags created with
  | none => simp [IgnoreConfigFilter] at hb
  | some b =>
    cases b with
    | false => rfl
    | true =>
      obtain ⟨t, ht, ignore, hi, h⟩ := hiff.1 hb
      rcases h with ⟨h1, h2⟩ | ⟨h1, _⟩ | ⟨h1, _⟩
      · rcases hne t ht ignore hi with h | h
        · exact absurd h1 h
        · exact absurd h2 h
      · exact absurd (hre ignore hi).1 h1
      · exact absurd (hre ignore hi).2 h1

/-- C25: `NoTagFilter` answers true exactly on the empty tag list, and `NoTTLTagFilter`
answers true exactly when no tag of the list has the key `ttl`, whatever the values; both
always answer, and both answer true on the empty list. -/
theorem NoTag_NoTTLTag_iff (id : String) (tags : List Tag) (created : Option Int) :
    (∃ b, NoTagFilter id tags created = some b) ∧
    (∃ b, NoTTLTagFilter id tags created = some b) ∧
    (NoTagFilter id tags created = some true ↔ tags = []) ∧
    (NoTTLTagFilter id tags created = some true ↔ ∀ t ∈ tags, t.Key ≠ "ttl") ∧
    (∀ v, (⟨"ttl", v⟩ : Tag) ∈ tags → NoTTLTagFilter id tags created = some false) ∧
    NoTagFilter id [] created = some true ∧
    NoTTLTagFilter id [] created = some true := by
  have hspec := checkRequiredTagsFrom_spec "ttl" [] tags
  have hN : NoTagFilter id tags created = some true ↔ tags = [] := by
    simp only [NoTagFilter]
    split_ifs with h
    · simp [List.length_eq_zero.1 h]
    · have : tags ≠ [] := fun h' => h (by simp [h'])
      simp [this]
  have hT : NoTTLTagFilter id tags created = some true ↔ ∀ t ∈ tags, t.Key ≠ "ttl" := by
    simp only [NoTTLTagFilter, REQUIRED_TAG]
    cases hf : tags.find? (fun x => x.Key == "ttl") with
    | none =>
      rw [hf] at hspec
      have h2 : (checkRequiredTags "ttl" tags).2 = false := by
        have h3 : checkRequiredTags "ttl" tags = (0, false) := by
          simpa [checkRequiredTags] using hspec
        rw [h3]
      simp only [h2, Bool.not_false, if_true, true_iff]
      intro t ht
      have := List.find?_eq_none.1 hf t ht
      simpa using this
    | some t =>
      obtain ⟨hex, _⟩ := checkRequiredTags_of_find "ttl" tags t hf
      simp only [hex, Bool.not_true, Bool.false_eq_true, if_false]
      constructor
      · intro h; cases h
      · intro h
        have hmem := List.mem_of_find?_eq_some hf
        have hk := List.find?_some hf
        exact absurd (by simpa using hk) (h t hmem)
  refine ⟨?_, ?_, hN, hT, ?_, by simp [NoTagFilter], rfl⟩
  · simp only [NoTagFilter]; split_ifs <;> exact ⟨_, rfl⟩
  · simp only [NoTTLTagFilter]
    rcases checkRequiredTags REQUIRED_TAG tags with ⟨ix, b⟩
    cases b <;> exact ⟨_, rfl⟩
  · intro v hv
    have hb : ∃ b, NoTTLTagFilter id tags created = some b := by
      simp only [NoTTLTagFilter]
      rcases checkRequiredTags REQUIRED_TAG tags with ⟨ix, b⟩
      cases b <;> exact ⟨_, rfl⟩
    obtain ⟨b, hb⟩ := hb
    cases b with
    | false => exact hb
    | true => exact absurd rfl (hT.1 hb _ hv)

/-! ## Tags of a launch configuration -/

/-- What `strings.SplitN(s, sep, n+1)` returns: at least one and at most `n+1` parts, one more
than the separators of `s` when that is fewer; the parts joined by the separator give `s`
back; no part but the last holds the separator. -/
theorem SplitN_spec (sep : Char) (n : Nat) : ∀ s : List Char,
    SplitN sep (n + 1) s ≠ [] ∧
    (SplitN sep (n + 1) s).length = min (n + 1) (s.count sep + 1) ∧
    List.intercalate [sep] (SplitN sep (n + 1) s) = s ∧
    (∀ p ∈ (SplitN sep (n + 1) s).dropLast, sep ∉ p) := by
  induction n with
  | zero =>
    intro s
    refine ⟨by simp [SplitN], by simp [SplitN], by simp [SplitN, List.intercalate], ?_⟩
    simp [SplitN]
  | succ n ih =>
    intro s
    have hsplit : s.takeWhile (fun ch => ch != sep) ++ s.dropWhile (fun ch => ch != sep) = s :=
      List.takeWhile_append_dropWhile _ _
    have hnot : ∀ x ∈ s.takeWhile (fun ch => ch != sep), x ≠ sep := by
      intro x hx
      have := List.mem_takeWhile_imp hx
      simpa using this
    have hcount0 : (s.takeWhile (fun ch => ch != sep)).count sep = 0 := by
      rw [List.count_eq_zero]
      intro hmem
      exact hnot sep hmem rfl
    cases hd : s.dropWhile (fun ch => ch != sep) with
    | nil =>
      have hparts : SplitN sep (n + 1 + 1) s = [s.takeWhile (fun ch => ch != sep)] := by
        simp only [SplitN, List.span_eq_take_drop, hd]
      rw [hd, List.append_nil] at hsplit
      rw [hparts, hsplit]
      rw [hsplit] at hcount0
      refine ⟨by simp, by simp [hcount0], by simp [List.intercalate], by simp⟩
    | cons c rest =>
      have hc : c = sep := by
        have h := List.head_dropWhile_not (fun ch => ch != sep) s (by rw [hd]; simp)
        simp only [hd, List.head_cons] at h
        simpa using h
      subst hc
      have hparts : SplitN c (n + 1 + 1) s
          = s.takeWhile (fun ch => ch != c) :: SplitN c (n + 1) rest := by
        simp only [SplitN, List.span_eq_take_drop, hd]
      obtain ⟨hne, hlen, hjoin, hlast⟩ := ih rest
      rw [hd] at hsplit
      have hcount : s.count c = rest.count c + 1 := by
        rw [← hsplit, List.count_append, hcount0, List.count_cons_self]
        omega
      rw [hparts]
      refine ⟨by simp, ?_, ?_, ?_⟩
      · rw [List.length_cons, hlen, hcount]
        omega
      · obtain ⟨p, ps, hps⟩ := List.exists_cons_of_ne_nil hne
        rw [hps] at hjoin ⊢
        have : List.intercalate [c] (s.takeWhile (fun ch => ch != c) :: p :: ps)
            = s.takeWhile (fun ch => ch != c) ++ c :: List.intercalate [c] (p :: ps) := by
          simp [List.intercalate, List.intersperse]
        rw [this, hjoin, hsplit]
      · intro p hp
        rw [List.dropLast_cons_of_ne_nil hne] at hp
        rcases List.mem_cons.1 hp with rfl | hp
        · intro hmem
          exact hnot c hmem rfl
        · exact hlast p hp

/-- C30: `extractLcTags` splits the name at its first three hyphens: with
`parts = SplitN '-' 4 name` there are between one and four parts, one more than the hyphens
of the name when that is fewer than four; the parts joined by `-` give the name back and no
part but the last holds a hyphen.  The tags are the parts in order under the keys `owner`,
`version`, `date`, `ttl`; the tag list is never empty, so `NoTagFilter` answers false, and
`NoTTLTagFilter` answers true exactly when there are fewer than four parts. -/
theorem extractLcTags_spec (lc : LaunchConfiguration) (id : String) (created : Option Int) :
    1 ≤ (SplitN '-' 4 lc.LaunchConfigurationName.data).length ∧
    (SplitN '-' 4 lc.LaunchConfigurationName.data).length
      = min 4 (lc.LaunchConfigurationName.data.count '-' + 1) ∧
    List.intercalate ['-'] (SplitN '-' 4 lc.LaunchConfigurationName.data)
      = lc.LaunchConfigurationName.data ∧
    (∀ p ∈ (SplitN '-' 4 lc.LaunchConfigurationName.data).dropLast, '-' ∉ p) ∧
    (extractLcTags lc).map (fun t => t.Key)
      = ["owner", "version", "date", "ttl"].take
          (SplitN '-' 4 lc.LaunchConfigurationName.data).length ∧
    (extractLcTags lc).map (fun t => t.Value)
      = (SplitN '-' 4 lc.LaunchConfigurationName.data).map String.mk ∧
    extractLcTags lc ≠ [] ∧
    NoTagFilter id (extractLcTags lc) created = some false ∧
    (NoTTLTagFilter id (extractLcTags lc) created = some true ↔
      (SplitN '-' 4 lc.LaunchConfigurationName.data).length < 4) ∧
    (NoTTLTagFilter id (extractLcTags lc) created = some false ↔
      (SplitN '-' 4 lc.LaunchConfigurationName.data).length = 4) := by
  obtain ⟨hne, hlen, hjoin, hlast⟩ := SplitN_spec '-' 3 lc.LaunchConfigurationName.data
  have hle : (SplitN '-' 4 lc.LaunchConfigurationName.data).length ≤ 4 := by
    rw [hlen]; omega
  have hpos : 1 ≤ (SplitN '-' 4 lc.LaunchConfigurationName.data).length := by
    rw [hlen]; omega
  refine ⟨hpos, hlen, hjoin, hlast, ?_⟩
  simp only [extractLcTags]
  rcases hp : SplitN '-' 4 lc.LaunchConfigurationName.data with
    _ | ⟨a, _ | ⟨b, _ | ⟨c, _ | ⟨d, _ | ⟨e, r⟩⟩⟩⟩⟩
  · exact absurd hp hne
  · simp [List.enum, List.enumFrom, tagMap, NoTagFilter, NoTTLTagFilter, REQUIRED_TAG,
      checkRequiredTags, checkRequiredTagsFrom]
  · simp [List.enum, List.enumFrom, tagMap, NoTagFilter, NoTTLTagFilter, REQUIRED_TAG,
      checkRequiredTags, checkRequiredTagsFrom]
  · simp [List.enum, List.enumFrom, tagMap, NoTagFilter, NoTTLTagFilter, REQUIRED_TAG,
      checkRequiredTags, checkRequiredTagsFrom]
  · simp [List.enum, List.enumFrom, tagMap, NoTagFilter, NoTTLTagFilter, REQUIRED_TAG,
      checkRequiredTags, checkRequiredTagsFrom]
  · rw [hp] at hle
    simp at hle

set_option maxRecDepth 100000 in
theorem extractLcTags_spec_sample :
    extractLcTags ⟨"bob-v12-20190301-2w-rc-1", some 0⟩
      = [⟨"owner", "bob"⟩, ⟨"version", "v12"⟩, ⟨"date", "20190301"⟩, ⟨"ttl", "2w-rc-1"⟩] ∧
    extractLcTags ⟨"bob-v12", some 0⟩ = [⟨"owner", "bob"⟩, ⟨"version", "v12"⟩] ∧
    extractLcTags ⟨"", some 0⟩ = [⟨"owner", ""⟩] := by
  decide

/-! ## Security groups -/

theorem removeForIds_shrinks (key : String) (strCans : List String) (ix : Nat)
    (can : Option MarkedCandidate) (ids : List String) :
    ∀ (c c' : RedisCache), removeForIds key strCans ix can ids c = some c' →
      (∀ k x, x ∈ c'.sets k → x ∈ c.sets k) ∧ c'.strings = c.strings := by
  induction ids with
  | nil =>
    intro c c' h
    simp only [removeForIds, Option.some.injEq] at h
    subst h
    exact ⟨fun _ _ hx => hx, rfl⟩
  | cons value rest ih =>
    intro c c' h
    cases can with
    | none => simp [removeForIds] at h
    | some m =>
      simp only [removeForIds] at h
      split_ifs at h with hv
      · cases hs : strCans[ix]? with
        | none => simp [hs] at h
        | some s =>
          simp only [hs] at h
          obtain ⟨h1, h2⟩ := ih _ _ h
          refine ⟨?_, by rw [h2]; rfl⟩
          intro k x hx
          have := h1 k x hx
          simp only [RedisCache.Delete, RedisCache.SRem] at this
          by_cases hk : k = key
          · subst hk
            simp only [Function.update_same] at this
            exact (List.mem_filter.1 this).1
          · simpa [Function.update_noteq hk] using this
      · exact ih _ _ h

theorem removeForCans_shrinks (key : String) (strCans : List String) (ids : List String)
    (cans : List (Option MarkedCandidate)) :
    ∀ (ix : Nat) (c c' : RedisCache), removeForCans key strCans ids ix cans c = some c' →
      (∀ k x, x ∈ c'.sets k → x ∈ c.sets k) ∧ c'.strings = c.strings := by
  induction cans with
  | nil =>
    intro ix c c' h
    simp only [removeForCans, Option.some.injEq] at h
    subst h
    exact ⟨fun _ _ hx => hx, rfl⟩
  | cons can rest ih =>
    intro ix c c' h
    simp only [removeForCans] at h
    cases h1 : removeForIds key strCans ix can ids c with
    | none => simp [h1] at h
    | some c₁ =>
      simp only [h1] at h
      obtain ⟨a1, a2⟩ := removeForIds_shrinks key strCans ix can ids c c₁ h1
      obtain ⟨b1, b2⟩ := ih _ _ _ h
      exact ⟨fun k x hx => a1 k x (b1 k x hx), by rw [b2, a2]⟩

/-- Whenever `RemoveCandidates` returns, it has added no member to any set and has left the
string keys alone. -/
theorem RemoveCandidates_shrinks (L : Lib) (owner : String) (c : RedisCache)
    (ids : List String) (err : Option NoCandidatesError) (c' : RedisCache)
    (h : RemoveCandidates L owner c ids = some (err, c')) :
    (∀ k x, x ∈ c'.sets k → x ∈ c.sets k) ∧ c'.strings = c.strings := by
  simp only [RemoveCandidates] at h
  split_ifs at h with h0
  · simp only [Option.some.injEq, Prod.mk.injEq] at h
    obtain ⟨_, rfl⟩ := h
    exact ⟨fun _ _ hx => hx, rfl⟩
  · cases hb : BuildCandidates L owner c with
    | error e =>
      simp only [hb, Option.some.injEq, Prod.mk.injEq] at h
      obtain ⟨_, rfl⟩ := h
      exact ⟨fun _ _ hx => hx, rfl⟩
    | ok cans =>
      simp only [hb] at h
      cases hr : removeForCans ("bilge:candidates:" ++ owner) (c.ReadCandidates owner) ids 0
          cans c with
      | none => simp [hr] at h
      | some c₁ =>
        simp only [hr, Option.some.injEq, Prod.mk.injEq] at h
        obtain ⟨_, rfl⟩ := h
        exact removeForCans_shrinks _ _ _ _ _ _ _ hr

/-- C26: in the chain of `processSGMarkPages` the typed ignore filters always answer, and one
of them answers true exactly when an ingress or egress permission of the group has a
non-empty list of group pairs or the group's id is in one of the in-use sets of the pass.
When one does, the group is classified `Ignore` whatever its tags, and `FilterAwsObject`,
when it returns, has added no member to any set and written no string key; a group without
permissions whose id is in no in-use set is not matched. -/
theorem sgChain_typed_ignore (L : Lib) (am : AwsMarker) (now : Int) (c : RedisCache)
    (sg : SecurityGroup) :
    (sgChain L am sg).typedIgnoreFilters = [SGIgnoreChild, SGIgnoreInUse am] ∧
    (∃ b, awsFilterable.anyFilter (fun f : TypedFilter => f (sgChain L am sg).object)
      (sgChain L am sg).typedIgnoreFilters = some b) ∧
    (awsFilterable.anyFilter (fun f : TypedFilter => f (sgChain L am sg).object)
        (sgChain L am sg).typedIgnoreFilters = some true ↔
      (∃ r ∈ sg.IpPermissions, r.UserIdGroupPairs ≠ 0) ∨
      (∃ r ∈ sg.IpPermissionsEgress, r.UserIdGroupPairs ≠ 0) ∨
      (∃ m ∈ am.sgs, m sg.GroupId = true)) ∧
    (awsFilterable.anyFilter (fun f : TypedFilter => f (sgChain L am sg).object)
        (sgChain L am sg).typedIgnoreFilters = some true →
      classify (sgChain L am sg) = some Disposition.Ignore ∧
      ∀ c', FilterAwsObject L am now c (sgChain L am sg) = some c' →
        (∀ k x, x ∈ c'.sets k → x ∈ c.sets k) ∧ c'.strings = c.strings) ∧
    (sg.IpPermissions = [] → sg.IpPermissionsEgress = [] →
      (∀ m ∈ am.sgs, m sg.GroupId = false) →
      awsFilterable.anyFilter (fun f : TypedFilter => f (sgChain L am sg).object)
        (sgChain L am sg).typedIgnoreFilters = some false) := by
  have hobj : (sgChain L am sg).object = AwsObject.securityGroup sg := rfl
  have hfs : (sgChain L am sg).typedIgnoreFilters = [SGIgnoreChild, SGIgnoreInUse am] := rfl
  have hgen : (sgChain L am sg).ignoreFilters = [IgnoreConfigFilter L am] := rfl
  have hval : awsFilterable.anyFilter (fun f : TypedFilter => f (sgChain L am sg).object)
      (sgChain L am sg).typedIgnoreFilters
      = some (((sg.IpPermissions.any fun r => r.UserIdGroupPairs != 0)
          || (sg.IpPermissionsEgress.any fun r => r.UserIdGroupPairs != 0))
          || (am.sgs.any fun m => m sg.GroupId)) := by
    rw [hfs, hobj]
    simp only [awsFilterable.anyFilter, SGIgnoreChild, SGIgnoreInUse]
    cases ((sg.IpPermissions.any fun r => r.UserIdGroupPairs != 0)
          || (sg.IpPermissionsEgress.any fun r => r.UserIdGroupPairs != 0)) <;>
      cases (am.sgs.any fun m => m sg.GroupId) <;> rfl
  have hiff : awsFilterable.anyFilter (fun f : TypedFilter => f (sgChain L am sg).object)
        (sgChain L am sg).typedIgnoreFilters = some true ↔
      (∃ r ∈ sg.IpPermissions, r.UserIdGroupPairs ≠ 0) ∨
      (∃ r ∈ sg.IpPermissionsEgress, r.UserIdGroupPairs ≠ 0) ∨
      (∃ m ∈ am.sgs, m sg.GroupId = true) := by
    rw [hval]
    simp only [Option.some.injEq, Bool.or_eq_true, List.any_eq_true, bne_iff_ne, ne_eq,
      or_assoc]
  refine ⟨hfs, ⟨_, hval⟩, hiff, ?_, ?_⟩
  · intro ht
    have hg : ∃ b, awsFilterable.anyFilter
        (fun f : Filter => f (sgChain L am sg).id (sgChain L am sg).tags
          (sgChain L am sg).created) (sgChain L am sg).ignoreFilters = some b := by
      rw [hgen]
      simp only [awsFilterable.anyFilter, IgnoreConfigFilter]
      split <;> simp_all
    obtain ⟨b, hb⟩ := hg
    have hI : (sgChain L am sg).Ignore = some true := by
      simp only [awsFilterable.Ignore, hb, ht]
      cases b <;> rfl
    refine ⟨by simp [classify, hI], ?_⟩
    intro c' hc'
    simp only [FilterAwsObject, hI, filterableUpdate] at hc'
    cases hr : RemoveCandidates L
        (tagOrNil "owner" (ExtractTags (sgChain L am sg).GetTypeInterface).2.1) c
        [(ExtractTags (sgChain L am sg).GetTypeInterface).1] with
    | none => simp [hr] at hc'
    | some r =>
      obtain ⟨err, c₁⟩ := r
      simp only [hr, Option.some.injEq] at hc'
      subst hc'
      exact RemoveCandidates_shrinks L _ c _ err c₁ hr
  · intro h1 h2 h3
    rw [hval, h1, h2]
    have : (am.sgs.any fun m => m sg.GroupId) = false := by
      rw [List.any_eq_false]
      intro m hm
      simp [h3 m hm]
    simp [this]

/-! ## Where the ttl is read -/

/-- The instrumented loop calls a prefix of the filters, and the answer of the loop is the
answer over the filters called. -/
theorem anyFilter_evaluated {α : Type} (run : α → Option Bool) (fs : List α) :
    awsFilterable.anyFilter run (awsFilterable.evaluated run fs) = awsFilterable.anyFilter run fs
    ∧ (awsFilterable.evaluated run fs).IsPrefix fs := by
  induction fs with
  | nil => exact ⟨rfl, List.prefix_refl _⟩
  | cons f fs ih =>
    cases hr : run f with
    | none =>
      simp only [awsFilterable.evaluated, hr, awsFilterable.anyFilter]
      exact ⟨trivial, ⟨fs, rfl⟩⟩
    | some b =>
      cases b with
      | true =>
        simp only [awsFilterable.evaluated, hr, awsFilterable.anyFilter]
        exact ⟨trivial, ⟨fs, rfl⟩⟩
      | false =>
        simp only [awsFilterable.evaluated, hr, awsFilterable.anyFilter]
        exact ⟨ih.1, List.prefix_cons_inj f |>.2 ih.2⟩

/-- The last filter of a chain is called only after all the others answered false. -/
theorem evaluated_last {α : Type} (run : α → Option Bool) (pre : List α) (g : α)
    (h : (awsFilterable.evaluated run (pre ++ [g])).length = pre.length + 1) :
    ∀ f ∈ pre, run f = some false := by
  induction pre with
  | nil => intro f hf; cases hf
  | cons p pre ih =>
    cases hr : run p with
    | none => simp [awsFilterable.evaluated, hr] at h
    | some b =>
      cases b with
      | true => simp [awsFilterable.evaluated, hr] at h
      | false =>
        simp only [List.cons_append, awsFilterable.evaluated, hr, List.length_cons,
          add_left_inj] at h
        intro f hf
        rcases List.mem_cons.1 hf with rfl | hf
        · exact hr
        · exact ih h f hf

theorem checkRequiredTags_flag (required : String) (tags : List Tag)
    (h : (checkRequiredTags required tags).2 = true) :
    ∃ t, tags.find? (fun x => x.Key == required) = some t := by
  have hspec := checkRequiredTagsFrom_spec required [] tags
  cases hf : tags.find? (fun x => x.Key == required) with
  | some t => exact ⟨t, rfl⟩
  | none =>
    rw [hf] at hspec
    have h3 : checkRequiredTags required tags = (0, false) := by
      simpa [checkRequiredTags] using hspec
    rw [h3] at h
    cases h

/-- After `NoTTLTagFilter` answered false the index that `TTLTagExpiredFilter` computes is in
range and points at the first tag keyed `ttl`. -/
theorem ttl_index_of_NoTTLTag (id : String) (tags : List Tag) (created : Option Int)
    (h : NoTTLTagFilter id tags created = some false) :
    ∃ t, tags.find? (fun x => x.Key == "ttl") = some t ∧ t.Key = "ttl" ∧
      (checkRequiredTags REQUIRED_TAG tags).1 < tags.length ∧
      tags[(checkRequiredTags REQUIRED_TAG tags).1]? = some t := by
  have hflag : (checkRequiredTags "ttl" tags).2 = true := by
    simp only [NoTTLTagFilter, REQUIRED_TAG] at h
    cases hb : (checkRequiredTags "ttl" tags).2 with
    | true => rfl
    | false => simp [hb] at h
  obtain ⟨t, ht⟩ := checkRequiredTags_flag "ttl" tags hflag
  obtain ⟨_, hget⟩ := checkRequiredTags_of_find "ttl" tags t ht
  refine ⟨t, ht, by simpa using List.find?_some ht, ?_, hget⟩
  by_contra hlt
  have hlt2 : tags.length ≤ (checkRequiredTags "ttl" tags).1 := not_lt.1 hlt
  rw [List.getElem?_eq_none hlt2] at hget
  cases hget

/-- C29: each of the chains for instances, volumes, classic and application load balancers,
cache clusters, auto-scaling groups and launch configurations has the compliance filters
`NoTagFilter`, `NoTTLTagFilter`, `TTLTagExpiredFilter` in this order, and `checkEksCluster`
has `NoTTLTagFilter`, `TTLTagExpiredFilter`.  Whenever the loop over them calls
`TTLTagExpiredFilter`, the last of them, the tag list holds a tag keyed `ttl`, the index
that the filter computes is in range and the tag there is the first one keyed `ttl`. -/
theorem ttl_filter_guarded (L : Lib) (am : AwsMarker) (now : Int) (i : Instance) (v : Volume)
    (lbd : LoadBalancerDescription) (lb : LoadBalancer) (cc : CacheCluster) (asg : Group)
    (lc : LaunchConfiguration) (node : Instance) :
    (∀ e ∈ [ec2Chain L am now i, ebsChain L am now v, elbChain L am now lbd,
        albChain L am now lb, ecChain L am now cc, asgChain L am now asg,
        lcChain L am now lc],
      e.complianceFilters = [NoTagFilter, NoTTLTagFilter, TTLTagExpiredFilter L now] ∧
      ((awsFilterable.evaluated (fun f : Filter => f e.id e.tags e.created)
          e.complianceFilters).length = 3 →
        ∃ t, e.tags.find? (fun x => x.Key == "ttl") = some t ∧ t.Key = "ttl" ∧
          (checkRequiredTags REQUIRED_TAG e.tags).1 < e.tags.length ∧
          e.tags[(checkRequiredTags REQUIRED_TAG e.tags).1]? = some t)) ∧
    (eksTagFilters L now = [NoTTLTagFilter, TTLTagExpiredFilter L now] ∧
      ((awsFilterable.evaluated
          (fun f : Filter => f node.InstanceId node.Tags node.LaunchTime)
          (eksTagFilters L now)).length = 2 →
        ∃ t, node.Tags.find? (fun x => x.Key == "ttl") = some t ∧ t.Key = "ttl" ∧
          (checkRequiredTags REQUIRED_TAG node.Tags).1 < node.Tags.length ∧
          node.Tags[(checkRequiredTags REQUIRED_TAG node.Tags).1]? = some t)) := by
  have key : ∀ (id : String) (tags : List Tag) (created : Option Int),
      (awsFilterable.evaluated (fun f : Filter => f id tags created)
        [NoTagFilter, NoTTLTagFilter, TTLTagExpiredFilter L now]).length = 3 →
      ∃ t, tags.find? (fun x => x.Key == "ttl") = some t ∧ t.Key = "ttl" ∧
        (checkRequiredTags REQUIRED_TAG tags).1 < tags.length ∧
        tags[(checkRequiredTags REQUIRED_TAG tags).1]? = some t := by
    intro id tags created h
    have := evaluated_last (fun f : Filter => f id tags created)
      [NoTagFilter, NoTTLTagFilter] (TTLTagExpiredFilter L now) h NoTTLTagFilter (by simp)
    exact ttl_index_of_NoTTLTag id tags created this
  refine ⟨?_, rfl, ?_⟩
  · intro e he
    simp only [List.mem_cons, List.mem_singleton, List.not_mem_nil, or_false] at he
    rcases he with rfl | rfl | rfl | rfl | rfl | rfl | rfl <;>
      exact ⟨rfl, key _ _ _⟩
  · intro h
    have := evaluated_last (fun f : Filter => f node.InstanceId node.Tags node.LaunchTime)
      [NoTTLTagFilter] (TTLTagExpiredFilter L now) h NoTTLTagFilter (by simp)
    exact ttl_index_of_NoTTLTag _ _ _ this

/-! ## Entries that are not records -/

theorem foldlM_nil_slot {β : Type} (step : β → MarkedCandidate → Option β)
    (slots : List (Option MarkedCandidate)) (hmem : none ∈ slots) :
    ∀ acc : β, slots.foldlM (fun (acc : β) (slot : Option MarkedCandidate) =>
      match slot with
      | none => none
      | some m => step acc m) acc = none := by
  induction slots with
  | nil => cases hmem
  | cons s rest ih =>
    intro acc
    cases s with
    | none => simp [List.foldlM_cons]
    | some m =>
      have hrest : none ∈ rest := by
        rcases List.mem_cons.1 hmem with h | h
        · cases h
        · exact h
      simp only [List.foldlM_cons]
      cases hs : step acc m with
      | none => simp
      | some acc' => simpa using ih hrest acc'

theorem removeForCans_nil_slot (key : String) (strCans : List String) (ids : List String)
    (hids : ids ≠ []) (cans : List (Option MarkedCandidate)) (hmem : none ∈ cans) :
    ∀ (ix : Nat) (c : RedisCache), removeForCans key strCans ids ix cans c = none := by
  induction cans with
  | nil => cases hmem
  | cons s rest ih =>
    intro ix c
    simp only [removeForCans]
    cases s with
    | none =>
      obtain ⟨v, vs, rfl⟩ := List.exists_cons_of_ne_nil hids
      simp [removeForIds]
    | some m =>
      have hrest : none ∈ rest := by
        rcases List.mem_cons.1 hmem with h | h
        · cases h
        · exact h
      cases hr : removeForIds key strCans ix (some m) ids c with
      | none => rfl
      | some c' => exact ih hrest _ _

/-- An owner's set with an entry that does not deserialize makes `toDelete` of either marker
abort, and `RemoveCandidates` too whenever it is given an id. -/
theorem nil_slot_aborts (L : Lib) (am : AwsMarker) (k : K8s.K8SMarker) (now : Int)
    (c : RedisCache) (owner thing : String) (ids : List String) (e : String)
    (he : e ∈ c.ReadCandidates owner) (hbad : slotOf L e = none) :
    toDelete L am now c owner thing = none ∧
    K8s.toDelete L k now c owner thing = none ∧
    (ids ≠ [] → RemoveCandidates L owner c ids = none) := by
  have hlen : ¬ (c.ReadCandidates owner).length = 0 := by
    intro h
    rw [List.length_eq_zero.1 h] at he
    cases he
  have hslot : none ∈ (c.ReadCandidates owner).map (slotOf L) :=
    List.mem_map.2 ⟨e, he, hbad⟩
  have hB : BuildCandidates L owner c = Except.ok ((c.ReadCandidates owner).map (slotOf L)) := by
    simp [BuildCandidates, hlen]
  refine ⟨?_, ?_, ?_⟩
  · simp only [toDelete, hB]
    exact foldlM_nil_slot _ _ hslot []
  · simp only [K8s.toDelete, hB]
    exact foldlM_nil_slot _ _ hslot []
  · intro hids
    simp only [RemoveCandidates, hlen, if_false, hB,
      removeForCans_nil_slot _ _ ids hids _ hslot]

set_option maxRecDepth 100000 in
/-- C27: on a set that holds a well-formed record before the entry `<html>`, `toDelete` of
both markers and `RemoveCandidates` abort on the nil slot, while on the same set without
that entry `toDelete` selects `i-0def` and `RemoveCandidates` returns with the record
removed. -/
theorem malformed_entry_aborts :
    trailingBrokenCache.ReadCandidates "bob"
      = [goJsonMarshal (markedOf sampleMarker (AwsObject.instance ownedInstance) "ec2"),
         "<html>"] ∧
    slotOf (goLib noRegex) "<html>" = none ∧
    toDelete (goLib noRegex) sampleMarker (oneDay + 1) trailingBrokenCache "bob" "ec2" = none ∧
    K8s.toDelete (goLib noRegex) sampleK8s (oneDay + 1) trailingBrokenCache "bob" "namespace"
      = none ∧
    (RemoveCandidates (goLib noRegex) "bob" trailingBrokenCache ["i-0def"]).isNone = true ∧
    toDelete (goLib noRegex) sampleMarker (oneDay + 1) trailingCleanCache "bob" "ec2"
      = some ["i-0def"] ∧
    (RemoveCandidates (goLib noRegex) "bob" trailingCleanCache ["i-0def"]).map
      (fun r => (r.1, r.2.ReadCandidates "bob")) = some (none, []) := by
  refine ⟨by decide, by decide, by decide, by decide, by decide, by decide, by decide⟩

/-! ## Records of EKS clusters -/

theorem eksMarked_Account (i : Option Instance) (cluster : String) :
    (eksMarked i cluster).Account = "" ∧ (eksMarked i cluster).CandidateType = "eks" ∧
    (eksMarked i cluster).Id = cluster := by
  cases i <;> exact ⟨rfl, rfl, rfl⟩

set_option maxRecDepth 100000 in
/-- C28: the record that `eksTtlRejected` stores for the cluster `prod`, found through a node
owned by `bob`, has the candidate type `eks` but an empty account, and it is stored in the
set of the owner `""`, not of `bob`.  With the lease gone `toDelete` of the account `acct`
selects nothing for either owner and `sweepEks` makes no delete call, while the record that
`ttlRejected` stores for an instance of `bob` is selected. -/
theorem eks_record_never_swept :
    enabledMarker.Config.Name = "acct" ∧
    eksMarked (some clusterNode) "prod"
      = { MarkerType := 0, CandidateType := "eks", Id := "prod", Owner := "bob", Ttl := "",
          Purpose := "", Account := "", Tags := none } ∧
    eksRecorded.ReadOwners = [""] ∧
    eksRecorded.ReadCandidates "bob" = [] ∧
    recordIds (goLib noRegex) eksRecorded "" = ["prod"] ∧
    eksRecorded.TimerExists (2 * oneDay) "bilge:timers:prod" = false ∧
    toDelete (goLib noRegex) enabledMarker (2 * oneDay) eksRecorded "" "eks" = some [] ∧
    toDelete (goLib noRegex) enabledMarker (2 * oneDay) eksRecorded "bob" "eks" = some [] ∧
    (sweepEks (goLib noRegex) enabledMarker (2 * oneDay) (answering DeleteAnswer.ok)
      eksRecorded).map (fun st => (st.calls, recordIds (goLib noRegex) st.cache ""))
      = some ([], ["prod"]) ∧
    toDelete (goLib noRegex) enabledMarker (2 * oneDay) ownedRecorded "bob" "ec2"
      = some ["i-0def"] := by
  refine ⟨rfl, by decide, by decide, by decide, by decide, by decide, by decide, by decide,
    by decide, by decide⟩

/-! ## Marking a resource again -/

/-- The method `ttlRejected` reads the object only through its id, its owner tag and the
record built from it. -/
theorem ttlRejected_congr (L : Lib) (am : AwsMarker) (now : Int) (c : RedisCache)
    (obj₁ obj₂ : AwsObject) (canType : String)
    (hid : (ExtractTags obj₁).1 = (ExtractTags obj₂).1)
    (hown : tagOrNil "owner" (ExtractTags obj₁).2.1 = tagOrNil "owner" (ExtractTags obj₂).2.1)
    (hrec : markedOf am obj₁ canType = markedOf am obj₂ canType) :
    ttlRejected L am now c obj₁ canType = ttlRejected L am now c obj₂ canType := by
  unfold ttlRejected
  rw [hrec]
  rcases h1 : ExtractTags obj₁ with ⟨id1, tags1, cr1, ty1⟩
  rcases h2 : ExtractTags obj₂ with ⟨id2, tags2, cr2, ty2⟩
  rw [h1, h2] at hid hown
  simp only at hid hown
  subst hid
  simp only [hown]

/-- The owner's set after `ttlRejected`: the record is appended unless it is there. -/
theorem ttlRejected_candidates (L : Lib) (am : AwsMarker) (now : Int) (c : RedisCache)
    (obj : AwsObject) (canType : String) :
    (ttlRejected L am now c obj canType).sets
        ("bilge:candidates:" ++ tagOrNil "owner" (ExtractTags obj).2.1)
      = if L.jsonMarshal (markedOf am obj canType)
            ∈ c.sets ("bilge:candidates:" ++ tagOrNil "owner" (ExtractTags obj).2.1)
        then c.sets ("bilge:candidates:" ++ tagOrNil "owner" (ExtractTags obj).2.1)
        else c.sets ("bilge:candidates:" ++ tagOrNil "owner" (ExtractTags obj).2.1)
          ++ [L.jsonMarshal (markedOf am obj canType)] := by
  by_cases hmem : L.jsonMarshal (markedOf am obj canType)
      ∈ c.sets ("bilge:candidates:" ++ tagOrNil "owner" (ExtractTags obj).2.1)
  · rw [ttlRejected_known L am now c obj canType hmem, if_pos hmem]
  · rw [if_neg hmem]
    rcases h1 : ExtractTags obj with ⟨id, tags, cr, ty⟩
    rw [h1] at hmem
    simp only at hmem
    have hex : c.CandidateExists (tagOrNil "owner" tags)
        (L.jsonMarshal (markedOf am obj canType)) = false := by
      simpa [RedisCache.CandidateExists] using hmem
    simp only [ttlRejected, h1, hex, Bool.false_eq_true, if_false, RedisCache.WriteTimer]
    split_ifs <;>
      simp [RedisCache.ExpireAt, RedisCache.Set, RedisCache.Write, RedisCache.SAdd,
        Function.update_noteq (candidatesKey_ne_owners _), hmem]

/-- Passes that build a record already in the owner's set change nothing. -/
theorem markPasses_known (L : Lib) (am : AwsMarker) (canType : String) (obj : AwsObject)
    (passes : List (Int × AwsObject))
    (hsame : ∀ p ∈ passes, (ExtractTags p.2).1 = (ExtractTags obj).1 ∧
      tagOrNil "owner" (ExtractTags p.2).2.1 = tagOrNil "owner" (ExtractTags obj).2.1 ∧
      markedOf am p.2 canType = markedOf am obj canType) :
    ∀ c : RedisCache,
      L.jsonMarshal (markedOf am obj canType)
        ∈ c.sets ("bilge:candidates:" ++ tagOrNil "owner" (ExtractTags obj).2.1) →
      markPasses L am canType passes c = c := by
  induction passes with
  | nil => intro c _; rfl
  | cons p rest ih =>
    intro c hmem
    obtain ⟨h1, h2, h3⟩ := hsame p (List.mem_cons_self _ _)
    have hstep : ttlRejected L am p.1 c p.2 canType = c := by
      rw [ttlRejected_congr L am p.1 c p.2 obj canType h1 h2 h3]
      exact ttlRejected_known L am p.1 c obj canType hmem
    simp only [markPasses, List.foldl_cons, hstep]
    exact ih (fun q hq => hsame q (List.mem_cons_of_mem _ hq)) c hmem

/-- C23 (amended): after any non-empty run of Mark passes that find the same resource
non-compliant with the same id and the same tags, listed in any order (tag keys distinct),
the cache is the one the first pass left; the owner's set is the former set, plus the one
serialized record unless it was there; and when no entry of the former set deserialized to
a record with that id, at most one entry of the set does afterwards. -/
theorem remark_same_tags (L : Lib) (am : AwsMarker) (canType : String) (obj : AwsObject)
    (first : Int × AwsObject) (rest : List (Int × AwsObject)) (c : RedisCache)
    (hsame : ∀ p ∈ first :: rest, (ExtractTags p.2).1 = (ExtractTags obj).1 ∧
      (ExtractTags obj).2.1.Perm (ExtractTags p.2).2.1)
    (hnodup : ((ExtractTags obj).2.1.map Tag.Key).Nodup)
    (hfresh : ∀ e ∈ c.ReadCandidates (tagOrNil "owner" (ExtractTags obj).2.1),
      ∀ m, slotOf L e = some m → m.Id ≠ (ExtractTags obj).1) :
    markPasses L am canType (first :: rest) c = ttlRejected L am first.1 c obj canType ∧
    (markPasses L am canType (first :: rest) c).ReadCandidates
        (tagOrNil "owner" (ExtractTags obj).2.1)
      = (if L.jsonMarshal (markedOf am obj canType)
            ∈ c.ReadCandidates (tagOrNil "owner" (ExtractTags obj).2.1)
        then c.ReadCandidates (tagOrNil "owner" (ExtractTags obj).2.1)
        else c.ReadCandidates (tagOrNil "owner" (ExtractTags obj).2.1)
          ++ [L.jsonMarshal (markedOf am obj canType)]) ∧
    (((markPasses L am canType (first :: rest) c).ReadCandidates
        (tagOrNil "owner" (ExtractTags obj).2.1)).filter
      (fun e => (slotOf L e).any (fun m => decide (m.Id = (ExtractTags obj).1)))).length
      ≤ 1 := by
  have hsame' : ∀ p ∈ first :: rest, (ExtractTags p.2).1 = (ExtractTags obj).1 ∧
      tagOrNil "owner" (ExtractTags p.2).2.1 = tagOrNil "owner" (ExtractTags obj).2.1 ∧
      markedOf am p.2 canType = markedOf am obj canType := by
    intro p hp
    obtain ⟨h1, h2⟩ := hsame p hp
    exact ⟨h1, (tagOrNil_perm "owner" _ _ h2 hnodup).symm,
      (markedOf_perm am obj p.2 canType h1.symm h2 hnodup).symm⟩
  obtain ⟨f1, f2, f3⟩ := hsame' first (List.mem_cons_self _ _)
  have hfirst : ttlRejected L am first.1 c first.2 canType
      = ttlRejected L am first.1 c obj canType :=
    ttlRejected_congr L am first.1 c first.2 obj canType f1 f2 f3
  have hset := ttlRejected_candidates L am first.1 c obj canType
  have hmem : L.jsonMarshal (markedOf am obj canType)
      ∈ (ttlRejected L am first.1 c obj canType).sets
        ("bilge:candidates:" ++ tagOrNil "owner" (ExtractTags obj).2.1) := by
    rw [hset]
    split_ifs with h
    · exact h
    · simp
  have hall : markPasses L am canType (first :: rest) c
      = ttlRejected L am first.1 c obj canType := by
    have : markPasses L am canType (first :: rest) c
        = markPasses L am canType rest (ttlRejected L am first.1 c first.2 canType) := rfl
    rw [this, hfirst]
    exact markPasses_known L am canType obj rest
      (fun q hq => hsame' q (List.mem_cons_of_mem _ hq)) _ hmem
  have hzero : (c.ReadCandidates (tagOrNil "owner" (ExtractTags obj).2.1)).filter
      (fun e => (slotOf L e).any (fun m => decide (m.Id = (ExtractTags obj).1))) = [] := by
    rw [List.filter_eq_nil_iff]
    intro e he
    cases hs : slotOf L e with
    | none => simp
    | some m => simpa using hfresh e he m hs
  refine ⟨hall, ?_, ?_⟩
  · rw [hall]
    exact hset
  · rw [hall]
    have hset' : (ttlRejected L am first.1 c obj canType).ReadCandidates
        (tagOrNil "owner" (ExtractTags obj).2.1) = _ := hset
    rw [hset']
    split_ifs with h
    · have : (c.sets ("bilge:candidates:" ++ tagOrNil "owner" (ExtractTags obj).2.1)).filter
          (fun e => (slotOf L e).any (fun m => decide (m.Id = (ExtractTags obj).1))) = [] :=
        hzero
      rw [this]
      simp
    · rw [List.filter_append]
      have : (c.sets ("bilge:candidates:" ++ tagOrNil "owner" (ExtractTags obj).2.1)).filter
          (fun e => (slotOf L e).any (fun m => decide (m.Id = (ExtractTags obj).1))) = [] :=
        hzero
      rw [this, List.nil_append]
      exact (List.length_filter_le _ _).trans (by simp)

set_option maxRecDepth 100000 in
theorem remark_same_tags_witness :
    recordIds (goLib noRegex)
      (markPasses (goLib noRegex) sampleMarker "ec2"
        [(0, AwsObject.instance ownedInstance), (5, AwsObject.instance ownedInstanceSwapped),
         (2 * oneDay, AwsObject.instance ownedInstance)] RedisCache.empty) "bob" = ["i-0def"] ∧
    (((markPasses (goLib noRegex) sampleMarker "ec2"
        [(0, AwsObject.instance ownedInstance), (5, AwsObject.instance ownedInstanceSwapped),
         (2 * oneDay, AwsObject.instance ownedInstance)] RedisCache.empty).ReadCandidates
        (tagOrNil "owner" (ExtractTags (AwsObject.instance ownedInstance)).2.1)).filter
      (fun e => (slotOf (goLib noRegex) e).any (fun m => decide (m.Id
        = (ExtractTags (AwsObject.instance ownedInstance)).1)))).length ≤ 1 :=
  ⟨by decide,
   (remark_same_tags (goLib noRegex) sampleMarker "ec2" (AwsObject.instance ownedInstance)
      (0, AwsObject.instance ownedInstance)
      [(5, AwsObject.instance ownedInstanceSwapped),
       (2 * oneDay, AwsObject.instance ownedInstance)] RedisCache.empty
      (by decide) (by decide) (by decide)).2.2⟩

set_option maxRecDepth 100000 in
/-- C23: two Mark passes over the instance `i-0def` of `bob`, which has no ttl tag in either
and whose `Name` tag changed from `web` to `db` in between, leave two records with the id
`i-0def` in the set of `bob`. -/
theorem remark_changed_tag_duplicates :
    classify (ec2Chain (goLib noRegex) sampleMarker 0 ownedInstance)
      = some Disposition.NonCompliant ∧
    classify (ec2Chain (goLib noRegex) sampleMarker 5 renamedInstance)
      = some Disposition.NonCompliant ∧
    recordIds (goLib noRegex)
      (markPasses (goLib noRegex) sampleMarker "ec2"
        [(0, AwsObject.instance ownedInstance), (5, AwsObject.instance renamedInstance)]
        RedisCache.empty) "bob" = ["i-0def", "i-0def"] ∧
    ((FilterAwsObject (goLib noRegex) sampleMarker 0 RedisCache.empty
        (ec2Chain (goLib noRegex) sampleMarker 0 ownedInstance)).bind
      (fun c => FilterAwsObject (goLib noRegex) sampleMarker 5 c
        (ec2Chain (goLib noRegex) sampleMarker 5 renamedInstance))).map
      (fun c => recordIds (goLib noRegex) c "bob") = some ["i-0def", "i-0def"] := by
  refine ⟨by decide, by decide, by decide, by decide⟩

/-! ## Collecting the digests -/

/-- The second loop of `Collect` ends at the first owner whose set is empty: the owners
after it get no delivery. -/
theorem collectLoop_stops (L : Lib) (config : Config) (defaultOwner : Option UserRef)
    (targets : String → Option UserRef) (c : RedisCache) (o : String) (rest : List String)
    (sent : List (String × List SlackPost)) (hempty : c.ReadCandidates o = []) :
    collectLoop L config defaultOwner targets c (o :: rest) sent = some sent := by
  simp [collectLoop, BuildCandidates, hempty]

set_option maxRecDepth 100000 in
/-- C21: with the owners `""` and `bob` in the owners set, where the set of `""` is empty
after its record was retracted and `bob` has the record of `i-0def`, `Collect` makes no
delivery at all; before the retraction it delivers to both owners. -/
theorem Collect_stops_at_empty_owner :
    firstOwnerRetracted.ReadOwners = ["", "bob"] ∧
    firstOwnerRetracted.ReadCandidates "" = [] ∧
    recordIds (goLib noRegex) firstOwnerRetracted "bob" = ["i-0def"] ∧
    BuildCandidates (goLib noRegex) "" firstOwnerRetracted
      = Except.error ⟨"no candidates to mark"⟩ ∧
    Collect (goLib noRegex) (fun _ => false) emptyWorkspace loadedConfig (some sampleUser)
      firstOwnerRetracted = some [] ∧
    (Collect (goLib noRegex) (fun _ => false) emptyWorkspace loadedConfig (some sampleUser)
      twoOwners).map (fun sent => sent.map
        (fun d => (d.1, d.2.map (fun p => p.attachments.map (fun a => a.Text)))))
      = some [("", [["i-0abc"]]), ("bob", [["i-0def"]])] := by
  refine ⟨by decide, by decide, by decide, by decide, by decide, by decide⟩

/-! ## Dispatch by kind -/

theorem validAwsCandidates_iff (kind : String) :
    validAwsCandidates kind = true ↔
      kind ∈ ["elb", "ec2", "eks", "alb", "ebs", "sg", "ec", "asg", "lc"] := by
  simp only [validAwsCandidates, List.lookup, List.mem_cons, List.mem_singleton,
    List.not_mem_nil, or_false]
  by_cases h1 : kind = "elb"
  · simp [h1]
  by_cases h2 : kind = "ec2"
  · simp [h2]
  by_cases h3 : kind = "eks"
  · simp [h3]
  by_cases h4 : kind = "alb"
  · simp [h4]
  by_cases h5 : kind = "ebs"
  · simp [h5]
  by_cases h6 : kind = "sg"
  · simp [h6]
  by_cases h7 : kind = "ec"
  · simp [h7]
  by_cases h8 : kind = "asg"
  · simp [h8]
  by_cases h9 : kind = "lc"
  · simp [h9]
  have e1 : (kind == "elb") = false := by simpa using h1
  have e2 : (kind == "ec2") = false := by simpa using h2
  have e3 : (kind == "eks") = false := by simpa using h3
  have e4 : (kind == "alb") = false := by simpa using h4
  have e5 : (kind == "ebs") = false := by simpa using h5
  have e6 : (kind == "sg") = false := by simpa using h6
  have e7 : (kind == "ec") = false := by simpa using h7
  have e8 : (kind == "asg") = false := by simpa using h8
  have e9 : (kind == "lc") = false := by simpa using h9
  simp [e1, e2, e3, e4, e5, e6, e7, e8, e9, h1, h2, h3, h4, h5, h6, h7, h8, h9]

/-- Every kind of `validAwsCandidates` is a key of both registries. -/
theorem registries_cover {σ : Type} (H : AwsHandlers σ) (kind : String)
    (h : validAwsCandidates kind = true) :
    ((markFuncMap H).lookup kind).isSome ∧ ((sweepFuncMap H).lookup kind).isSome := by
  have := (validAwsCandidates_iff kind).1 h
  simp only [List.mem_cons, List.mem_singleton, List.not_mem_nil, or_false] at this
  rcases this with rfl | rfl | rfl | rfl | rfl | rfl | rfl | rfl | rfl <;>
    exact ⟨rfl, rfl⟩

theorem isAwsCandidate_ok (Candidates : List String) (h : isAwsCandidate Candidates = none) :
    ∀ c ∈ Candidates, validAwsCandidates c = true := by
  intro c hc
  simp only [isAwsCandidate] at h
  split_ifs at h with hlen
  have hnil : Candidates.filter (fun i => !validAwsCandidates i) = [] := by
    have : (Candidates.filter (fun i => !validAwsCandidates i)).length = 0 := by
      simpa using hlen
    exact List.length_eq_zero.1 this
  have := (List.filter_eq_nil_iff.1 hnil) c hc
  simpa using this

/-- The dispatch loop over kinds that all have a handler calls them one after the other. -/
theorem runCandidates_spec {σ : Type} (fm : List (String × Handler σ)) :
    ∀ (Candidates : List String) (s : σ) (called : List String),
      (∀ c ∈ Candidates, (fm.lookup c).isSome) →
      runCandidates fm Candidates (s, called)
        = some (Candidates.foldl (fun s c =>
            match fm.lookup c with
            | some h => (h s).2
            | none => s) s, called ++ Candidates) := by
  intro Candidates
  induction Candidates with
  | nil => intro s called _; simp [runCandidates]
  | cons c rest ih =>
    intro s called hall
    obtain ⟨h, hh⟩ := Option.isSome_iff_exists.1 (hall c (List.mem_cons_self _ _))
    simp only [runCandidates, hh, List.foldl_cons]
    rw [ih _ _ (fun x hx => hall x (List.mem_cons_of_mem _ hx))]
    simp

/-- C22 (amended): the registry of `Mark` maps each of the nine kinds of
`validAwsCandidates` to the Mark method of that kind and the registry of `Sweep` maps it to
the Sweep method of that kind, so every kind that validation accepts has a handler in both.
For a candidates list that `isAwsCandidate` accepts, `Mark` and `Sweep` each return after
calling one handler per list entry, in list order, each on the state the one before left,
whatever errors the handlers return: a kind is called as often as the list names it. -/
theorem dispatch_every_kind {σ : Type} (H : AwsHandlers σ) (Candidates : List String) (s : σ)
    (hvalid : isAwsCandidate Candidates = none) :
    ((markFuncMap H).lookup "ec2" = some H.markEc2 ∧
      (markFuncMap H).lookup "eks" = some H.markEks ∧
      (markFuncMap H).lookup "ebs" = some H.markEbs ∧
      (markFuncMap H).lookup "sg" = some H.markSG ∧
      (markFuncMap H).lookup "elb" = some H.markElb ∧
      (markFuncMap H).lookup "alb" = some H.markAlb ∧
      (markFuncMap H).lookup "ec" = some H.markElasticache ∧
      (markFuncMap H).lookup "asg" = some H.markAsg ∧
      (markFuncMap H).lookup "lc" = some H.markLaunchConfig) ∧
    ((sweepFuncMap H).lookup "ec2" = some H.sweepEc2 ∧
      (sweepFuncMap H).lookup "eks" = some H.sweepEks ∧
      (sweepFuncMap H).lookup "ebs" = some H.sweepEbs ∧
      (sweepFuncMap H).lookup "sg" = some H.sweepSG ∧
      (sweepFuncMap H).lookup "elb" = some H.sweepElb ∧
      (sweepFuncMap H).lookup "alb" = some H.sweepAlb ∧
      (sweepFuncMap H).lookup "ec" = some H.sweepElasticache ∧
      (sweepFuncMap H).lookup "asg" = some H.sweepAsg ∧
      (sweepFuncMap H).lookup "lc" = some H.sweepLaunchConfig) ∧
    (∀ kind, validAwsCandidates kind = true ↔
      kind ∈ ["elb", "ec2", "eks", "alb", "ebs", "sg", "ec", "asg", "lc"]) ∧
    (∀ kind, validAwsCandidates kind = true →
      ((markFuncMap H).lookup kind).isSome ∧ ((sweepFuncMap H).lookup kind).isSome) ∧
    (∀ c ∈ Candidates, validAwsCandidates c = true) ∧
    Mark H Candidates s
      = some (Candidates.foldl (fun s c =>
          match (markFuncMap H).lookup c with
          | some h => (h s).2
          | none => s) s, Candidates) ∧
    Sweep H Candidates s
      = some (Candidates.foldl (fun s c =>
          match (sweepFuncMap H).lookup c with
          | some h => (h s).2
          | none => s) s, Candidates) ∧
    (∀ st called, Mark H Candidates s = some (st, called) →
      ∀ kind, called.count kind = Candidates.count kind) ∧
    (∀ st called, Sweep H Candidates s = some (st, called) →
      ∀ kind, called.count kind = Candidates.count kind) := by
  have hall := isAwsCandidate_ok Candidates hvalid
  have hM : Mark H Candidates s
      = some (Candidates.foldl (fun s c =>
          match (markFuncMap H).lookup c with
          | some h => (h s).2
          | none => s) s, Candidates) := by
    have := runCandidates_spec (markFuncMap H) Candidates s []
      (fun c hc => (registries_cover H c (hall c hc)).1)
    simpa [Mark] using this
  have hS : Sweep H Candidates s
      = some (Candidates.foldl (fun s c =>
          match (sweepFuncMap H).lookup c with
          | some h => (h s).2
          | none => s) s, Candidates) := by
    have := runCandidates_spec (sweepFuncMap H) Candidates s []
      (fun c hc => (registries_cover H c (hall c hc)).2)
    simpa [Sweep] using this
  refine ⟨⟨rfl, rfl, rfl, rfl, rfl, rfl, rfl, rfl, rfl⟩,
    ⟨rfl, rfl, rfl, rfl, rfl, rfl, rfl, rfl, rfl⟩, validAwsCandidates_iff,
    fun kind hk => registries_cover H kind hk, hall, hM, hS, ?_, ?_⟩
  · intro st called h kind
    rw [hM] at h
    simp only [Option.some.injEq, Prod.mk.injEq] at h
    rw [← h.2]
  · intro st called h kind
    rw [hS] at h
    simp only [Option.some.injEq, Prod.mk.injEq] at h
    rw [← h.2]

set_option maxRecDepth 100000 in
theorem dispatch_every_kind_witness :
    isAwsCandidate ["ec2", "asg", "lc"] = none ∧
    (loggingHandlers.markEc2 []).1 = some "RequestLimitExceeded" ∧
    Mark loggingHandlers ["ec2", "asg", "lc"] []
      = some (["markEc2", "markAsg", "markLaunchConfig"], ["ec2", "asg", "lc"]) ∧
    Sweep loggingHandlers ["ec2", "asg", "lc"] []
      = some (["sweepEc2", "sweepAsg", "sweepLaunchConfig"], ["ec2", "asg", "lc"]) := by
  have h := dispatch_every_kind loggingHandlers ["ec2", "asg", "lc"] [] (by decide)
  refine ⟨by decide, rfl, ?_, ?_⟩
  · rw [h.2.2.2.2.2.1]; decide
  · rw [h.2.2.2.2.2.2.1]; decide

set_option maxRecDepth 100000 in
/-- C22: validation accepts the candidates list that names `lc` twice, and `Mark` and `Sweep`
then call the handler of `lc` twice. -/
theorem duplicate_kind_called_twice :
    isAwsCandidate ["lc", "lc"] = none ∧
    Mark loggingHandlers ["lc", "lc"] []
      = some (["markLaunchConfig", "markLaunchConfig"], ["lc", "lc"]) ∧
    Sweep loggingHandlers ["lc", "lc"] []
      = some (["sweepLaunchConfig", "sweepLaunchConfig"], ["lc", "lc"]) := by
  refine ⟨by decide, by decide, by decide⟩

end Bilgepump
